import Mathlib

/-!
# Gomoku with an adaptive opponent: board, move search and rating controller

A shallow embedding of `src/game.js` (board, win detection, AI move selection)
and `src/elo.js` (rating and difficulty controller).

Conventions of the embedding:

* JavaScript numbers that hold board coordinates or counters are `Int`/`Nat`.
* JavaScript numbers that hold ratings, scores and weights are elements of a
  linearly ordered field `F` (evaluable at `ℚ`), and `Math.pow`, `Math.exp`
  and `Math.sqrt` are the fields of a record `JSMath F`.  A theorem that needs
  nothing about these functions is proved for every `F` and every `JSMath F`;
  a theorem that needs them is stated over `ℝ` with the real functions.
  The arithmetic of `selectRandomMove` passes every result through the
  rounding `fl` of that record, which is the identity over `ℝ` and the
  rounding to the nearest double in `doubleMath`; the other functions are in
  exact arithmetic.  `NaN` and the infinities are outside the model (the one
  `-Infinity` of the code, the initial maximum of a search, is `none`).
* The global `board` is passed explicitly as a list of rows; the functions
  that write to it return the board they leave behind.
-/

namespace Gomoku

/-! ## game.js: the board -/

/-- `const BOARD_SIZE = 15`. -/
def BOARD_SIZE : Int := 15

/-- The global `board`, an array of 15 rows of 15 numbers: `0` is Empty, `1`
the human (black), `2` the computer (white). -/
abbrev Board := List (List Nat)

/-- A cell `[row, col]`. -/
abbrev Cell := Int × Int

/-- The read `board[r][c]`.  The code reads only at coordinates that it has
checked to be in range or that come from the scanning loops. -/
def getCell (b : Board) (r c : Int) : Nat :=
  (b.getD r.toNat []).getD c.toNat 0

/-- The assignment `board[r][c] = v`.  The code assigns only at coordinates
that come from the scanning loops. -/
def setCell (b : Board) (r c : Int) (v : Nat) : Board :=
  b.set r.toNat ((b.getD r.toNat []).set c.toNat v)

/-- `Array(BOARD_SIZE).fill().map(() => Array(BOARD_SIZE).fill(0))`. -/
def emptyBoard : Board := List.replicate 15 (List.replicate 15 0)

/-- The range test `r >= 0 && r < BOARD_SIZE && c >= 0 && c < BOARD_SIZE`. -/
def inRange (r c : Int) : Prop :=
  0 ≤ r ∧ r < BOARD_SIZE ∧ 0 ≤ c ∧ c < BOARD_SIZE

instance (r c : Int) : Decidable (inRange r c) := by
  unfold inRange; infer_instance

/-- The cells in the order of the nested loops
`for (i = 0; i < BOARD_SIZE; i++) for (j = 0; j < BOARD_SIZE; j++)`. -/
def cells : List Cell :=
  (List.range 15).flatMap (fun (i : Nat) =>
    (List.range 15).map (fun (j : Nat) => ((i : Int), (j : Int))))

/-! ## game.js: `checkWin` -/

/-- One of the two counting loops of `checkWin`:
`for (i = 1; i <= 4; i++) { newRow = row + i*dr; newCol = col + i*dc;
  if (out of range || board[newRow][newCol] !== player) break; count++; }`
started at step `i` with `fuel` iterations left; returns the number of
increments of `count`.  The forward loop has `(dr, dc) = (dx, dy)`, the
backward loop `(dr, dc) = (-dx, -dy)`. -/
def countLoop (b : Board) (row col dr dc : Int) (player : Nat) : Nat → Int → Nat
  | 0, _ => 0
  | fuel + 1, i =>
    let newRow := row + i * dr
    let newCol := col + i * dc
    if newRow < 0 ∨ newRow ≥ BOARD_SIZE ∨ newCol < 0 ∨ newCol ≥ BOARD_SIZE
        ∨ getCell b newRow newCol ≠ player then 0
    else 1 + countLoop b row col dr dc player fuel (i + 1)

/-- The array `directions` of `checkWin`. -/
def directions : List (Int × Int) := [(0, 1), (1, 0), (1, 1), (1, -1)]

/-- The value of `count` at the test `count >= 5` for the direction `(dx, dy)`. -/
def lineCount (b : Board) (row col : Int) (player : Nat) (dx dy : Int) : Nat :=
  1 + countLoop b row col dx dy player 4 1 + countLoop b row col (-dx) (-dy) player 4 1

/-- `checkWin(row, col, player)`. -/
def checkWin (b : Board) (row col : Int) (player : Nat) : Bool :=
  directions.any (fun d => decide (lineCount b row col player d.1 d.2 ≥ 5))

/-- `isBoardFull()`. -/
def isBoardFull (b : Board) : Bool :=
  cells.all (fun c => decide (getCell b c.1 c.2 ≠ 0))

/-! ## game.js: `findWinningMove` -/

/-- The first pair of loops of `findWinningMove` over the remaining cells:
place `player` on each Empty cell, test `checkWin`, put Empty back. -/
def scanImmediate (player : Nat) : List Cell → Board → Option Cell × Board
  | [], b => (none, b)
  | (i, j) :: rest, b =>
    if getCell b i j = 0 then
      let b1 := setCell b i j player
      if checkWin b1 i j player then (some (i, j), setCell b1 i j 0)
      else scanImmediate player rest (setCell b1 i j 0)
    else scanImmediate player rest b

/-- The loops over the opponent's replies `(x, y)`, guarded by `&& canWin`:
`find` is `findWinningMove(player, depth - 1)`. -/
def scanReplies (find : Board → Option Cell × Board) (opponent : Nat) :
    List Cell → Bool → Board → Bool × Board
  | [], canWin, b => (canWin, b)
  | (x, y) :: rest, canWin, b =>
    if canWin then
      if getCell b x y = 0 then
        let b1 := setCell b x y opponent
        let r := find b1
        let canWin1 := if r.1.isNone then false else canWin
        scanReplies find opponent rest canWin1 (setCell r.2 x y 0)
      else scanReplies find opponent rest canWin b
    else (canWin, b)

/-- The second pair of loops of `findWinningMove` (run when `depth > 1`). -/
def scanForced (find : Board → Option Cell × Board) (player : Nat) :
    List Cell → Board → Option Cell × Board
  | [], b => (none, b)
  | (i, j) :: rest, b =>
    if getCell b i j = 0 then
      let b1 := setCell b i j player
      let opponent := if player = 1 then 2 else 1
      let r := scanReplies find opponent cells true b1
      let b3 := setCell r.2 i j 0
      if r.1 then (some (i, j), b3) else scanForced find player rest b3
    else scanForced find player rest b

/-- `findWinningMove(player, depth)`: the result (`none` is `null`) and the
board left behind.  The recursion is on `depth`; every `depth <= 1` runs the
first loops only. -/
def findWinningMove (player : Nat) : Nat → Board → Option Cell × Board
  | 0, b => scanImmediate player cells b
  | d + 1, b =>
    match scanImmediate player cells b with
    | (some c, b1) => (some c, b1)
    | (none, b1) =>
      if d + 1 > 1 then scanForced (findWinningMove player d) player cells b1
      else (none, b1)

/-! ## Numbers and the `Math` object -/

/-- The functions of the JavaScript `Math` object that the code applies to
non-integers; `Math.max`, `Math.min` and `Math.floor` are `max`, `min` and
the floor of `F`. -/
structure JSMath (F : Type) where
  /-- `Math.pow(x, y)` -/
  pow : F → F → F
  /-- `Math.exp(x)` -/
  exp : F → F
  /-- `Math.sqrt(x)` -/
  sqrt : F → F
  /-- The rounding of the result of an arithmetic operation to a number of the
  number type: the identity in exact arithmetic, `roundDouble` for the doubles
  of JavaScript.  It is applied in `selectRandomMove`, the one function with a
  statement (its last `return`) that only rounded arithmetic reaches. -/
  fl : F → F

/-- The object returned by `getAIParams()`. -/
structure AIParams (F : Type) where
  searchDepth : Int
  aggressiveness : F
  defensiveness : F
  mistakeRate : F

section Game

variable {F : Type} [LinearOrderedField F] [FloorRing F]

/-! ## game.js: `evaluateDirection` and `evaluateBoard` -/

/-- What one run of the inner `for (step = 1; step <= 4; step++)` loop of
`evaluateDirection` leaves behind: `currentPlayerCount`, `currentEmptyCount`,
`blocked`, and the number of times it executed `potential++`. -/
structure Walk where
  currentPlayerCount : Nat
  currentEmptyCount : Nat
  blocked : Bool
  potential : Nat
  deriving DecidableEq, Repr

/-- The inner loop of `evaluateDirection` for one value of `direction`,
started at `step` with `fuel` iterations left and `cpc` same-side marks
counted so far. -/
def walkLoop (b : Board) (row col dx dy : Int) (player : Nat) (direction : Int) :
    Nat → Int → Nat → Walk
  | 0, _, cpc => ⟨cpc, 0, false, 0⟩
  | fuel + 1, step, cpc =>
    let r := row + step * direction * dx
    let c := col + step * direction * dy
    if r ≥ 0 ∧ r < BOARD_SIZE ∧ c ≥ 0 ∧ c < BOARD_SIZE then
      if getCell b r c = player then
        walkLoop b row col dx dy player direction fuel (step + 1) (cpc + 1)
      else if getCell b r c = 0 then
        ⟨cpc, 1, false,
          if step > 1 ∧ getCell b (r - direction * dx) (c - direction * dy) = player then 1 else 0⟩
      else ⟨cpc, 0, true, 0⟩
    else ⟨cpc, 0, true, 0⟩

/-- The value of `playerCount` after the two walks (`direction = -1`, then `1`). -/
def dirPlayerCount (b : Board) (row col dx dy : Int) (player : Nat) : Nat :=
  let w1 := walkLoop b row col dx dy player (-1) 4 1 0
  let w2 := walkLoop b row col dx dy player 1 4 1 0
  (if w1.blocked then 0 else w1.currentPlayerCount)
    + (if w2.blocked then 0 else w2.currentPlayerCount)

/-- The value of `emptyCount` after the two walks. -/
def dirEmptyCount (b : Board) (row col dx dy : Int) (player : Nat) : Nat :=
  let w1 := walkLoop b row col dx dy player (-1) 4 1 0
  let w2 := walkLoop b row col dx dy player 1 4 1 0
  (if w1.blocked then 0 else w1.currentEmptyCount)
    + (if w2.blocked then 0 else w2.currentEmptyCount)

/-- The value of `potential` after the two walks. -/
def dirPotential (b : Board) (row col dx dy : Int) (player : Nat) : Nat :=
  (walkLoop b row col dx dy player (-1) 4 1 0).potential
    + (walkLoop b row col dx dy player 1 4 1 0).potential

/-- The value of `score` after the scoring table of `evaluateDirection`. -/
def dirBaseScore (b : Board) (row col dx dy : Int) (player : Nat) : F :=
  let playerCount := dirPlayerCount b row col dx dy player
  let emptyCount := dirEmptyCount b row col dx dy player
  let potential := dirPotential b row col dx dy player
  if playerCount ≥ 4 then 100000
  else if playerCount = 3 ∧ emptyCount ≥ 1 then 10000
  else if playerCount = 2 ∧ emptyCount ≥ 2 then 1000
  else if playerCount = 1 ∧ emptyCount ≥ 3 then 100
  else if potential ≥ 2 then 500
  else 0

/-- `evaluateDirection(row, col, dx, dy, player, depth)`. -/
def evaluateDirection (b : Board) (row col dx dy : Int) (player : Nat) (depth : Int) : F :=
  let score : F := dirBaseScore b row col dx dy player
  if depth > 1 ∧ score > 0 then score * (1 + (depth : F) * 0.2) else score

/-- `Math.sqrt(Math.pow(i - 7, 2) + Math.pow(j - 7, 2))`. -/
def centerDistance (m : JSMath F) (i j : Int) : F :=
  m.sqrt (m.pow ((i : F) - 7) 2 + m.pow ((j : F) - 7) 2)

/-- `evaluateBoard(player, aiParams)`: the entry `scores[i][j]` of the grid it
returns.  The grid starts filled with `0` and only Empty cells are assigned. -/
def evaluateBoard (m : JSMath F) (b : Board) (player : Nat) (aiParams : AIParams F)
    (i j : Int) : F :=
  let searchDepth := aiParams.searchDepth
  if getCell b i j = 0 then
    let centerDist := centerDistance m i j
    let s0 : F := (14 - centerDist) * (1 + (searchDepth : F) * 0.1)
    let s1 : F := s0 + (evaluateDirection b i j 0 1 player searchDepth
      + evaluateDirection b i j 1 0 player searchDepth
      + evaluateDirection b i j 1 1 player searchDepth
      + evaluateDirection b i j 1 (-1) player searchDepth)
    if (i = 3 ∨ i = 11) ∧ (j = 3 ∨ j = 7 ∨ j = 11) then s1 + 5 * (searchDepth : F)
    else s1
  else 0

/-! ## game.js: `findStrategicMove` -/

/-- The four local variables of `findStrategicMove`; a maximum that is still
`-Infinity` is `none`, a move that is still `null` is `none`. -/
structure Best (F : Type) where
  maxAttackScore : Option F
  maxDefenseScore : Option F
  bestAttackMove : Option Cell
  bestDefenseMove : Option Cell

/-- The comparison `x > max` where `max` may be `-Infinity`. -/
def exceeds (x : F) : Option F → Bool
  | none => true
  | some mx => decide (x > mx)

/-- The body of the scanning loops of `findStrategicMove` at an Empty cell
`(i, j)`: the two `if (... > max...)` updates. -/
def strategicStep (attackScore defenseScore : Int → Int → F) (aiParams : AIParams F)
    (i j : Int) (s : Best F) : Best F :=
  let attack := attackScore i j * aiParams.aggressiveness
  let defense := defenseScore i j * aiParams.defensiveness
  let s1 : Best F :=
    if exceeds attack s.maxAttackScore then
      { s with maxAttackScore := some attack, bestAttackMove := some (i, j) }
    else s
  if exceeds defense s1.maxDefenseScore then
    { s1 with maxDefenseScore := some defense, bestDefenseMove := some (i, j) }
  else s1

/-- The scanning loops of `findStrategicMove`. -/
def strategicLoop (attackScore defenseScore : Int → Int → F) (b : Board)
    (aiParams : AIParams F) : List Cell → Best F → Best F
  | [], s => s
  | (i, j) :: rest, s =>
    if getCell b i j = 0 then
      strategicLoop attackScore defenseScore b aiParams rest
        (strategicStep attackScore defenseScore aiParams i j s)
    else strategicLoop attackScore defenseScore b aiParams rest s

/-- `findStrategicMove(aiParams)`.  When no Empty cell was seen both maxima
are still `-Infinity` and both moves still `null`, so whichever branch the
final comparison takes, `null` is returned. -/
def findStrategicMove (m : JSMath F) (b : Board) (aiParams : AIParams F) : Option Cell :=
  let attackScore := evaluateBoard m b 2 aiParams
  let defenseScore := evaluateBoard m b 1 aiParams
  let s := strategicLoop attackScore defenseScore b aiParams cells ⟨none, none, none, none⟩
  let attackWeight := 0.4 + aiParams.aggressiveness * 0.4
  let defenseWeight := 0.6 + aiParams.defensiveness * 0.3
  match s.maxAttackScore, s.maxDefenseScore with
  | some maxAttackScore, some maxDefenseScore =>
    if maxAttackScore * attackWeight ≥ maxDefenseScore * defenseWeight then s.bestAttackMove
    else s.bestDefenseMove
  | _, _ => none

/-! ## game.js: `selectRandomMove` and `selectOptimalMove` -/

/-- The value `moveCount` computed inside `selectRandomMove`: the number of
non-Empty cells. -/
def moveCount (b : Board) : Nat :=
  (cells.filter (fun c => decide (getCell b c.1 c.2 ≠ 0))).length

/-- The list `emptyCells` built by `selectRandomMove`: `(row, col, weight)`.
Each of `1 + distanceToCenter`, `10 / ...` and `weight * ...` is rounded; the
sum of the two squares inside `distanceToCenter` is a sum of two integers
below 50, which no rounding changes. -/
def emptyCells (m : JSMath F) (b : Board) : List (Int × Int × F) :=
  (cells.filter (fun c => decide (getCell b c.1 c.2 = 0))).map (fun c =>
    let centerBias : F := 3
    let distanceToCenter := centerDistance m c.1 c.2
    let weight : F := m.fl (10 / m.fl (1 + distanceToCenter))
    let centerWeight : F := if moveCount b < 10 then 5 else 1
    (c.1, c.2, m.fl (weight * (if distanceToCenter ≤ centerBias then centerWeight else 1))))

/-- The loop `for (const cell of emptyCells)` of `selectRandomMove`; `none`
when the loop ends without returning. -/
def pickLoop (m : JSMath F) : List (Int × Int × F) → F → Option Cell
  | [], _ => none
  | (row, col, weight) :: rest, random =>
    if random < weight then some (row, col) else pickLoop m rest (m.fl (random - weight))

/-- `selectRandomMove()`, `u` being the value of its call of `Math.random()`. -/
def selectRandomMove (m : JSMath F) (b : Board) (u : F) : Cell :=
  match emptyCells m b with
  | [] => (0, 0)
  | e :: es =>
    let totalWeight :=
      ((e :: es).map (fun cell => cell.2.2)).foldl (fun sum w => m.fl (sum + w)) 0
    let random := m.fl (u * totalWeight)
    match pickLoop m (e :: es) random with
    | some cell => cell
    | none => (e.1, e.2.1)

/-- The scanning loops of `selectOptimalMove`: `maxScore` (`none` is
`-Infinity`) and `bestMoves`. -/
def optimalLoop (scores : Int → Int → F) (b : Board) :
    List Cell → Option F × List Cell → Option F × List Cell
  | [], s => s
  | (i, j) :: rest, (maxScore, bestMoves) =>
    if getCell b i j = 0 then
      if exceeds (scores i j) maxScore then
        optimalLoop scores b rest (some (scores i j), [(i, j)])
      else if maxScore = some (scores i j) then
        optimalLoop scores b rest (maxScore, bestMoves ++ [(i, j)])
      else optimalLoop scores b rest (maxScore, bestMoves)
    else optimalLoop scores b rest (maxScore, bestMoves)

/-- `selectOptimalMove(aiParams)`, `u` being the value of its call of
`Math.random()` (made by itself or by `selectRandomMove`); `none` is the
`undefined` of an index outside `bestMoves`. -/
def selectOptimalMove (m : JSMath F) (b : Board) (aiParams : AIParams F) (u : F) :
    Option Cell :=
  let scores := evaluateBoard m b 2 aiParams
  let bestMoves := (optimalLoop scores b cells (none, [])).2
  if bestMoves.length > 0 then
    let k : Int := ⌊u * (bestMoves.length : F)⌋
    if 0 ≤ k then bestMoves.get? k.toNat else none
  else some (selectRandomMove m b u)

/-! ## game.js: `makeAIMove` -/

/-- `makeAIMove()`: the move it resolves to (`completeMove` only delays it)
and the board it leaves behind.  `aiParams` is the value of
`eloSystem.getAIParams()`; `rnd k` is the value of the `k`-th call of
`Math.random()`: `rnd 0` goes into `thinkTime`, `rnd 1` is compared with
`mistakeRate`, `rnd 2` is the draw of `selectRandomMove` or
`selectOptimalMove`.  `findWinningMove` is called with the integer
`searchDepth`; a depth below `1` runs the same code as depth `1`. -/
def makeAIMove (m : JSMath F) (b : Board) (aiParams : AIParams F) (rnd : Nat → F) :
    Option Cell × Board :=
  if rnd 1 < aiParams.mistakeRate then (some (selectRandomMove m b (rnd 2)), b)
  else
    let winningMove := findWinningMove 2 aiParams.searchDepth.toNat b
    match winningMove.1 with
    | some c => (some c, winningMove.2)
    | none =>
      let blockingMove := findWinningMove 1 aiParams.searchDepth.toNat winningMove.2
      match blockingMove.1 with
      | some c => (some c, blockingMove.2)
      | none =>
        match findStrategicMove m blockingMove.2 aiParams with
        | some c => (some c, blockingMove.2)
        | none => (selectOptimalMove m blockingMove.2 aiParams (rnd 2), blockingMove.2)

end Game

/-! ## elo.js: the rating and difficulty controller -/

/-- The argument `winner` of `updateEloRatings`; `endGame` passes `'player'`
or `'ai'` and nothing else. -/
inductive Winner where
  | player
  | ai
  deriving DecidableEq, Repr

/-- The module-level variables of `elo.js`. -/
structure EloState (F : Type) where
  playerElo : F
  aiElo : F
  currentDifficulty : F
  playerStreak : Int
  aiStreak : Int
  gameHistory : List Winner

section Elo

variable {F : Type} [LinearOrderedField F] [FloorRing F]

/-- `ELO_CONFIG.K_FACTOR`. -/
def K_FACTOR : F := 32
/-- `ELO_CONFIG.MIN_ELO`. -/
def MIN_ELO : F := 1000
/-- `ELO_CONFIG.MAX_ELO`. -/
def MAX_ELO : F := 2500
/-- `ELO_CONFIG.BASE_DIFFICULTY`. -/
def BASE_DIFFICULTY : F := 1.0
/-- `ELO_CONFIG.MAX_DIFFICULTY`. -/
def MAX_DIFFICULTY : F := 3.0
/-- `ELO_CONFIG.WIN_STREAK_BONUS`. -/
def WIN_STREAK_BONUS : F := 0.2
/-- `ELO_CONFIG.LOSS_STREAK_PENALTY`. -/
def LOSS_STREAK_PENALTY : F := 0.15

/-- The initial values of the module-level variables. -/
def initialState : EloState F :=
  { playerElo := 1500, aiElo := 1500, currentDifficulty := BASE_DIFFICULTY,
    playerStreak := 0, aiStreak := 0, gameHistory := [] }

/-- `expectedWinRate(a, b)`. -/
def expectedWinRate (m : JSMath F) (a b : F) : F :=
  1 / (1 + m.pow 10 ((b - a) / 400))

/-- `updateStreak(winner)`. -/
def updateStreak (s : EloState F) : Winner → EloState F
  | .player => { s with playerStreak := max 0 s.playerStreak + 1,
                        aiStreak := min 0 s.aiStreak - 1 }
  | .ai => { s with aiStreak := max 0 s.aiStreak + 1,
                    playerStreak := min 0 s.playerStreak - 1 }

/-- `getDynamicKFactor()`. -/
def getDynamicKFactor (s : EloState F) : F :=
  let recentGames := s.gameHistory.drop (s.gameHistory.length - 5)
  if recentGames.length < 3 then K_FACTOR
  else
    let playerWins := (recentGames.filter (fun r => decide (r = Winner.player))).length
    let winRate : F := (playerWins : F) / (recentGames.length : F)
    if winRate > 0.7 then K_FACTOR * 1.5
    else if winRate < 0.3 then K_FACTOR * 0.7
    else K_FACTOR

/-- `adjustDifficulty()`. -/
def adjustDifficulty (m : JSMath F) (s : EloState F) : EloState F :=
  let eloDifference := s.playerElo - s.aiElo
  let baseDifficulty := 1 + (1 / (1 + m.exp (-eloDifference / 200))) * (MAX_DIFFICULTY - 1)
  let streakAdjustment : F :=
    if s.playerStreak > 2 then WIN_STREAK_BONUS * (s.playerStreak : F)
    else if s.aiStreak > 2 then -LOSS_STREAK_PENALTY * (s.aiStreak : F)
    else 0
  let d : F := min MAX_DIFFICULTY (max BASE_DIFFICULTY (baseDifficulty + streakAdjustment))
  { s with currentDifficulty := d }

/-- The amount added to `playerElo` by `updateEloRatings(winner)` before the
clamp, in the state `s` reached after `updateStreak` and the history update. -/
def playerDelta (m : JSMath F) (s : EloState F) : Winner → F
  | .player =>
    let kFactor := getDynamicKFactor s
    let expectedPlayer := expectedWinRate m s.playerElo s.aiElo
    let streakBonus : F :=
      if s.playerStreak > 2 then WIN_STREAK_BONUS * (s.playerStreak : F) else 0
    kFactor * (1 - expectedPlayer + streakBonus)
  | .ai =>
    let kFactor := getDynamicKFactor s
    let expectedPlayer := expectedWinRate m s.playerElo s.aiElo
    let streakBonus : F :=
      if s.aiStreak > 2 then LOSS_STREAK_PENALTY * (s.aiStreak : F) else 0
    kFactor * (0 - expectedPlayer - streakBonus)

/-- The amount added to `aiElo` by `updateEloRatings(winner)` before the clamp,
in the state `s` reached after `updateStreak` and the history update. -/
def aiDelta (m : JSMath F) (s : EloState F) : Winner → F
  | .player =>
    let kFactor := getDynamicKFactor s
    let expectedPlayer := expectedWinRate m s.playerElo s.aiElo
    let expectedAI := 1 - expectedPlayer
    let streakBonus : F :=
      if s.playerStreak > 2 then WIN_STREAK_BONUS * (s.playerStreak : F) else 0
    kFactor * (0 - expectedAI - streakBonus)
  | .ai =>
    let kFactor := getDynamicKFactor s
    let expectedPlayer := expectedWinRate m s.playerElo s.aiElo
    let expectedAI := 1 - expectedPlayer
    let streakBonus : F :=
      if s.aiStreak > 2 then LOSS_STREAK_PENALTY * (s.aiStreak : F) else 0
    kFactor * (1 - expectedAI + streakBonus)

/-- The first three statements of `updateEloRatings(winner)`:
`updateStreak(winner); gameHistory.push(winner);
if (gameHistory.length > 10) gameHistory.shift();`. -/
def recordGame (s : EloState F) (winner : Winner) : EloState F :=
  let s1 := updateStreak s winner
  let h := s1.gameHistory ++ [winner]
  { s1 with gameHistory := if h.length > 10 then h.drop 1 else h }

/-- `updateEloRatings(winner)`. -/
def updateEloRatings (m : JSMath F) (s : EloState F) (winner : Winner) : EloState F :=
  let s2 := recordGame s winner
  let playerElo := s2.playerElo + playerDelta m s2 winner
  let aiElo := s2.aiElo + aiDelta m s2 winner
  let s3 : EloState F :=
    { s2 with playerElo := max MIN_ELO (min MAX_ELO playerElo),
              aiElo := max MIN_ELO (min MAX_ELO aiElo) }
  adjustDifficulty m s3

/-- `getAIParams()`. -/
def getAIParams (s : EloState F) : AIParams F :=
  let d := s.currentDifficulty
  { searchDepth := ⌊d⌋,
    aggressiveness := 0.4 + (d * 0.2),
    defensiveness := 0.5 + (d * 0.25),
    mistakeRate := max 0 (0.3 - (d * 0.08)) }

/-- The controller after a sequence of recorded results, oldest first. -/
def runGames (m : JSMath F) (s : EloState F) (ws : List Winner) : EloState F :=
  ws.foldl (updateEloRatings m) s

end Elo

/-! ## Specification-side definitions -/

/-- The cell at offset `t` from `(row, col)` along `(dx, dy)` is on the board
and holds `player`. -/
def OnMark (b : Board) (row col dx dy : Int) (player : Nat) (t : Int) : Prop :=
  inRange (row + t * dx) (col + t * dy) ∧ getCell b (row + t * dx) (col + t * dy) = player

/-- A contiguous run of `lo + hi + 1` marks of `player` through `(row, col)`
along `(dx, dy)`: every offset from `-lo` to `hi` is on the board and holds
`player`. -/
def RunThrough (b : Board) (row col dx dy : Int) (player : Nat) (lo hi : Nat) : Prop :=
  ∀ t : Int, -(lo : Int) ≤ t → t ≤ (hi : Int) → OnMark b row col dx dy player t

/-- The maximal contiguous run through `(row, col)` along `(dx, dy)` reaches
`lo` cells back and `hi` cells forward: it is a run and neither of the two
cells just beyond its ends continues it.  Its length is `lo + hi + 1`. -/
def MaximalRun (b : Board) (row col dx dy : Int) (player : Nat) (lo hi : Nat) : Prop :=
  RunThrough b row col dx dy player lo hi
    ∧ ¬ OnMark b row col dx dy player ((hi : Int) + 1)
    ∧ ¬ OnMark b row col dx dy player (-((lo : Int) + 1))

/-- The cell `c` is Empty and placing `player` there makes `checkWin` true:
`c` would complete five in a row for `player`. -/
def completesFive (b : Board) (player : Nat) (c : Cell) : Bool :=
  decide (getCell b c.1 c.2 = 0) && checkWin (setCell b c.1 c.2 player) c.1 c.2 player

section SpecSide

variable {F : Type} [LinearOrderedField F]

/-- Invariant of the loops of `findStrategicMove`: a maximum that has been set
comes with its move, and the moves recorded are Empty cells of the board. -/
structure Best.Good (b : Board) (s : Best F) : Prop where
  attack_some : s.maxAttackScore.isSome → s.bestAttackMove.isSome
  defense_some : s.maxDefenseScore.isSome → s.bestDefenseMove.isSome
  attack_empty : ∀ c, s.bestAttackMove = some c → c ∈ cells ∧ getCell b c.1 c.2 = 0
  defense_empty : ∀ c, s.bestDefenseMove = some c → c ∈ cells ∧ getCell b c.1 c.2 = 0

/-- Both maxima of `findStrategicMove` have left `-Infinity`. -/
def Best.Found (s : Best F) : Prop :=
  s.maxAttackScore.isSome ∧ s.maxDefenseScore.isSome

/-- The invariant `MIN_ELO <= rating <= MAX_ELO` for both ratings. -/
def RatingsInBounds (s : EloState F) : Prop :=
  1000 ≤ s.playerElo ∧ s.playerElo ≤ 2500 ∧ 1000 ≤ s.aiElo ∧ s.aiElo ≤ 2500

/-- The pre-clamp rating change of the side that won. -/
def winnerDelta (m : JSMath F) (s : EloState F) (w : Winner) : F :=
  match w with
  | .player => playerDelta m s w
  | .ai => aiDelta m s w

/-- The pre-clamp rating change of the side that lost. -/
def loserDelta (m : JSMath F) (s : EloState F) (w : Winner) : F :=
  match w with
  | .player => aiDelta m s w
  | .ai => playerDelta m s w

/-- The rating of the side that won. -/
def winnerElo (s : EloState F) (w : Winner) : F :=
  match w with
  | .player => s.playerElo
  | .ai => s.aiElo

/-- The rating of the side that lost. -/
def loserElo (s : EloState F) (w : Winner) : F :=
  match w with
  | .player => s.aiElo
  | .ai => s.playerElo

/-- The logistic function `sigmoid(x) = 1/(1+e^-x)` of the specification. -/
def sigmoid (m : JSMath F) (x : F) : F := 1 / (1 + m.exp (-x))

/-- The specification's `clamp(x, lo, hi)`. -/
def clamp (x lo hi : F) : F := max lo (min hi x)

/-- The difficulty as the specification words it:
`clamp(1 + sigmoid(ratingDiff/200) * 2 + adj, 1.0, 3.0)`. -/
def specDifficulty (m : JSMath F) (humanRating computerRating : F)
    (humanStreak computerStreak : Int) : F :=
  let adj : F :=
    if humanStreak > 2 then 0.2 * (humanStreak : F)
    else if computerStreak > 2 then -0.15 * (computerStreak : F)
    else 0
  clamp (1 + sigmoid m ((humanRating - computerRating) / 200) * 2 + adj) 1.0 3.0

end SpecSide

/-! ## Fixture boards -/

/-- Five human marks in row 7, columns 3 to 7. -/
def fiveBoard : Board :=
  [[0, 0, 0, 0, 0, 0, 0, 0, 0, 0, 0, 0, 0, 0, 0],
   [0, 0, 0, 0, 0, 0, 0, 0, 0, 0, 0, 0, 0, 0, 0],
   [0, 0, 0, 0, 0, 0, 0, 0, 0, 0, 0, 0, 0, 0, 0],
   [0, 0, 0, 0, 0, 0, 0, 0, 0, 0, 0, 0, 0, 0, 0],
   [0, 0, 0, 0, 0, 0, 0, 0, 0, 0, 0, 0, 0, 0, 0],
   [0, 0, 0, 0, 0, 0, 0, 0, 0, 0, 0, 0, 0, 0, 0],
   [0, 0, 0, 2, 2, 2, 0, 2, 0, 0, 0, 0, 0, 0, 0],
   [0, 0, 0, 1, 1, 1, 1, 1, 0, 0, 0, 0, 0, 0, 0],
   [0, 0, 0, 0, 0, 0, 0, 0, 0, 0, 0, 0, 0, 0, 0],
   [0, 0, 0, 0, 0, 0, 0, 0, 0, 0, 0, 0, 0, 0, 0],
   [0, 0, 0, 0, 0, 0, 0, 0, 0, 0, 0, 0, 0, 0, 0],
   [0, 0, 0, 0, 0, 0, 0, 0, 0, 0, 0, 0, 0, 0, 0],
   [0, 0, 0, 0, 0, 0, 0, 0, 0, 0, 0, 0, 0, 0, 0],
   [0, 0, 0, 0, 0, 0, 0, 0, 0, 0, 0, 0, 0, 0, 0],
   [0, 0, 0, 0, 0, 0, 0, 0, 0, 0, 0, 0, 0, 0, 0]]

/-- Four human marks in row 7, columns 3 to 6, a gap at column 7 and a fifth
human mark at column 8. -/
def gapBoard : Board :=
  [[0, 0, 0, 0, 0, 0, 0, 0, 0, 0, 0, 0, 0, 0, 0],
   [0, 0, 0, 0, 0, 0, 0, 0, 0, 0, 0, 0, 0, 0, 0],
   [0, 0, 0, 0, 0, 0, 0, 0, 0, 0, 0, 0, 0, 0, 0],
   [0, 0, 0, 0, 0, 0, 0, 0, 0, 0, 0, 0, 0, 0, 0],
   [0, 0, 0, 0, 0, 0, 0, 0, 0, 0, 0, 0, 0, 0, 0],
   [0, 0, 0, 0, 0, 0, 0, 0, 0, 0, 0, 0, 0, 0, 0],
   [0, 0, 0, 2, 2, 2, 0, 2, 0, 0, 0, 0, 0, 0, 0],
   [0, 0, 0, 1, 1, 1, 1, 0, 1, 0, 0, 0, 0, 0, 0],
   [0, 0, 0, 0, 0, 0, 0, 0, 0, 0, 0, 0, 0, 0, 0],
   [0, 0, 0, 0, 0, 0, 0, 0, 0, 0, 0, 0, 0, 0, 0],
   [0, 0, 0, 0, 0, 0, 0, 0, 0, 0, 0, 0, 0, 0, 0],
   [0, 0, 0, 0, 0, 0, 0, 0, 0, 0, 0, 0, 0, 0, 0],
   [0, 0, 0, 0, 0, 0, 0, 0, 0, 0, 0, 0, 0, 0, 0],
   [0, 0, 0, 0, 0, 0, 0, 0, 0, 0, 0, 0, 0, 0, 0],
   [0, 0, 0, 0, 0, 0, 0, 0, 0, 0, 0, 0, 0, 0, 0]]

/-- The computer (2) has four in row 7, columns 3 to 6, with column 2 and
column 7 Empty; the human has five scattered marks. -/
def computerFourBoard : Board :=
  [[0, 0, 0, 0, 0, 0, 0, 0, 0, 0, 0, 0, 0, 0, 0],
   [0, 0, 0, 0, 0, 0, 0, 0, 0, 0, 0, 0, 0, 0, 0],
   [0, 0, 0, 0, 0, 0, 0, 0, 0, 0, 0, 0, 0, 0, 0],
   [0, 0, 0, 0, 0, 0, 0, 0, 0, 0, 0, 0, 0, 0, 0],
   [0, 0, 0, 0, 0, 0, 0, 0, 0, 0, 0, 0, 0, 0, 0],
   [0, 0, 0, 0, 1, 0, 0, 0, 0, 0, 0, 0, 0, 0, 0],
   [0, 0, 0, 1, 0, 1, 1, 0, 0, 0, 0, 0, 0, 0, 0],
   [0, 0, 0, 2, 2, 2, 2, 0, 0, 0, 0, 0, 0, 0, 0],
   [0, 0, 0, 0, 0, 1, 0, 0, 0, 0, 0, 0, 0, 0, 0],
   [0, 0, 0, 0, 0, 0, 0, 0, 0, 0, 0, 0, 0, 0, 0],
   [0, 0, 0, 0, 0, 0, 0, 0, 0, 0, 0, 0, 0, 0, 0],
   [0, 0, 0, 0, 0, 0, 0, 0, 0, 0, 0, 0, 0, 0, 0],
   [0, 0, 0, 0, 0, 0, 0, 0, 0, 0, 0, 0, 0, 0, 0],
   [0, 0, 0, 0, 0, 0, 0, 0, 0, 0, 0, 0, 0, 0, 0],
   [0, 0, 0, 0, 0, 0, 0, 0, 0, 0, 0, 0, 0, 0, 0]]

/-- The human (1) has four in row 14, columns 0 to 3, completed at `(14, 4)`;
the computer (2) has three in row 0, columns 2 to 4, open on both sides, and
no cell that completes five. -/
def humanFourBoard : Board :=
  [[0, 0, 2, 2, 2, 0, 0, 0, 0, 0, 0, 0, 0, 0, 0],
   [0, 0, 0, 0, 0, 0, 0, 0, 0, 0, 0, 0, 0, 0, 0],
   [0, 0, 0, 0, 0, 0, 0, 0, 0, 0, 0, 0, 0, 0, 0],
   [0, 0, 0, 0, 0, 0, 0, 0, 0, 0, 0, 0, 0, 0, 0],
   [0, 0, 0, 0, 0, 0, 0, 0, 0, 0, 0, 0, 0, 0, 0],
   [0, 0, 0, 0, 0, 0, 0, 0, 0, 0, 0, 0, 0, 0, 0],
   [0, 0, 0, 0, 0, 0, 0, 0, 0, 0, 0, 0, 0, 0, 0],
   [0, 0, 0, 0, 0, 0, 0, 0, 0, 0, 0, 0, 0, 0, 0],
   [0, 0, 0, 0, 0, 0, 0, 0, 0, 0, 0, 0, 0, 0, 0],
   [0, 0, 0, 0, 0, 0, 0, 0, 0, 0, 0, 0, 0, 0, 0],
   [0, 0, 0, 0, 0, 0, 0, 0, 0, 0, 0, 0, 0, 0, 0],
   [0, 0, 0, 0, 0, 0, 0, 0, 0, 0, 0, 0, 0, 0, 0],
   [0, 0, 0, 0, 0, 0, 0, 0, 0, 0, 0, 0, 0, 0, 0],
   [0, 0, 0, 0, 0, 0, 0, 0, 0, 0, 0, 0, 0, 0, 0],
   [1, 1, 1, 1, 0, 0, 0, 0, 0, 0, 0, 0, 0, 0, 0]]

/-- A board without an Empty cell and without five in a row: cell `(r, c)`
holds the human when `(c + 2 r) mod 4 < 2` and the computer otherwise. -/
def fullBoard : Board :=
  [[1, 1, 2, 2, 1, 1, 2, 2, 1, 1, 2, 2, 1, 1, 2],
   [2, 2, 1, 1, 2, 2, 1, 1, 2, 2, 1, 1, 2, 2, 1],
   [1, 1, 2, 2, 1, 1, 2, 2, 1, 1, 2, 2, 1, 1, 2],
   [2, 2, 1, 1, 2, 2, 1, 1, 2, 2, 1, 1, 2, 2, 1],
   [1, 1, 2, 2, 1, 1, 2, 2, 1, 1, 2, 2, 1, 1, 2],
   [2, 2, 1, 1, 2, 2, 1, 1, 2, 2, 1, 1, 2, 2, 1],
   [1, 1, 2, 2, 1, 1, 2, 2, 1, 1, 2, 2, 1, 1, 2],
   [2, 2, 1, 1, 2, 2, 1, 1, 2, 2, 1, 1, 2, 2, 1],
   [1, 1, 2, 2, 1, 1, 2, 2, 1, 1, 2, 2, 1, 1, 2],
   [2, 2, 1, 1, 2, 2, 1, 1, 2, 2, 1, 1, 2, 2, 1],
   [1, 1, 2, 2, 1, 1, 2, 2, 1, 1, 2, 2, 1, 1, 2],
   [2, 2, 1, 1, 2, 2, 1, 1, 2, 2, 1, 1, 2, 2, 1],
   [1, 1, 2, 2, 1, 1, 2, 2, 1, 1, 2, 2, 1, 1, 2],
   [2, 2, 1, 1, 2, 2, 1, 1, 2, 2, 1, 1, 2, 2, 1],
   [1, 1, 2, 2, 1, 1, 2, 2, 1, 1, 2, 2, 1, 1, 2]]


/-! ## game.js: `endGame`, and the two calls of it in out.js -/

/-- `message.includes(sub)`. -/
def includes (message sub : String) : Bool :=
  decide (sub.toList <:+: message.toList)

section EndGame

variable {F : Type} [LinearOrderedField F]

/-- `endGame(message)`, as far as the rating controller is concerned: the
statements that set `gameOver` and show the message are left out. -/
def endGame (m : JSMath F) (s : EloState F) (message : String) : EloState F :=
  if includes message "你赢了" then updateEloRatings m s Winner.player
  else if includes message "AI赢了" then updateEloRatings m s Winner.ai
  else s

/-- The call `window.gameAPI.endGame("因作弊行为判负")` made by
`enforceGameLoss(reason)` of out.js, as far as the rating controller is
concerned (the detector's own counters are left out). -/
def enforceGameLoss (m : JSMath F) (s : EloState F) : EloState F :=
  endGame m s "因作弊行为判负"

/-- The call `window.gameAPI.endGame("因多次作弊封禁")` made by
`enforceBan(reason)` of out.js, as far as the rating controller is concerned. -/
def enforceBan (m : JSMath F) (s : EloState F) : EloState F :=
  endGame m s "因多次作弊封禁"

end EndGame

/-! ## Specification-side definitions, continued -/

/-- A board has 15 rows of 15 cells. -/
def Board.WF (b : Board) : Prop :=
  b.length = 15 ∧ ∀ row ∈ b, row.length = 15

instance (b : Board) : Decidable b.WF := by
  unfold Board.WF; infer_instance

/-- The position of a cell in the row-major scan: `15 * row + col`. -/
def rowMajorIndex (c : Cell) : Int := 15 * c.1 + c.2

/-- The cell `c` is the first cell of the board, in row-major order, at which
`p` holds. -/
def IsFirstCell (p : Cell → Bool) (c : Cell) : Prop :=
  c ∈ cells ∧ p c = true ∧ ∀ d ∈ cells, rowMajorIndex d < rowMajorIndex c → p d = false

/-- The cell `c` is Empty and survives all replies: for every other Empty cell
`r`, on the board with the mark of `player` at `c` and the opponent's mark
(`3 - player`) at `r`, `findWinningMove(player, depth)` is not `null`. -/
def survivesReplies (b : Board) (player depth : Nat) (c : Cell) : Bool :=
  decide (getCell b c.1 c.2 = 0) &&
    cells.all (fun r => decide (r = c) || decide (getCell b r.1 r.2 ≠ 0) ||
      (findWinningMove player depth
        (setCell (setCell b c.1 c.2 player) r.1 r.2 (3 - player))).1.isSome)

/-- The four cells walked from `(row, col)` along `(dx, dy)` in the sense
`sgn` (`1` or `-1`), nearest first. -/
def lineCells (row col dx dy sgn : Int) : List Cell :=
  [1, 2, 3, 4].map (fun (t : Int) => (row + t * sgn * dx, col + t * sgn * dy))

/-- One walk as the specification words it, giving (same-side count, slack,
potential): count the same-side marks at the head of the four cells; if all
four are same-side marks there is no slack; otherwise the next cell decides:
Empty gives slack 1 and a potential point when it directly follows a counted
same-side mark, an opponent mark or the board edge discards the direction. -/
def specWalk (b : Board) (row col dx dy : Int) (player : Nat) (sgn : Int) : Nat × Nat × Nat :=
  let line := lineCells row col dx dy sgn
  let marks := line.takeWhile (fun p => decide (inRange p.1 p.2 ∧ getCell b p.1 p.2 = player))
  match line.drop marks.length with
  | [] => (marks.length, 0, 0)
  | p :: _ =>
    if inRange p.1 p.2 ∧ getCell b p.1 p.2 = 0 then
      (marks.length, 1, if marks.length ≥ 1 then 1 else 0)
    else (0, 0, 0)

/-- The cells visited by the inner loop of `evaluateDirection` from `step` on,
`fuel` of them. -/
def stepCells (row col dx dy direction : Int) : Nat → Int → List Cell
  | 0, _ => []
  | fuel + 1, step =>
    (row + step * direction * dx, col + step * direction * dy)
      :: stepCells row col dx dy direction fuel (step + 1)

/-- Closed form of the inner loop of `evaluateDirection` over a list of cells,
entered with `cpc` marks counted; `prev` tells whether the cell before the
list counts as a same-side mark for the potential point. -/
def walkOutcome (b : Board) (player : Nat) (line : List Cell) (cpc : Nat) (prev : Bool) : Walk :=
  let marks := line.takeWhile (fun p => decide (inRange p.1 p.2 ∧ getCell b p.1 p.2 = player))
  match line.drop marks.length with
  | [] => ⟨cpc + marks.length, 0, false, 0⟩
  | p :: _ =>
    if inRange p.1 p.2 ∧ getCell b p.1 p.2 = 0 then
      ⟨cpc + marks.length, 1, false, if marks.length ≥ 1 ∨ prev = true then 1 else 0⟩
    else ⟨cpc + marks.length, 0, true, 0⟩

/-- The star-point test of `evaluateBoard`. -/
def isStarPoint (i j : Int) : Prop := (i = 3 ∨ i = 11) ∧ (j = 3 ∨ j = 7 ∨ j = 11)

instance (i j : Int) : Decidable (isStarPoint i j) := by
  unfold isStarPoint; infer_instance

section SpecSideMore

variable {F : Type} [LinearOrderedField F]

/-- The streak of the side that won. -/
def winnerStreak (s : EloState F) (w : Winner) : Int :=
  match w with
  | .player => s.playerStreak
  | .ai => s.aiStreak

/-- The streak of the side that lost. -/
def loserStreak (s : EloState F) (w : Winner) : Int :=
  match w with
  | .player => s.aiStreak
  | .ai => s.playerStreak

/-- The last `n` results of a history (all of it when it is shorter). -/
def lastResults (n : Nat) (history : List Winner) : List Winner :=
  (history.reverse.take n).reverse

/-- The K-factor as the specification words it: over the last
`min(5, length)` results `w`, 32 if `w` has fewer than 3 entries, otherwise 48,
22.4 or 32 according to the human win rate `r`. -/
def specKFactor (history : List Winner) : F :=
  let w := lastResults (min 5 history.length) history
  if w.length < 3 then 32
  else
    let r : F := ((w.count Winner.player : Nat) : F) / ((w.length : Nat) : F)
    if r > 0.7 then 48
    else if r < 0.3 then 22.4
    else 32

/-- The score table and depth factor of `evaluateDirection` as the
specification words them, over the two walks. -/
def specEvaluateDirection (b : Board) (row col dx dy : Int) (player : Nat) (depth : Int) : F :=
  let fwd := specWalk b row col dx dy player 1
  let bwd := specWalk b row col dx dy player (-1)
  let count := fwd.1 + bwd.1
  let slack := fwd.2.1 + bwd.2.1
  let potential := fwd.2.2 + bwd.2.2
  let base : F :=
    if count ≥ 4 then 100000
    else if count = 3 ∧ slack ≥ 1 then 10000
    else if count = 2 ∧ slack ≥ 2 then 1000
    else if count = 1 ∧ slack ≥ 3 then 100
    else if potential ≥ 2 then 500
    else 0
  if depth > 1 ∧ base > 0 then base * (1 + 0.2 * (depth : F)) else base

end SpecSideMore

/-! ## Specification-side definitions for the evaluation, the strategic move and the random move -/

/-- The six cells that pass the star-point test of `evaluateBoard`. -/
def starPoints : List Cell := [(3, 3), (3, 7), (3, 11), (11, 3), (11, 7), (11, 11)]

/-- The Empty cells of the board in row-major order. -/
def emptyCellList (b : Board) : List Cell :=
  cells.filter (fun c => decide (getCell b c.1 c.2 = 0))

section SpecSideLast

variable {F : Type} [LinearOrderedField F]

/-- The value of `scores[i][j]` in `evaluateBoard` just before the star-point
test: the base score plus the four direction scores. -/
def scoreBeforeBonus (m : JSMath F) (b : Board) (player : Nat) (aiParams : AIParams F)
    (i j : Int) : F :=
  let searchDepth := aiParams.searchDepth
  let centerDist := centerDistance m i j
  (14 - centerDist) * (1 + (searchDepth : F) * 0.1)
    + (evaluateDirection b i j 0 1 player searchDepth
      + evaluateDirection b i j 1 0 player searchDepth
      + evaluateDirection b i j 1 1 player searchDepth
      + evaluateDirection b i j 1 (-1) player searchDepth)

/-- The expected score of the side that won. -/
def expectedWinner (m : JSMath F) (s : EloState F) (w : Winner) : F :=
  match w with
  | .player => expectedWinRate m s.playerElo s.aiElo
  | .ai => 1 - expectedWinRate m s.playerElo s.aiElo

/-- The winner's pre-clamp rating change with the streak coefficient 0.2 for
either winner. -/
def claimedWinnerDelta (m : JSMath F) (s : EloState F) (w : Winner) : F :=
  getDynamicKFactor s * (1 - expectedWinner m s w
    + (if winnerStreak s w > 2 then 0.2 * (winnerStreak s w : F) else 0))

/-- The coefficient of the streak bonus in `updateEloRatings`:
`WIN_STREAK_BONUS` when the human wins, `LOSS_STREAK_PENALTY` when the
computer wins. -/
def streakCoefficient (w : Winner) : F :=
  match w with
  | .player => 0.2
  | .ai => 0.15

/-- The attack score of a cell after the scaling by `aggressiveness`. -/
def attackValue (m : JSMath F) (b : Board) (aiParams : AIParams F) (c : Cell) : F :=
  evaluateBoard m b 2 aiParams c.1 c.2 * aiParams.aggressiveness

/-- The defense score of a cell after the scaling by `defensiveness`. -/
def defenseValue (m : JSMath F) (b : Board) (aiParams : AIParams F) (c : Cell) : F :=
  evaluateBoard m b 1 aiParams c.1 c.2 * aiParams.defensiveness

/-- The cell `c` is the first Empty cell, in row-major order, that attains the
maximum of `f` over the Empty cells. -/
def IsFirstMaxCell (b : Board) (f : Cell → F) (c : Cell) : Prop :=
  c ∈ cells ∧ getCell b c.1 c.2 = 0
    ∧ (∀ d ∈ cells, getCell b d.1 d.2 = 0 → f d ≤ f c)
    ∧ (∀ d ∈ cells, getCell b d.1 d.2 = 0 → rowMajorIndex d < rowMajorIndex c → f d < f c)

/-- Invariant of one maximum of `findStrategicMove` after the cells `pre` have
been scanned: either no Empty cell was seen and nothing is recorded, or the
recorded cell is the first maximum of `f` among the Empty cells of `pre`. -/
def Tracked (b : Board) (f : Cell → F) (pre : List Cell) (mx : Option F) (best : Option Cell) :
    Prop :=
  (best = none ∧ mx = none ∧ ∀ d ∈ pre, getCell b d.1 d.2 ≠ 0)
    ∨ ∃ c, best = some c ∧ mx = some (f c) ∧ c ∈ pre ∧ getCell b c.1 c.2 = 0
        ∧ (∀ d ∈ pre, getCell b d.1 d.2 = 0 → f d ≤ f c)
        ∧ (∀ d ∈ pre, getCell b d.1 d.2 = 0 → rowMajorIndex d < rowMajorIndex c → f d < f c)

/-- The weight of a cell in `selectRandomMove` as the specification words it:
`10 / (1 + distanceToCenter)`, times 5 when `distanceToCenter <= 3` and fewer
than 10 stones are on the board; the sum, the quotient and the product are
each rounded by `m.fl`. -/
def cellWeight (m : JSMath F) (b : Board) (c : Cell) : F :=
  m.fl (m.fl (10 / m.fl (1 + centerDistance m c.1 c.2))
    * (if centerDistance m c.1 c.2 ≤ 3 ∧ moveCount b < 10 then 5 else 1))

/-- The total weight of the Empty cells, as an exact sum. -/
def totalWeight (m : JSMath F) (b : Board) : F :=
  ((emptyCellList b).map (cellWeight m b)).sum

/-- The cumulative weight of `c`: the weight of the Empty cells up to and
including `c` in row-major order, as an exact sum. -/
def cumulativeWeight (m : JSMath F) (b : Board) (c : Cell) : F :=
  (((emptyCellList b).filter (fun d => decide (rowMajorIndex d ≤ rowMajorIndex c))).map
    (cellWeight m b)).sum

/-- The total weight as it is accumulated: the weights of the Empty cells
added one at a time in row-major order, each sum rounded by `m.fl`. -/
def accumulatedWeight (m : JSMath F) (b : Board) : F :=
  ((emptyCellList b).map (cellWeight m b)).foldl (fun sum w => m.fl (sum + w)) 0

/-- The remainder of the draw `u` at the cell `c`: `u` times the accumulated
total, less the weight of each Empty cell before `c` in row-major order, one
at a time, each result rounded by `m.fl`. -/
def remainderAt (m : JSMath F) (b : Board) (u : F) (c : Cell) : F :=
  ((emptyCellList b).filter (fun d => decide (rowMajorIndex d < rowMajorIndex c))).foldl
    (fun r d => m.fl (r - cellWeight m b d)) (m.fl (u * accumulatedWeight m b))

end SpecSideLast

/-! ## Fixture boards, continued -/

/-- The computer (2) has three in row 7, columns 8 to 10, with `(7, 7)`,
`(7, 6)` and `(7, 11)` Empty; the human has four marks. -/
def computerThreeBoard : Board :=
  [[0, 0, 0, 0, 0, 0, 0, 0, 0, 0, 0, 0, 0, 0, 0],
   [0, 0, 0, 0, 0, 0, 0, 0, 0, 0, 0, 0, 0, 0, 0],
   [0, 0, 0, 0, 0, 0, 0, 0, 0, 0, 0, 0, 0, 0, 0],
   [0, 0, 0, 0, 0, 0, 0, 0, 0, 0, 0, 0, 0, 0, 0],
   [0, 0, 0, 0, 0, 0, 0, 0, 0, 0, 0, 0, 0, 0, 0],
   [0, 0, 0, 0, 0, 0, 0, 0, 1, 0, 0, 0, 0, 0, 0],
   [0, 0, 0, 0, 0, 0, 0, 0, 1, 1, 0, 0, 0, 0, 0],
   [0, 0, 0, 0, 0, 0, 0, 0, 2, 2, 2, 0, 0, 0, 0],
   [0, 0, 0, 0, 0, 0, 0, 0, 0, 1, 0, 0, 0, 0, 0],
   [0, 0, 0, 0, 0, 0, 0, 0, 0, 0, 0, 0, 0, 0, 0],
   [0, 0, 0, 0, 0, 0, 0, 0, 0, 0, 0, 0, 0, 0, 0],
   [0, 0, 0, 0, 0, 0, 0, 0, 0, 0, 0, 0, 0, 0, 0],
   [0, 0, 0, 0, 0, 0, 0, 0, 0, 0, 0, 0, 0, 0, 0],
   [0, 0, 0, 0, 0, 0, 0, 0, 0, 0, 0, 0, 0, 0, 0],
   [0, 0, 0, 0, 0, 0, 0, 0, 0, 0, 0, 0, 0, 0, 0]]

/-- The computer (2) has marks at `(7, 6)` and `(7, 8)`, on both sides of the
Empty cell `(7, 7)`, with `(7, 5)` and `(7, 9)` Empty; the human has three
marks. -/
def splitTwoBoard : Board :=
  [[0, 0, 0, 0, 0, 0, 0, 0, 0, 0, 0, 0, 0, 0, 0],
   [0, 0, 0, 0, 0, 0, 0, 0, 0, 0, 0, 0, 0, 0, 0],
   [0, 0, 0, 0, 0, 0, 0, 0, 0, 0, 0, 0, 0, 0, 0],
   [0, 0, 0, 0, 0, 0, 0, 0, 0, 0, 0, 0, 0, 0, 0],
   [0, 0, 0, 0, 0, 0, 0, 0, 0, 0, 0, 0, 0, 0, 0],
   [0, 0, 0, 0, 0, 0, 0, 0, 0, 0, 0, 0, 0, 0, 0],
   [0, 0, 0, 0, 0, 0, 1, 1, 0, 0, 0, 0, 0, 0, 0],
   [0, 0, 0, 0, 0, 0, 2, 0, 2, 0, 0, 0, 0, 0, 0],
   [0, 0, 0, 0, 0, 0, 0, 1, 0, 0, 0, 0, 0, 0, 0],
   [0, 0, 0, 0, 0, 0, 0, 0, 0, 0, 0, 0, 0, 0, 0],
   [0, 0, 0, 0, 0, 0, 0, 0, 0, 0, 0, 0, 0, 0, 0],
   [0, 0, 0, 0, 0, 0, 0, 0, 0, 0, 0, 0, 0, 0, 0],
   [0, 0, 0, 0, 0, 0, 0, 0, 0, 0, 0, 0, 0, 0, 0],
   [0, 0, 0, 0, 0, 0, 0, 0, 0, 0, 0, 0, 0, 0, 0],
   [0, 0, 0, 0, 0, 0, 0, 0, 0, 0, 0, 0, 0, 0, 0]]

/-! ## The doubles of JavaScript

A double is a rational number with at most 53 significant bits; the result of
`+`, `-`, `*`, `/` and `Math.sqrt` is the exact result rounded to the nearest
double, ties to the even significand.  Overflow and subnormal numbers do not
occur at the magnitudes of `selectRandomMove` and are not modelled. -/

/-- The least `j1 >= j` with `n < 2 ^ (2 ^ j1)`, searched upwards from `j`. -/
def expBound : Nat → Nat → Nat → Nat
  | 0, _, j => j
  | fuel + 1, n, j => if n < 2 ^ (2 ^ j) then j else expBound fuel n (j + 1)

/-- The binary digits of the position of the highest bit of `n`, from digit
`j - 1` down: `2 ^ i` is added to `k` when `2 ^ (k + 2 ^ i) <= n`. -/
def log2Loop (n : Nat) : Nat → Nat → Nat
  | 0, k => k
  | j + 1, k => if 2 ^ (k + 2 ^ j) ≤ n then log2Loop n j (k + 2 ^ j) else log2Loop n j k

/-- The position of the highest bit of `n`: the largest `k` with `2 ^ k <= n`
(`0` for `n = 0`). -/
def log2 (n : Nat) : Nat := log2Loop n (expBound n n 0) 0

/-- The nearest double to the positive rational `n / d`: the exponent `e` is
chosen with `2 ^ 52 <= (n / d) / 2 ^ e < 2 ^ 53`, the quotient is rounded to
the nearest integer `q1`, a tie to the even one, and the result is
`q1 * 2 ^ e`. -/
def roundPos (n d : Nat) : ℚ :=
  let e0 : Int := (log2 n : Int) - (log2 d : Int) - 52
  let e : Int := if n * 2 ^ (-e0).toNat < 2 ^ 52 * (d * 2 ^ e0.toNat) then e0 - 1 else e0
  let num := n * 2 ^ (-e).toNat
  let den := d * 2 ^ e.toNat
  let q := num / den
  let r := num % den
  let q1 := if 2 * r > den ∨ (2 * r = den ∧ q % 2 = 1) then q + 1 else q
  mkRat ((q1 * 2 ^ e.toNat : Nat) : Int) (2 ^ (-e).toNat)

/-- The nearest double to a rational number. -/
def roundDouble (x : ℚ) : ℚ :=
  if x = 0 then 0
  else if x < 0 then - roundPos x.num.natAbs x.den
  else roundPos x.num.natAbs x.den

/-- The bits of the integer square root of `x`, from bit `k - 1` down. -/
def isqrtLoop (x : Nat) : Nat → Nat → Nat
  | 0, r => r
  | k + 1, r =>
    if (r + 2 ^ k) * (r + 2 ^ k) ≤ x then isqrtLoop x k (r + 2 ^ k) else isqrtLoop x k r

/-- The integer square root: the largest `s` with `s * s <= x`. -/
def isqrt (x : Nat) : Nat := isqrtLoop x (log2 x / 2 + 1) 0

/-- `Math.sqrt(x)` on doubles: the nearest double to the square root.  With
`s` the integer square root of `x * 4 ^ k` (more than 59 bits), the root of
`x * 4 ^ k` is `s` or lies strictly between `s` and `s + 1`, where it rounds
as `s + 1 / 2` does. -/
def sqrtDouble (x : ℚ) : ℚ :=
  if x ≤ 0 then 0
  else
    let n := x.num.natAbs
    let d := x.den
    let k := 60 + log2 d
    let s := isqrt (n * 4 ^ k / d)
    if s * s * d = n * 4 ^ k then roundPos s (2 ^ k)
    else roundPos (2 * s + 1) (2 ^ (k + 1))

/-- The `Math` functions and the rounding of doubles, for `selectRandomMove`.
`Math.pow` is given at exponents that are natural numbers (the code squares
integers, exactly) and `Math.exp` at `0`; elsewhere their values are not
rational and are left `0`, and `selectRandomMove` does not call them there. -/
def doubleMath : JSMath ℚ where
  pow := fun x y => if y.den = 1 ∧ 0 ≤ y.num then roundDouble (x ^ y.num.toNat) else 0
  exp := fun x => if x = 0 then 1 else 0
  sqrt := sqrtDouble
  fl := roundDouble

/-- The largest draw below 1 with 52 fractional bits, `1 - 2 ^ (-52)`. -/
def lastDraw : ℚ := 1 - 1 / 2 ^ 52

/-! # Theorems -/

/-! ## The board -/

theorem list_set_getD_self {α : Type} (l : List α) (n : Nat) (d : α) :
    l.set n (l.getD n d) = l := by
  induction l generalizing n with
  | nil => rfl
  | cons a l ih =>
    cases n with
    | zero => rfl
    | succ n => simp only [List.set, List.getD_cons_succ, ih]

theorem setCell_restore (b : Board) (r c : Int) (v v0 : Nat) (h : getCell b r c = v0) :
    setCell (setCell b r c v) r c v0 = b := by
  unfold setCell
  rw [List.set_set]
  by_cases hi : r.toNat < b.length
  · have e : (b.set r.toNat ((b.getD r.toNat []).set c.toNat v)).getD r.toNat []
        = (b.getD r.toNat []).set c.toNat v := by
      rw [List.getD_eq_getElem _ _ (by simpa using hi)]
      simp
    rw [e, List.set_set]
    unfold getCell at h
    rw [← h, list_set_getD_self, list_set_getD_self]
  · exact List.set_eq_of_length_le (by omega)

theorem mem_cells_iff (c : Cell) :
    c ∈ cells ↔ ∃ i : Nat, i < 15 ∧ ∃ j : Nat, j < 15 ∧ ((i : Int), (j : Int)) = c := by
  simp only [cells, List.mem_flatMap, List.mem_map, List.mem_range]

theorem cells_inRange (c : Cell) (h : c ∈ cells) : inRange c.1 c.2 := by
  obtain ⟨i, hi, j, hj, rfl⟩ := (mem_cells_iff c).1 h
  simp only [inRange, BOARD_SIZE]
  omega

theorem isBoardFull_eq_true (b : Board) :
    isBoardFull b = true ↔ ∀ c ∈ cells, getCell b c.1 c.2 ≠ 0 := by
  simp [isBoardFull, List.all_eq_true]

theorem isBoardFull_eq_false (b : Board) :
    isBoardFull b = false ↔ ∃ c ∈ cells, getCell b c.1 c.2 = 0 := by
  rw [← Bool.not_eq_true, isBoardFull_eq_true]
  push_neg
  rfl

/-! ## `checkWin` -/

theorem countLoop_sound (b : Board) (row col dr dc : Int) (player : Nat) :
    ∀ (fuel : Nat) (i : Int) (s : Nat), s < countLoop b row col dr dc player fuel i →
      inRange (row + (i + s) * dr) (col + (i + s) * dc)
        ∧ getCell b (row + (i + s) * dr) (col + (i + s) * dc) = player := by
  intro fuel
  induction fuel with
  | zero => intro i s h; simp [countLoop] at h
  | succ n ih =>
    intro i s h
    unfold countLoop at h
    simp only at h
    split_ifs at h with hbad
    · omega
    · cases s with
      | zero =>
        simp only [not_or, not_lt, ge_iff_le, not_le, ne_eq, not_not] at hbad
        simp only [Nat.cast_zero, add_zero, inRange]
        exact ⟨⟨hbad.1, hbad.2.1, hbad.2.2.1, hbad.2.2.2.1⟩, hbad.2.2.2.2⟩
      | succ s =>
        have := ih (i + 1) s (by omega)
        have e : i + ((s + 1 : Nat) : Int) = i + 1 + (s : Int) := by push_cast; ring
        rw [e]; exact this

theorem countLoop_complete (b : Board) (row col dr dc : Int) (player : Nat) :
    ∀ (fuel : Nat) (i : Int) (n : Nat), n ≤ fuel →
      (∀ s : Nat, s < n → inRange (row + (i + s) * dr) (col + (i + s) * dc)
        ∧ getCell b (row + (i + s) * dr) (col + (i + s) * dc) = player) →
      n ≤ countLoop b row col dr dc player fuel i := by
  intro fuel
  induction fuel with
  | zero => intro i n hn _; omega
  | succ f ih =>
    intro i n hn h
    cases n with
    | zero => omega
    | succ n =>
      unfold countLoop
      simp only
      have h0 := h 0 (by omega)
      simp only [Nat.cast_zero, add_zero, inRange] at h0
      rw [if_neg]
      · have := ih (i + 1) n (by omega) (fun s hs => by
          have := h (s + 1) (by omega)
          have e : i + ((s + 1 : Nat) : Int) = i + 1 + (s : Int) := by push_cast; ring
          rw [e] at this; exact this)
        omega
      · simp only [not_or, not_lt, ge_iff_le, not_le, ne_eq, not_not]
        exact ⟨h0.1.1, h0.1.2.1, h0.1.2.2.1, h0.1.2.2.2, h0.2⟩

theorem lineCount_ge_five_iff (b : Board) (row col : Int) (player : Nat) (dx dy : Int)
    (hr : inRange row col) (hc : getCell b row col = player) :
    5 ≤ lineCount b row col player dx dy ↔
      ∃ lo hi : Nat, 5 ≤ lo + hi + 1 ∧ RunThrough b row col dx dy player lo hi := by
  constructor
  · intro h
    refine ⟨countLoop b row col (-dx) (-dy) player 4 1, countLoop b row col dx dy player 4 1, ?_, ?_⟩
    · unfold lineCount at h; omega
    · intro t h1 h2
      rcases lt_trichotomy t 0 with ht | ht | ht
      · have := countLoop_sound b row col (-dx) (-dy) player 4 1 (-t - 1).toNat (by omega)
        have e : (1 : Int) + ((-t - 1).toNat : Int) = -t := by omega
        rw [e] at this
        simpa using this
      · subst ht; unfold OnMark; simpa using ⟨hr, hc⟩
      · have := countLoop_sound b row col dx dy player 4 1 (t - 1).toNat (by omega)
        have e : (1 : Int) + ((t - 1).toNat : Int) = t := by omega
        rw [e] at this
        exact this
  · rintro ⟨lo, hi, h5, hrun⟩
    have hf := countLoop_complete b row col dx dy player 4 1 (min 4 hi) (by omega) (fun s hs => by
      have := hrun (1 + s) (by omega) (by omega)
      exact this)
    have hb := countLoop_complete b row col (-dx) (-dy) player 4 1 (min 4 lo) (by omega) (fun s hs => by
      have := hrun (-(1 + s)) (by omega) (by omega)
      have e1 : (1 + (s : Int)) * -dx = -(1 + (s : Int)) * dx := by ring
      have e2 : (1 + (s : Int)) * -dy = -(1 + (s : Int)) * dy := by ring
      rw [e1, e2]; exact this)
    unfold lineCount; omega

theorem countLoop_stop (b : Board) (row col dr dc : Int) (player : Nat) :
    ∀ (fuel : Nat) (i : Int), countLoop b row col dr dc player fuel i < fuel →
      ¬ (inRange (row + (i + (countLoop b row col dr dc player fuel i : Nat)) * dr)
            (col + (i + (countLoop b row col dr dc player fuel i : Nat)) * dc)
        ∧ getCell b (row + (i + (countLoop b row col dr dc player fuel i : Nat)) * dr)
            (col + (i + (countLoop b row col dr dc player fuel i : Nat)) * dc) = player) := by
  intro fuel
  induction fuel with
  | zero => intro i h; omega
  | succ n ih =>
    intro i h
    unfold countLoop at h ⊢
    simp only at h ⊢
    split_ifs at h ⊢ with hbad
    · simp only [Nat.cast_zero, add_zero, inRange]
      rintro ⟨⟨h1, h2, h3, h4⟩, h5⟩
      rcases hbad with hb | hb | hb | hb | hb
      · omega
      · omega
      · omega
      · omega
      · exact hb h5
    · have := ih (i + 1) (by omega)
      have e : i + ((1 + countLoop b row col dr dc player n (i + 1) : Nat) : Int)
          = i + 1 + (countLoop b row col dr dc player n (i + 1) : Nat) := by push_cast; ring
      rw [e]; exact this

theorem countLoop_lt_size (b : Board) (row col dr dc : Int) (player : Nat)
    (hr : inRange row col) (hd : (dr = 1 ∨ dr = -1) ∨ (dc = 1 ∨ dc = -1)) :
    countLoop b row col dr dc player 15 1 < 15 := by
  by_contra hge
  have h := (countLoop_sound b row col dr dc player 15 1 14 (by omega)).1
  simp only [inRange, BOARD_SIZE] at h hr
  rcases hd with (h1 | h1) | (h1 | h1) <;> subst h1 <;> omega

theorem directions_step (d : Int × Int) (hd : d ∈ directions) :
    ((d.1 = 1 ∨ d.1 = -1) ∨ (d.2 = 1 ∨ d.2 = -1))
      ∧ ((-d.1 = 1 ∨ -d.1 = -1) ∨ (-d.2 = 1 ∨ -d.2 = -1)) := by
  simp only [directions, List.mem_cons, List.mem_singleton, List.not_mem_nil, or_false] at hd
  rcases hd with h | h | h | h <;> subst h <;> simp

theorem maximalRun_exists (b : Board) (row col : Int) (player : Nat) (d : Int × Int)
    (hd : d ∈ directions) (hr : inRange row col) (hc : getCell b row col = player) :
    MaximalRun b row col d.1 d.2 player
      (countLoop b row col (-d.1) (-d.2) player 15 1) (countLoop b row col d.1 d.2 player 15 1) := by
  have hs := directions_step d hd
  refine ⟨?_, ?_, ?_⟩
  · intro t h1 h2
    rcases lt_trichotomy t 0 with ht | ht | ht
    · have := countLoop_sound b row col (-d.1) (-d.2) player 15 1 (-t - 1).toNat (by omega)
      have e : (1 : Int) + ((-t - 1).toNat : Int) = -t := by omega
      rw [e] at this
      simpa using this
    · subst ht; unfold OnMark; simpa using ⟨hr, hc⟩
    · have := countLoop_sound b row col d.1 d.2 player 15 1 (t - 1).toNat (by omega)
      have e : (1 : Int) + ((t - 1).toNat : Int) = t := by omega
      rw [e] at this
      exact this
  · have := countLoop_stop b row col d.1 d.2 player 15 1
      (countLoop_lt_size b row col d.1 d.2 player hr hs.1)
    unfold OnMark
    rw [add_comm (1 : Int)] at this
    exact this
  · have := countLoop_stop b row col (-d.1) (-d.2) player 15 1
      (countLoop_lt_size b row col (-d.1) (-d.2) player hr hs.2)
    unfold OnMark
    have e1 : ∀ k : Int, (1 + k) * -d.1 = -(k + 1) * d.1 := fun k => by ring
    have e2 : ∀ k : Int, (1 + k) * -d.2 = -(k + 1) * d.2 := fun k => by ring
    rw [e1, e2] at this
    exact this

theorem maximalRun_unique_ge (b : Board) (row col dx dy : Int) (player : Nat) (lo hi lo1 hi1 : Nat)
    (hm : MaximalRun b row col dx dy player lo hi)
    (hrun : RunThrough b row col dx dy player lo1 hi1) : lo1 ≤ lo ∧ hi1 ≤ hi := by
  constructor
  · by_contra h
    exact hm.2.2 (hrun (-((lo : Int) + 1)) (by omega) (by omega))
  · by_contra h
    exact hm.2.1 (hrun ((hi : Int) + 1) (by omega) (by omega))

/-! ## `findWinningMove` -/

theorem scanImmediate_cons (player : Nat) (i j : Int) (cs : List Cell) (b : Board) :
    scanImmediate player ((i, j) :: cs) b =
      if getCell b i j = 0 then
        if checkWin (setCell b i j player) i j player then
          (some (i, j), setCell (setCell b i j player) i j 0)
        else scanImmediate player cs (setCell (setCell b i j player) i j 0)
      else scanImmediate player cs b := rfl

theorem scanReplies_cons (find : Board → Option Cell × Board) (opponent : Nat) (x y : Int)
    (cs : List Cell) (canWin : Bool) (b : Board) :
    scanReplies find opponent ((x, y) :: cs) canWin b =
      if canWin then
        if getCell b x y = 0 then
          scanReplies find opponent cs
            (if (find (setCell b x y opponent)).1.isNone then false else canWin)
            (setCell (find (setCell b x y opponent)).2 x y 0)
        else scanReplies find opponent cs canWin b
      else (canWin, b) := rfl

theorem scanForced_cons (find : Board → Option Cell × Board) (player : Nat) (i j : Int)
    (cs : List Cell) (b : Board) :
    scanForced find player ((i, j) :: cs) b =
      if getCell b i j = 0 then
        if (scanReplies find (if player = 1 then 2 else 1) cells true (setCell b i j player)).1 then
          (some (i, j), setCell (scanReplies find (if player = 1 then 2 else 1) cells true
            (setCell b i j player)).2 i j 0)
        else scanForced find player cs (setCell (scanReplies find (if player = 1 then 2 else 1)
          cells true (setCell b i j player)).2 i j 0)
      else scanForced find player cs b := rfl

theorem scanImmediate_snd (player : Nat) :
    ∀ (cs : List Cell) (b : Board), (scanImmediate player cs b).2 = b := by
  intro cs
  induction cs with
  | nil => intro b; rfl
  | cons c cs ih =>
    intro b
    obtain ⟨i, j⟩ := c
    rw [scanImmediate_cons]
    by_cases h0 : getCell b i j = 0
    · rw [if_pos h0, setCell_restore b i j player 0 h0]
      by_cases hw : checkWin (setCell b i j player) i j player = true
      · rw [if_pos hw]
      · rw [if_neg hw]; exact ih b
    · rw [if_neg h0]; exact ih b

theorem scanImmediate_fst (player : Nat) :
    ∀ (cs : List Cell) (b : Board),
      (scanImmediate player cs b).1 = cs.find? (completesFive b player) := by
  intro cs
  induction cs with
  | nil => intro b; rfl
  | cons c cs ih =>
    intro b
    obtain ⟨i, j⟩ := c
    rw [scanImmediate_cons]
    by_cases h0 : getCell b i j = 0
    · rw [if_pos h0, setCell_restore b i j player 0 h0]
      by_cases hw : checkWin (setCell b i j player) i j player = true
      · rw [if_pos hw]
        simp [List.find?, completesFive, h0, hw]
      · rw [if_neg hw, ih b]
        simp [List.find?, completesFive, h0, hw]
    · rw [if_neg h0, ih b]
      simp [List.find?, completesFive, h0]

theorem scanReplies_snd (find : Board → Option Cell × Board) (hfind : ∀ b, (find b).2 = b)
    (opponent : Nat) :
    ∀ (cs : List Cell) (canWin : Bool) (b : Board),
      (scanReplies find opponent cs canWin b).2 = b := by
  intro cs
  induction cs with
  | nil => intro canWin b; rfl
  | cons c cs ih =>
    intro canWin b
    obtain ⟨x, y⟩ := c
    rw [scanReplies_cons]
    by_cases hc : canWin = true
    · rw [if_pos hc]
      by_cases h0 : getCell b x y = 0
      · rw [if_pos h0, hfind, setCell_restore b x y opponent 0 h0]; exact ih _ b
      · rw [if_neg h0]; exact ih _ b
    · rw [if_neg hc]

theorem scanForced_snd (find : Board → Option Cell × Board) (hfind : ∀ b, (find b).2 = b)
    (player : Nat) :
    ∀ (cs : List Cell) (b : Board), (scanForced find player cs b).2 = b := by
  intro cs
  induction cs with
  | nil => intro b; rfl
  | cons c cs ih =>
    intro b
    obtain ⟨i, j⟩ := c
    rw [scanForced_cons]
    by_cases h0 : getCell b i j = 0
    · rw [if_pos h0, scanReplies_snd find hfind, setCell_restore b i j player 0 h0]
      by_cases hw : (scanReplies find (if player = 1 then 2 else 1) cells true
          (setCell b i j player)).1 = true
      · rw [if_pos hw]
      · rw [if_neg hw]; exact ih b
    · rw [if_neg h0]; exact ih b

theorem scanForced_fst_mem (find : Board → Option Cell × Board) (hfind : ∀ b, (find b).2 = b)
    (player : Nat) :
    ∀ (cs : List Cell) (b : Board) (c : Cell), (scanForced find player cs b).1 = some c →
      c ∈ cs ∧ getCell b c.1 c.2 = 0 := by
  intro cs
  induction cs with
  | nil => intro b c h; simp [scanForced] at h
  | cons c0 cs ih =>
    intro b c h
    obtain ⟨i, j⟩ := c0
    rw [scanForced_cons] at h
    by_cases h0 : getCell b i j = 0
    · rw [if_pos h0, scanReplies_snd find hfind, setCell_restore b i j player 0 h0] at h
      by_cases hw : (scanReplies find (if player = 1 then 2 else 1) cells true
          (setCell b i j player)).1 = true
      · rw [if_pos hw] at h
        simp only [Option.some.injEq] at h
        subst h
        exact ⟨List.mem_cons_self _ _, h0⟩
      · rw [if_neg hw] at h
        have := ih b c h
        exact ⟨List.mem_cons_of_mem _ this.1, this.2⟩
    · rw [if_neg h0] at h
      have := ih b c h
      exact ⟨List.mem_cons_of_mem _ this.1, this.2⟩

theorem findWinningMove_snd (player : Nat) :
    ∀ (depth : Nat) (b : Board), (findWinningMove player depth b).2 = b := by
  intro depth
  induction depth with
  | zero => intro b; exact scanImmediate_snd player cells b
  | succ d ih =>
    intro b
    unfold findWinningMove
    have h2 := scanImmediate_snd player cells b
    split
    · rename_i c b1 heq
      rw [heq] at h2; exact h2
    · rename_i b1 heq
      rw [heq] at h2
      simp only at h2
      subst h2
      split_ifs
      · exact scanForced_snd _ ih player cells _
      · rfl

theorem completesFive_empty {b : Board} {player : Nat} {c : Cell}
    (h : completesFive b player c = true) : getCell b c.1 c.2 = 0 := by
  unfold completesFive at h
  simp only [Bool.and_eq_true, decide_eq_true_eq] at h
  exact h.1

theorem findWinningMove_fst_mem (player : Nat) (depth : Nat) (b : Board) (c : Cell)
    (h : (findWinningMove player depth b).1 = some c) : c ∈ cells ∧ getCell b c.1 c.2 = 0 := by
  have key : ∀ c, (scanImmediate player cells b).1 = some c → c ∈ cells ∧ getCell b c.1 c.2 = 0 := by
    intro c hc
    rw [scanImmediate_fst] at hc
    exact ⟨List.mem_of_find?_eq_some hc, completesFive_empty (List.find?_some hc)⟩
  cases depth with
  | zero => exact key c h
  | succ d =>
    unfold findWinningMove at h
    have h2 := scanImmediate_snd player cells b
    split at h
    · rename_i c1 b1 heq
      simp only at h
      exact key c (by rw [heq]; exact h)
    · rename_i b1 heq
      rw [heq] at h2
      simp only at h2
      subst h2
      split_ifs at h
      exact scanForced_fst_mem _ (findWinningMove_snd player d) player cells _ c h

theorem findWinningMove_of_completes (player : Nat) (depth : Nat) (b : Board)
    (h : ∃ c ∈ cells, completesFive b player c = true) :
    ∃ c, (findWinningMove player depth b).1 = some c ∧ c ∈ cells
      ∧ completesFive b player c = true := by
  have key : ∃ c, (scanImmediate player cells b).1 = some c ∧ c ∈ cells
      ∧ completesFive b player c = true := by
    rw [scanImmediate_fst]
    obtain ⟨c0, hc0, hw0⟩ := h
    cases hf : cells.find? (completesFive b player) with
    | none =>
      rw [List.find?_eq_none] at hf
      exact absurd hw0 (hf c0 hc0)
    | some c => exact ⟨c, rfl, List.mem_of_find?_eq_some hf, List.find?_some hf⟩
  cases depth with
  | zero => exact key
  | succ d =>
    obtain ⟨c, hc, hmem, hw⟩ := key
    refine ⟨c, ?_, hmem, hw⟩
    unfold findWinningMove
    split
    · rename_i c1 b1 heq
      rw [heq] at hc
      exact hc
    · rename_i b1 heq
      rw [heq] at hc
      simp at hc

theorem findWinningMove_one_none (player : Nat) (depth : Nat) (hd : depth ≤ 1) (b : Board)
    (h : ¬ ∃ c ∈ cells, completesFive b player c = true) :
    (findWinningMove player depth b).1 = none := by
  have key : (scanImmediate player cells b).1 = none := by
    rw [scanImmediate_fst, List.find?_eq_none]
    intro c hc hw
    exact h ⟨c, hc, hw⟩
  cases depth with
  | zero => exact key
  | succ d =>
    have hd0 : d = 0 := by omega
    subst hd0
    unfold findWinningMove
    split
    · rename_i c1 b1 heq
      rw [heq] at key; simp at key
    · simp

section GameLemmas

variable {F : Type} [LinearOrderedField F]

/-! ## `findStrategicMove` -/

theorem strategicLoop_cons (attackScore defenseScore : Int → Int → F) (b : Board)
    (aiParams : AIParams F) (i j : Int) (cs : List Cell) (s : Best F) :
    strategicLoop attackScore defenseScore b aiParams ((i, j) :: cs) s =
      if getCell b i j = 0 then
        strategicLoop attackScore defenseScore b aiParams cs
          (strategicStep attackScore defenseScore aiParams i j s)
      else strategicLoop attackScore defenseScore b aiParams cs s := rfl

theorem exceeds_of_isNone (x : F) (o : Option F) (h : o.isSome = false) : exceeds x o = true := by
  cases o with
  | none => rfl
  | some v => simp at h

theorem strategicStep_good (attackScore defenseScore : Int → Int → F) (b : Board)
    (aiParams : AIParams F) (i j : Int) (s : Best F) (hc : (i, j) ∈ cells)
    (h0 : getCell b i j = 0) (hs : Best.Good b s) :
    Best.Good b (strategicStep attackScore defenseScore aiParams i j s)
      ∧ Best.Found (strategicStep attackScore defenseScore aiParams i j s) := by
  have hnew : ∀ c : Cell, some (i, j) = some c → c ∈ cells ∧ getCell b c.1 c.2 = 0 := by
    intro c hc1
    simp only [Option.some.injEq] at hc1
    subst hc1
    exact ⟨hc, h0⟩
  -- the attack half
  have h1 : ∃ s1 : Best F,
      (if exceeds (attackScore i j * aiParams.aggressiveness) s.maxAttackScore then
        { s with maxAttackScore := some (attackScore i j * aiParams.aggressiveness),
                 bestAttackMove := some (i, j) }
      else s) = s1 ∧ Best.Good b s1 ∧ s1.maxAttackScore.isSome := by
    refine ⟨_, rfl, ?_⟩
    by_cases he : exceeds (attackScore i j * aiParams.aggressiveness) s.maxAttackScore = true
    · rw [if_pos he]
      exact ⟨⟨fun _ => rfl, hs.defense_some, hnew, hs.defense_empty⟩, rfl⟩
    · rw [if_neg he]
      refine ⟨hs, ?_⟩
      by_contra hn
      exact he (exceeds_of_isNone _ _ (by simpa using hn))
  obtain ⟨s1, e1, g1, f1⟩ := h1
  unfold strategicStep
  simp only
  rw [e1]
  by_cases he : exceeds (defenseScore i j * aiParams.defensiveness) s1.maxDefenseScore = true
  · rw [if_pos he]
    exact ⟨⟨g1.attack_some, fun _ => rfl, g1.attack_empty, hnew⟩, f1, rfl⟩
  · rw [if_neg he]
    refine ⟨g1, f1, ?_⟩
    by_contra hn
    exact he (exceeds_of_isNone _ _ (by simpa using hn))

theorem strategicStep_found (attackScore defenseScore : Int → Int → F)
    (aiParams : AIParams F) (i j : Int) (s : Best F) (hs : Best.Found s) :
    Best.Found (strategicStep attackScore defenseScore aiParams i j s) := by
  unfold strategicStep Best.Found
  simp only
  split_ifs <;> simp_all [Best.Found]

theorem strategicLoop_spec (attackScore defenseScore : Int → Int → F) (b : Board)
    (aiParams : AIParams F) :
    ∀ (cs : List Cell) (s : Best F), (∀ c ∈ cs, c ∈ cells) → Best.Good b s →
      Best.Good b (strategicLoop attackScore defenseScore b aiParams cs s)
        ∧ (Best.Found s ∨ (∃ c ∈ cs, getCell b c.1 c.2 = 0) →
            Best.Found (strategicLoop attackScore defenseScore b aiParams cs s)) := by
  intro cs
  induction cs with
  | nil =>
    intro s _ hs
    refine ⟨hs, ?_⟩
    rintro (h | ⟨c, hc, _⟩)
    · exact h
    · simp at hc
  | cons c0 cs ih =>
    intro s hcs hs
    obtain ⟨i, j⟩ := c0
    rw [strategicLoop_cons]
    have hcs1 : ∀ c ∈ cs, c ∈ cells := fun c hc => hcs c (List.mem_cons_of_mem _ hc)
    by_cases h0 : getCell b i j = 0
    · rw [if_pos h0]
      have hstep := strategicStep_good attackScore defenseScore b aiParams i j s
        (hcs _ (List.mem_cons_self _ _)) h0 hs
      have := ih _ hcs1 hstep.1
      exact ⟨this.1, fun _ => this.2 (Or.inl hstep.2)⟩
    · rw [if_neg h0]
      have := ih s hcs1 hs
      refine ⟨this.1, ?_⟩
      rintro (h | ⟨c, hc, hc0⟩)
      · exact this.2 (Or.inl h)
      · rcases List.mem_cons.1 hc with e | hmem
        · subst e; exact absurd hc0 h0
        · exact this.2 (Or.inr ⟨c, hmem, hc0⟩)

theorem strategicLoop_full (attackScore defenseScore : Int → Int → F) (b : Board)
    (aiParams : AIParams F) :
    ∀ (cs : List Cell) (s : Best F), (∀ c ∈ cs, getCell b c.1 c.2 ≠ 0) →
      strategicLoop attackScore defenseScore b aiParams cs s = s := by
  intro cs
  induction cs with
  | nil => intro s _; rfl
  | cons c0 cs ih =>
    intro s h
    obtain ⟨i, j⟩ := c0
    rw [strategicLoop_cons, if_neg (h (i, j) (List.mem_cons_self _ _))]
    exact ih s (fun c hc => h c (List.mem_cons_of_mem _ hc))

theorem findStrategicMove_of_empty (m : JSMath F) (b : Board) (aiParams : AIParams F)
    (h : ∃ c ∈ cells, getCell b c.1 c.2 = 0) :
    ∃ c, findStrategicMove m b aiParams = some c ∧ c ∈ cells ∧ getCell b c.1 c.2 = 0 := by
  have hinit : Best.Good b (⟨none, none, none, none⟩ : Best F) :=
    ⟨fun h => by simp at h, fun h => by simp at h, fun c h => by simp at h,
      fun c h => by simp at h⟩
  have hspec := strategicLoop_spec (evaluateBoard m b 2 aiParams) (evaluateBoard m b 1 aiParams)
    b aiParams cells _ (fun c hc => hc) hinit
  obtain ⟨hgood, hfound⟩ := hspec
  have hf := hfound (Or.inr h)
  unfold findStrategicMove
  simp only
  generalize strategicLoop (evaluateBoard m b 2 aiParams) (evaluateBoard m b 1 aiParams)
    b aiParams cells ⟨none, none, none, none⟩ = s at hgood hf
  obtain ⟨ma, md, ba, bd⟩ := s
  obtain ⟨hf1, hf2⟩ := hf
  simp only at hf1 hf2
  cases ma with
  | none => simp at hf1
  | some ma =>
    cases md with
    | none => simp at hf2
    | some md =>
      simp only
      have ha := hgood.attack_some rfl
      have hd := hgood.defense_some rfl
      simp only at ha hd
      split_ifs
      · obtain ⟨c, hc⟩ := Option.isSome_iff_exists.1 ha
        exact ⟨c, hc, hgood.attack_empty c hc⟩
      · obtain ⟨c, hc⟩ := Option.isSome_iff_exists.1 hd
        exact ⟨c, hc, hgood.defense_empty c hc⟩

theorem findStrategicMove_full (m : JSMath F) (b : Board) (aiParams : AIParams F)
    (h : ∀ c ∈ cells, getCell b c.1 c.2 ≠ 0) : findStrategicMove m b aiParams = none := by
  unfold findStrategicMove
  simp only
  rw [strategicLoop_full _ _ b aiParams cells _ h]

/-! ## `selectRandomMove` and `selectOptimalMove` on boards with and without Empty cells -/

theorem emptyCells_mem (m : JSMath F) (b : Board) (e : Int × Int × F)
    (h : e ∈ emptyCells m b) : (e.1, e.2.1) ∈ cells ∧ getCell b e.1 e.2.1 = 0 := by
  unfold emptyCells at h
  simp only [List.mem_map, List.mem_filter, decide_eq_true_eq] at h
  obtain ⟨c, ⟨hc, h0⟩, rfl⟩ := h
  exact ⟨hc, h0⟩

theorem emptyCells_eq_nil (m : JSMath F) (b : Board)
    (h : ∀ c ∈ cells, getCell b c.1 c.2 ≠ 0) : emptyCells m b = [] := by
  unfold emptyCells
  rw [List.map_eq_nil_iff, List.filter_eq_nil_iff]
  intro c hc
  simpa using h c hc

theorem emptyCells_ne_nil (m : JSMath F) (b : Board)
    (h : ∃ c ∈ cells, getCell b c.1 c.2 = 0) : emptyCells m b ≠ [] := by
  obtain ⟨c, hc, h0⟩ := h
  unfold emptyCells
  intro hnil
  rw [List.map_eq_nil_iff, List.filter_eq_nil_iff] at hnil
  exact hnil c hc (by simpa using h0)

theorem pickLoop_mem (m : JSMath F) : ∀ (l : List (Int × Int × F)) (random : F) (c : Cell),
    pickLoop m l random = some c → ∃ e ∈ l, (e.1, e.2.1) = c := by
  intro l
  induction l with
  | nil => intro random c h; simp [pickLoop] at h
  | cons e l ih =>
    intro random c h
    obtain ⟨row, col, weight⟩ := e
    unfold pickLoop at h
    split_ifs at h
    · simp only [Option.some.injEq] at h
      exact ⟨(row, col, weight), List.mem_cons_self _ _, h⟩
    · obtain ⟨e, he, hc⟩ := ih _ c h
      exact ⟨e, List.mem_cons_of_mem _ he, hc⟩

theorem selectRandomMove_empty (m : JSMath F) (b : Board) (u : F)
    (h : ∃ c ∈ cells, getCell b c.1 c.2 = 0) :
    selectRandomMove m b u ∈ cells
      ∧ getCell b (selectRandomMove m b u).1 (selectRandomMove m b u).2 = 0 := by
  have hne := emptyCells_ne_nil m b h
  have hmem := emptyCells_mem m b
  unfold selectRandomMove
  generalize emptyCells m b = l at hne hmem
  cases l with
  | nil => exact absurd rfl hne
  | cons e es =>
    simp only
    cases hp : pickLoop m (e :: es)
        (m.fl (u * List.foldl (fun sum w => m.fl (sum + w)) 0
          (List.map (fun cell => cell.2.2) (e :: es)))) with
    | none => exact hmem e (List.mem_cons_self _ _)
    | some c =>
      obtain ⟨e1, he1, hc⟩ := pickLoop_mem m _ _ c hp
      simp only
      rw [← hc]
      exact hmem e1 he1

theorem selectRandomMove_full (m : JSMath F) (b : Board) (u : F)
    (h : ∀ c ∈ cells, getCell b c.1 c.2 ≠ 0) : selectRandomMove m b u = (0, 0) := by
  unfold selectRandomMove
  rw [emptyCells_eq_nil m b h]

theorem optimalLoop_full (scores : Int → Int → F) (b : Board) :
    ∀ (cs : List Cell) (s : Option F × List Cell), (∀ c ∈ cs, getCell b c.1 c.2 ≠ 0) →
      optimalLoop scores b cs s = s := by
  intro cs
  induction cs with
  | nil => intro s _; obtain ⟨x, y⟩ := s; rfl
  | cons c0 cs ih =>
    intro s h
    obtain ⟨i, j⟩ := c0
    obtain ⟨mx, bm⟩ := s
    unfold optimalLoop
    rw [if_neg (h (i, j) (List.mem_cons_self _ _))]
    exact ih _ (fun c hc => h c (List.mem_cons_of_mem _ hc))

theorem selectOptimalMove_full [FloorRing F] (m : JSMath F) (b : Board) (aiParams : AIParams F)
    (u : F) (h : ∀ c ∈ cells, getCell b c.1 c.2 ≠ 0) :
    selectOptimalMove m b aiParams u = some (0, 0) := by
  unfold selectOptimalMove
  simp only
  rw [optimalLoop_full _ b cells _ h]
  simp [selectRandomMove_full m b u h]

theorem scanImmediate_full (player : Nat) (b : Board) :
    ∀ cs : List Cell, (∀ c ∈ cs, getCell b c.1 c.2 ≠ 0) →
      scanImmediate player cs b = (none, b) := by
  intro cs
  induction cs with
  | nil => intro _; rfl
  | cons c0 cs ih =>
    intro h
    obtain ⟨i, j⟩ := c0
    unfold scanImmediate
    rw [if_neg (h (i, j) (List.mem_cons_self _ _))]
    exact ih (fun c hc => h c (List.mem_cons_of_mem _ hc))

theorem scanForced_full (find : Board → Option Cell × Board) (player : Nat) (b : Board) :
    ∀ cs : List Cell, (∀ c ∈ cs, getCell b c.1 c.2 ≠ 0) →
      scanForced find player cs b = (none, b) := by
  intro cs
  induction cs with
  | nil => intro _; rfl
  | cons c0 cs ih =>
    intro h
    obtain ⟨i, j⟩ := c0
    unfold scanForced
    rw [if_neg (h (i, j) (List.mem_cons_self _ _))]
    exact ih (fun c hc => h c (List.mem_cons_of_mem _ hc))

theorem findWinningMove_full (player depth : Nat) (b : Board)
    (h : ∀ c ∈ cells, getCell b c.1 c.2 ≠ 0) : findWinningMove player depth b = (none, b) := by
  cases depth with
  | zero => exact scanImmediate_full player b cells h
  | succ d =>
    unfold findWinningMove
    rw [scanImmediate_full player b cells h]
    simp only
    split_ifs
    · exact scanForced_full _ player b cells h
    · rfl

/-! ## `makeAIMove` -/

theorem makeAIMove_mistake (m : JSMath F) [FloorRing F] (b : Board) (aiParams : AIParams F)
    (rnd : Nat → F) (h : rnd 1 < aiParams.mistakeRate) :
    makeAIMove m b aiParams rnd = (some (selectRandomMove m b (rnd 2)), b) := by
  unfold makeAIMove
  rw [if_pos h]

theorem makeAIMove_winning (m : JSMath F) [FloorRing F] (b : Board) (aiParams : AIParams F)
    (rnd : Nat → F) (h : ¬ rnd 1 < aiParams.mistakeRate) (c : Cell)
    (hw : (findWinningMove 2 aiParams.searchDepth.toNat b).1 = some c) :
    makeAIMove m b aiParams rnd = (some c, b) := by
  unfold makeAIMove
  rw [if_neg h]
  simp only [hw, findWinningMove_snd]

theorem makeAIMove_blocking (m : JSMath F) [FloorRing F] (b : Board) (aiParams : AIParams F)
    (rnd : Nat → F) (h : ¬ rnd 1 < aiParams.mistakeRate) (c : Cell)
    (hw : (findWinningMove 2 aiParams.searchDepth.toNat b).1 = none)
    (hb : (findWinningMove 1 aiParams.searchDepth.toNat b).1 = some c) :
    makeAIMove m b aiParams rnd = (some c, b) := by
  unfold makeAIMove
  rw [if_neg h]
  simp only [hw, findWinningMove_snd, hb]

theorem makeAIMove_strategic (m : JSMath F) [FloorRing F] (b : Board) (aiParams : AIParams F)
    (rnd : Nat → F) (h : ¬ rnd 1 < aiParams.mistakeRate) (c : Cell)
    (hw : (findWinningMove 2 aiParams.searchDepth.toNat b).1 = none)
    (hb : (findWinningMove 1 aiParams.searchDepth.toNat b).1 = none)
    (hs : findStrategicMove m b aiParams = some c) :
    makeAIMove m b aiParams rnd = (some c, b) := by
  unfold makeAIMove
  rw [if_neg h]
  simp only [hw, findWinningMove_snd, hb, hs]

theorem makeAIMove_full (m : JSMath F) [FloorRing F] (b : Board) (aiParams : AIParams F)
    (rnd : Nat → F) (h : ∀ c ∈ cells, getCell b c.1 c.2 ≠ 0) :
    makeAIMove m b aiParams rnd = (some (0, 0), b) := by
  by_cases hm : rnd 1 < aiParams.mistakeRate
  · rw [makeAIMove_mistake m b aiParams rnd hm, selectRandomMove_full m b _ h]
  · unfold makeAIMove
    rw [if_neg hm]
    simp only [findWinningMove_full _ _ b h, findStrategicMove_full m b aiParams h,
      selectOptimalMove_full m b aiParams _ h]

theorem makeAIMove_legal_cell (m : JSMath F) [FloorRing F] (b : Board) (aiParams : AIParams F)
    (rnd : Nat → F) (h : ∃ c ∈ cells, getCell b c.1 c.2 = 0) :
    ∃ c, makeAIMove m b aiParams rnd = (some c, b) ∧ c ∈ cells ∧ getCell b c.1 c.2 = 0 := by
  by_cases hm : rnd 1 < aiParams.mistakeRate
  · exact ⟨_, makeAIMove_mistake m b aiParams rnd hm, selectRandomMove_empty m b _ h⟩
  · cases hw : (findWinningMove 2 aiParams.searchDepth.toNat b).1 with
    | some c =>
      exact ⟨c, makeAIMove_winning m b aiParams rnd hm c hw, findWinningMove_fst_mem _ _ b c hw⟩
    | none =>
      cases hb : (findWinningMove 1 aiParams.searchDepth.toNat b).1 with
      | some c =>
        exact ⟨c, makeAIMove_blocking m b aiParams rnd hm c hw hb,
          findWinningMove_fst_mem _ _ b c hb⟩
      | none =>
        obtain ⟨c, hs, hc⟩ := findStrategicMove_of_empty m b aiParams h
        exact ⟨c, makeAIMove_strategic m b aiParams rnd hm c hw hb hs, hc⟩

end GameLemmas

/-! ## The rating controller -/

section EloLemmas

variable {F : Type} [LinearOrderedField F]

theorem adjustDifficulty_ratings (m : JSMath F) (s : EloState F) :
    (adjustDifficulty m s).playerElo = s.playerElo ∧ (adjustDifficulty m s).aiElo = s.aiElo
      ∧ (adjustDifficulty m s).playerStreak = s.playerStreak
      ∧ (adjustDifficulty m s).aiStreak = s.aiStreak
      ∧ (adjustDifficulty m s).gameHistory = s.gameHistory := by
  simp [adjustDifficulty]

theorem updateEloRatings_playerElo (m : JSMath F) (s : EloState F) (w : Winner) :
    (updateEloRatings m s w).playerElo
      = max MIN_ELO (min MAX_ELO (s.playerElo + playerDelta m (recordGame s w) w)) := by
  cases w <;> simp [updateEloRatings, adjustDifficulty, recordGame, updateStreak]

theorem updateEloRatings_aiElo (m : JSMath F) (s : EloState F) (w : Winner) :
    (updateEloRatings m s w).aiElo
      = max MIN_ELO (min MAX_ELO (s.aiElo + aiDelta m (recordGame s w) w)) := by
  cases w <;> simp [updateEloRatings, adjustDifficulty, recordGame, updateStreak]

theorem updateEloRatings_inBounds (m : JSMath F) (s : EloState F) (w : Winner) :
    RatingsInBounds (updateEloRatings m s w) := by
  unfold RatingsInBounds
  rw [updateEloRatings_playerElo, updateEloRatings_aiElo]
  have h1 : (1000 : F) ≤ 2500 := by norm_num
  simp only [MIN_ELO, MAX_ELO]
  refine ⟨le_max_left _ _, max_le h1 (min_le_left _ _), le_max_left _ _, max_le h1 (min_le_left _ _)⟩

theorem runGames_append (m : JSMath F) (s : EloState F) (ws : List Winner) (w : Winner) :
    runGames m s (ws ++ [w]) = updateEloRatings m (runGames m s ws) w := by
  simp [runGames, List.foldl_append]

theorem initialState_inBounds : RatingsInBounds (initialState : EloState F) := by
  simp only [RatingsInBounds, initialState]
  norm_num



theorem updateEloRatings_specDifficulty (m : JSMath F) (s : EloState F) (w : Winner) :
    (updateEloRatings m s w).currentDifficulty
      = specDifficulty m (updateEloRatings m s w).playerElo (updateEloRatings m s w).aiElo
          (updateEloRatings m s w).playerStreak (updateEloRatings m s w).aiStreak := by
  have hc : ∀ x : F, min (3.0 : F) (max 1.0 x) = max 1.0 (min 3.0 x) := by
    intro x
    have : (1.0 : F) ≤ 3.0 := by norm_num
    rw [max_min_distrib_left, max_eq_right this]
  simp only [updateEloRatings, adjustDifficulty, specDifficulty, sigmoid, clamp,
    MAX_DIFFICULTY, BASE_DIFFICULTY, WIN_STREAK_BONUS, LOSS_STREAK_PENALTY]
  rw [hc]
  congr 3
  · rw [neg_div]
    norm_num
theorem updateEloRatings_streaks {m : JSMath F} {s : EloState F} {w : Winner} :
    (updateEloRatings m s w).playerStreak = (updateStreak s w).playerStreak
      ∧ (updateEloRatings m s w).aiStreak = (updateStreak s w).aiStreak := by
  cases w <;> simp [updateEloRatings, adjustDifficulty, recordGame, updateStreak]

theorem updateEloRatings_currentDifficulty (m : JSMath F) (s : EloState F) (w : Winner) :
    (updateEloRatings m s w).currentDifficulty
      = min MAX_DIFFICULTY (max BASE_DIFFICULTY
          (1 + (1 / (1 + m.exp (-((updateEloRatings m s w).playerElo
              - (updateEloRatings m s w).aiElo) / 200))) * (MAX_DIFFICULTY - 1)
            + (if (updateEloRatings m s w).playerStreak > 2
                then WIN_STREAK_BONUS * ((updateEloRatings m s w).playerStreak : F)
               else if (updateEloRatings m s w).aiStreak > 2
                then -LOSS_STREAK_PENALTY * ((updateEloRatings m s w).aiStreak : F)
               else 0))) := by
  simp only [updateEloRatings, adjustDifficulty]

theorem updateEloRatings_difficulty_bounds (m : JSMath F) (s : EloState F) (w : Winner) :
    1.0 ≤ (updateEloRatings m s w).currentDifficulty
      ∧ (updateEloRatings m s w).currentDifficulty ≤ 3.0 := by
  rw [updateEloRatings_currentDifficulty]
  simp only [MAX_DIFFICULTY, BASE_DIFFICULTY]
  have h13 : (1.0 : F) ≤ 3.0 := by norm_num
  exact ⟨le_min h13 (le_max_left _ _), min_le_left _ _⟩

theorem getDynamicKFactor_pos (s : EloState F) :
    0 < getDynamicKFactor s := by
  unfold getDynamicKFactor
  simp only [K_FACTOR]
  split_ifs <;> norm_num

theorem expectedWinRate_lt_one (m : JSMath F)
    (hpow : ∀ x, 0 < m.pow 10 x) (a b : F) :
    0 < expectedWinRate m a b ∧ expectedWinRate m a b < 1 := by
  unfold expectedWinRate
  have h := hpow ((b - a) / 400)
  constructor
  · positivity
  · rw [div_lt_one (by linarith)]; linarith


theorem streakBonus_nonneg (k : Int) (c : F) (hc : 0 ≤ c) :
    0 ≤ (if k > 2 then c * (k : F) else 0) := by
  split_ifs with h
  · have : (0 : F) ≤ (k : F) := by exact_mod_cast (by omega : (0 : Int) ≤ k)
    positivity
  · exact le_rfl

theorem deltas_symmetric (m : JSMath F)
    (hpow : ∀ x, 0 < m.pow 10 x) (s : EloState F) (w : Winner) :
    loserDelta m s w = -winnerDelta m s w ∧ 0 < winnerDelta m s w := by
  have hk := getDynamicKFactor_pos s
  have he := expectedWinRate_lt_one m hpow s.playerElo s.aiElo
  cases w
  · have hb := streakBonus_nonneg s.playerStreak (WIN_STREAK_BONUS : F) (by norm_num [WIN_STREAK_BONUS])
    simp only [loserDelta, winnerDelta, aiDelta, playerDelta]
    constructor
    · ring
    · apply mul_pos hk; linarith
  · have hb := streakBonus_nonneg s.aiStreak (LOSS_STREAK_PENALTY : F) (by norm_num [LOSS_STREAK_PENALTY])
    simp only [loserDelta, winnerDelta, aiDelta, playerDelta]
    constructor
    · ring
    · apply mul_pos hk; linarith

theorem clamp_add_ge (x d : F) (h1 : 1000 ≤ x) (h2 : x ≤ 2500)
    (hd : 0 ≤ d) : x ≤ max MIN_ELO (min MAX_ELO (x + d)) ∧ max MIN_ELO (min MAX_ELO (x - d)) ≤ x := by
  simp only [MIN_ELO, MAX_ELO]
  constructor
  · apply le_max_of_le_right; apply le_min h2; linarith
  · apply max_le h1; apply min_le_of_right_le; linarith

end EloLemmas

/-! # The claims -/

/-- Claim C1: on a board, for an in-range cell `(row, col)` that holds
`player`, `checkWin(row, col, player)` is true exactly when, in one of the
four directions, the maximal contiguous run of marks of `player` through the
cell has length at least 5.  (A run cut by a gap is not contiguous: the
maximal run stops at the first cell that is off the board or does not hold
`player`.) -/
theorem checkWin_iff_maximalRun (b : Board) (row col : Int) (player : Nat)
    (hr : inRange row col) (hc : getCell b row col = player) :
    checkWin b row col player = true ↔
      ∃ d ∈ directions, ∃ lo hi : Nat,
        MaximalRun b row col d.1 d.2 player lo hi ∧ 5 ≤ lo + hi + 1 := by
  unfold checkWin
  rw [List.any_eq_true]
  constructor
  · rintro ⟨d, hd, h⟩
    obtain ⟨lo1, hi1, h5, hrun⟩ :=
      (lineCount_ge_five_iff b row col player d.1 d.2 hr hc).1 (by simpa using h)
    have hm := maximalRun_exists b row col player d hd hr hc
    have := maximalRun_unique_ge b row col d.1 d.2 player _ _ lo1 hi1 hm hrun
    exact ⟨d, hd, _, _, hm, by omega⟩
  · rintro ⟨d, hd, lo, hi, hm, h5⟩
    exact ⟨d, hd, by
      simpa using (lineCount_ge_five_iff b row col player d.1 d.2 hr hc).2 ⟨lo, hi, h5, hm.1⟩⟩

/-- Claim C1 at the fixture `fiveBoard`, cell `(7, 5)`, human marks. -/
theorem checkWin_iff_maximalRun_witness :
    inRange 7 5 ∧ getCell fiveBoard 7 5 = 1 ∧
      (checkWin fiveBoard 7 5 1 = true ↔
        ∃ d ∈ directions, ∃ lo hi : Nat,
          MaximalRun fiveBoard 7 5 d.1 d.2 1 lo hi ∧ 5 ≤ lo + hi + 1) :=
  ⟨by decide, by decide, checkWin_iff_maximalRun fiveBoard 7 5 1 (by decide) (by decide)⟩

/-- Four marks, a gap and a fifth mark do not win, from whichever of the five
marks `checkWin` is asked; five contiguous marks do. -/
theorem checkWin_fixtures :
    checkWin gapBoard 7 3 1 = false ∧ checkWin gapBoard 7 6 1 = false
      ∧ checkWin gapBoard 7 8 1 = false ∧ checkWin fiveBoard 7 3 1 = true
      ∧ checkWin fiveBoard 7 5 1 = true ∧ checkWin fiveBoard 7 7 1 = true := by
  decide

/-- Claim C2: after any finite sequence of recorded results applied to the
initial controller state, both ratings lie in `[1000, 2500]`.  Every prefix
of a sequence is itself a sequence, so the bounds hold after every update. -/
theorem ratings_stay_in_bounds {F : Type} [LinearOrderedField F] (m : JSMath F) (ws : List Winner) :
    1000 ≤ (runGames m initialState ws).playerElo
      ∧ (runGames m initialState ws).playerElo ≤ 2500
      ∧ 1000 ≤ (runGames m initialState ws).aiElo
      ∧ (runGames m initialState ws).aiElo ≤ 2500 := by
  rcases List.eq_nil_or_concat ws with h | ⟨ws1, w, h⟩
  · subst h; exact initialState_inBounds
  · subst h
    rw [List.concat_eq_append, runGames_append]
    exact updateEloRatings_inBounds m _ w

/-- Claim C3: if some Empty cell completes five in a row for the computer and
the mistake branch is not taken, `makeAIMove` returns, for every
`searchDepth`, an Empty cell at which placing the computer's mark makes
`checkWin` true (and leaves the board as it was). -/
theorem makeAIMove_takes_win {F : Type} [LinearOrderedField F] [FloorRing F] (m : JSMath F)
    (b : Board) (aiParams : AIParams F) (rnd : Nat → F)
    (hwin : ∃ c ∈ cells, completesFive b 2 c = true)
    (hno : ¬ rnd 1 < aiParams.mistakeRate) :
    ∃ c, makeAIMove m b aiParams rnd = (some c, b) ∧ getCell b c.1 c.2 = 0
      ∧ checkWin (setCell b c.1 c.2 2) c.1 c.2 2 = true := by
  obtain ⟨c, hc, _, hfive⟩ := findWinningMove_of_completes 2 aiParams.searchDepth.toNat b hwin
  refine ⟨c, makeAIMove_winning m b aiParams rnd hno c hc, completesFive_empty hfive, ?_⟩
  unfold completesFive at hfive
  simp only [Bool.and_eq_true, decide_eq_true_eq] at hfive
  exact hfive.2

/-- Claim C3 at `computerFourBoard`, with the parameters of difficulty 2
except `mistakeRate = 0`. -/
theorem makeAIMove_takes_win_witness :
    (∃ c ∈ cells, completesFive computerFourBoard 2 c = true)
      ∧ ¬ ((fun _ => 0.5 : Nat → ℝ) 1 < (⟨2, 0.8, 1.0, 0⟩ : AIParams ℝ).mistakeRate)
      ∧ ∃ c, makeAIMove ⟨fun x y => x ^ y, Real.exp, Real.sqrt, fun x => x⟩ computerFourBoard ⟨2, 0.8, 1.0, 0⟩ (fun _ => 0.5)
            = (some c, computerFourBoard)
          ∧ getCell computerFourBoard c.1 c.2 = 0
          ∧ checkWin (setCell computerFourBoard c.1 c.2 2) c.1 c.2 2 = true :=
  ⟨⟨(7, 2), by decide, by decide⟩, by norm_num,
    makeAIMove_takes_win ⟨fun x y => x ^ y, Real.exp, Real.sqrt, fun x => x⟩ computerFourBoard ⟨2, 0.8, 1.0, 0⟩ (fun _ => 0.5)
      ⟨(7, 2), by decide, by decide⟩ (by norm_num)⟩

set_option maxRecDepth 100000 in
/-- On `humanFourBoard` the computer has no cell that completes five, and its
win search with depth 2 returns `(0, 1)`: the cell that turns its open three
into an open four. -/
theorem humanFourBoard_search :
    (findWinningMove 2 2 humanFourBoard).1 = some (0, 1)
      ∧ (¬ ∃ c ∈ cells, completesFive humanFourBoard 2 c = true)
      ∧ completesFive humanFourBoard 1 (14, 4) = true
      ∧ completesFive humanFourBoard 1 (0, 1) = false := by
  decide!

set_option maxRecDepth 100000 in
/-- On `humanFourBoard` with depth 1 the computer's win search finds no cell
and the block search returns `(14, 4)`; and once the computer has marked
`(0, 1)` the human completes five at `(14, 4)`. -/
theorem humanFourBoard_depth_one :
    (findWinningMove 2 1 humanFourBoard).1 = none
      ∧ (findWinningMove 1 1 humanFourBoard).1 = some (14, 4)
      ∧ checkWin (setCell (setCell humanFourBoard 0 1 2) 14 4 1) 14 4 1 = true := by
  decide!

/-- Claim C4, a defect of the code: on `humanFourBoard` the human completes
five at `(14, 4)`, the computer has no cell that completes five and the
mistake branch is not taken, yet with `searchDepth = 2` `makeAIMove` returns
`(0, 1)`, a cell at which the human does not complete five.  Step 1, which the
code comments as the check for an immediate win of the computer, returns the
cell of the depth-2 look-ahead, and the block of step 2 never runs; the
look-ahead does not see that the reply `(14, 4)` wins the game for the human.
With `searchDepth = 1` the same board is blocked at `(14, 4)`. -/
theorem makeAIMove_misses_block :
    (∃ c ∈ cells, completesFive humanFourBoard 1 c = true)
      ∧ (¬ ∃ c ∈ cells, completesFive humanFourBoard 2 c = true)
      ∧ ¬ ((fun _ => 0.5 : Nat → ℝ) 1 < (⟨2, 0.8, 1.0, 0.14⟩ : AIParams ℝ).mistakeRate)
      ∧ makeAIMove ⟨fun x y => x ^ y, Real.exp, Real.sqrt, fun x => x⟩ humanFourBoard ⟨2, 0.8, 1.0, 0.14⟩ (fun _ => 0.5)
          = (some (0, 1), humanFourBoard)
      ∧ completesFive humanFourBoard 1 (0, 1) = false
      ∧ checkWin (setCell (setCell humanFourBoard 0 1 2) 14 4 1) 14 4 1 = true
      ∧ makeAIMove ⟨fun x y => x ^ y, Real.exp, Real.sqrt, fun x => x⟩ humanFourBoard ⟨1, 0.6, 0.75, 0.22⟩ (fun _ => 0.5)
          = (some (14, 4), humanFourBoard) := by
  have h := humanFourBoard_search
  have h1 := humanFourBoard_depth_one
  have hno : ¬ ((fun _ => 0.5 : Nat → ℝ) 1 < (⟨2, 0.8, 1.0, 0.14⟩ : AIParams ℝ).mistakeRate) := by
    norm_num
  have hno1 : ¬ ((fun _ => 0.5 : Nat → ℝ) 1 < (⟨1, 0.6, 0.75, 0.22⟩ : AIParams ℝ).mistakeRate) := by
    norm_num
  exact ⟨⟨(14, 4), by decide, h.2.2.1⟩, h.2.1, hno,
    makeAIMove_winning ⟨fun x y => x ^ y, Real.exp, Real.sqrt, fun x => x⟩ humanFourBoard ⟨2, 0.8, 1.0, 0.14⟩ (fun _ => 0.5) hno (0, 1) h.1,
    h.2.2.2, h1.2.2,
    makeAIMove_blocking ⟨fun x y => x ^ y, Real.exp, Real.sqrt, fun x => x⟩ humanFourBoard ⟨1, 0.6, 0.75, 0.22⟩ (fun _ => 0.5) hno1 (14, 4)
      h1.1 h1.2.1⟩

/-- The blocking that `makeAIMove` does perform: if some Empty cell completes
five for the human, no Empty cell completes five for the computer, the mistake
branch is not taken, and either `searchDepth <= 1` or the computer's own win
search `findWinningMove(2, searchDepth)` finds no cell, then `makeAIMove`
returns an Empty cell at which the human would complete five. -/
theorem makeAIMove_blocks {F : Type} [LinearOrderedField F] [FloorRing F] (m : JSMath F)
    (b : Board) (aiParams : AIParams F) (rnd : Nat → F)
    (hhuman : ∃ c ∈ cells, completesFive b 1 c = true)
    (hcomputer : ¬ ∃ c ∈ cells, completesFive b 2 c = true)
    (hno : ¬ rnd 1 < aiParams.mistakeRate)
    (hdepth : aiParams.searchDepth ≤ 1
      ∨ (findWinningMove 2 aiParams.searchDepth.toNat b).1 = none) :
    ∃ c, makeAIMove m b aiParams rnd = (some c, b) ∧ getCell b c.1 c.2 = 0
      ∧ checkWin (setCell b c.1 c.2 1) c.1 c.2 1 = true := by
  have hw : (findWinningMove 2 aiParams.searchDepth.toNat b).1 = none := by
    rcases hdepth with hd | hd
    · exact findWinningMove_one_none 2 _ (by omega) b hcomputer
    · exact hd
  obtain ⟨c, hc, _, hfive⟩ := findWinningMove_of_completes 1 aiParams.searchDepth.toNat b hhuman
  refine ⟨c, makeAIMove_blocking m b aiParams rnd hno c hw hc, completesFive_empty hfive, ?_⟩
  unfold completesFive at hfive
  simp only [Bool.and_eq_true, decide_eq_true_eq] at hfive
  exact hfive.2

/-- The blocking of `makeAIMove` at `humanFourBoard` with the parameters of
difficulty 1. -/
theorem makeAIMove_blocks_witness :
    (∃ c ∈ cells, completesFive humanFourBoard 1 c = true)
      ∧ (¬ ∃ c ∈ cells, completesFive humanFourBoard 2 c = true)
      ∧ ¬ ((fun _ => 0.5 : Nat → ℝ) 1 < (⟨1, 0.6, 0.75, 0.22⟩ : AIParams ℝ).mistakeRate)
      ∧ ((⟨1, 0.6, 0.75, 0.22⟩ : AIParams ℝ).searchDepth ≤ 1
          ∨ (findWinningMove 2 (⟨1, 0.6, 0.75, 0.22⟩ : AIParams ℝ).searchDepth.toNat
              humanFourBoard).1 = none)
      ∧ ∃ c, makeAIMove ⟨fun x y => x ^ y, Real.exp, Real.sqrt, fun x => x⟩ humanFourBoard ⟨1, 0.6, 0.75, 0.22⟩ (fun _ => 0.5)
            = (some c, humanFourBoard)
          ∧ getCell humanFourBoard c.1 c.2 = 0
          ∧ checkWin (setCell humanFourBoard c.1 c.2 1) c.1 c.2 1 = true :=
  ⟨⟨(14, 4), by decide, by decide⟩, humanFourBoard_search.2.1, by norm_num,
    Or.inl (le_refl _),
    makeAIMove_blocks ⟨fun x y => x ^ y, Real.exp, Real.sqrt, fun x => x⟩ humanFourBoard ⟨1, 0.6, 0.75, 0.22⟩ (fun _ => 0.5)
      ⟨(14, 4), by decide, by decide⟩ humanFourBoard_search.2.1 (by norm_num)
      (Or.inl (le_refl _))⟩

/-- Claim C5: on a board with at least one Empty cell, for every parameter
tuple and every outcome of the random source, `makeAIMove` returns a cell with
in-range coordinates that is Empty on the board, and leaves the board as it
was. -/
theorem makeAIMove_legal {F : Type} [LinearOrderedField F] [FloorRing F] (m : JSMath F)
    (b : Board) (aiParams : AIParams F) (rnd : Nat → F) (h : isBoardFull b = false) :
    ∃ c, makeAIMove m b aiParams rnd = (some c, b) ∧ inRange c.1 c.2
      ∧ getCell b c.1 c.2 = 0 := by
  obtain ⟨c, hc, hmem, h0⟩ :=
    makeAIMove_legal_cell m b aiParams rnd ((isBoardFull_eq_false b).1 h)
  exact ⟨c, hc, cells_inRange c hmem, h0⟩

/-- Claim C5 at the empty board, with the parameters of difficulty 1. -/
theorem makeAIMove_legal_witness :
    isBoardFull emptyBoard = false
      ∧ ∃ c, makeAIMove ⟨fun x y => x ^ y, Real.exp, Real.sqrt, fun x => x⟩ emptyBoard ⟨1, 0.6, 0.75, 0.22⟩ (fun _ => 0.5)
            = (some c, emptyBoard)
          ∧ inRange c.1 c.2 ∧ getCell emptyBoard c.1 c.2 = 0 :=
  ⟨by decide, makeAIMove_legal ⟨fun x y => x ^ y, Real.exp, Real.sqrt, fun x => x⟩ emptyBoard ⟨1, 0.6, 0.75, 0.22⟩ (fun _ => 0.5) (by decide)⟩

/-- Claim C6 fails: on the full board `fullBoard`, `makeAIMove` returns the
cell `(0, 0)`, which is occupied. -/
theorem makeAIMove_full_counterexample :
    isBoardFull fullBoard = true
      ∧ makeAIMove ⟨fun x y => x ^ y, Real.exp, Real.sqrt, fun x => x⟩ fullBoard ⟨1, 0.6, 0.75, 0.22⟩ (fun _ => 0.5)
          = (some (0, 0), fullBoard)
      ∧ getCell fullBoard 0 0 = 1 :=
  ⟨by decide,
    makeAIMove_full ⟨fun x y => x ^ y, Real.exp, Real.sqrt, fun x => x⟩ fullBoard ⟨1, 0.6, 0.75, 0.22⟩ (fun _ => 0.5)
      ((isBoardFull_eq_true fullBoard).1 (by decide)),
    by decide⟩

/-- Claim C6 as amended: on every full board, for every parameter tuple and
every outcome of the random source, `makeAIMove` returns the fixed cell
`(0, 0)`, which is occupied; it has no way to signal that there is no legal
move. -/
theorem makeAIMove_on_full_board {F : Type} [LinearOrderedField F] [FloorRing F]
    (m : JSMath F) (b : Board) (aiParams : AIParams F) (rnd : Nat → F)
    (h : isBoardFull b = true) :
    makeAIMove m b aiParams rnd = (some (0, 0), b) ∧ getCell b 0 0 ≠ 0 := by
  have hfull := (isBoardFull_eq_true b).1 h
  exact ⟨makeAIMove_full m b aiParams rnd hfull, hfull (0, 0) (by decide)⟩

/-- Claim C6 as amended, at `fullBoard` with the parameters of difficulty 3. -/
theorem makeAIMove_on_full_board_witness :
    isBoardFull fullBoard = true
      ∧ makeAIMove ⟨fun x y => x ^ y, Real.exp, Real.sqrt, fun x => x⟩ fullBoard ⟨3, 1.0, 1.25, 0.06⟩ (fun _ => 0.01)
          = (some (0, 0), fullBoard)
      ∧ getCell fullBoard 0 0 ≠ 0 :=
  ⟨by decide,
    makeAIMove_on_full_board ⟨fun x y => x ^ y, Real.exp, Real.sqrt, fun x => x⟩ fullBoard ⟨3, 1.0, 1.25, 0.06⟩ (fun _ => 0.01) (by decide)⟩

/-- Claim C7: `getAIParams` is monotonic in the difficulty: if the difficulty
of `s1` is at most that of `s2`, then `searchDepth`, `aggressiveness` and
`defensiveness` do not decrease and `mistakeRate` does not increase. -/
theorem getAIParams_monotone {F : Type} [LinearOrderedField F] [FloorRing F]
    (s1 s2 : EloState F)
    (h : s1.currentDifficulty ≤ s2.currentDifficulty) :
    (getAIParams s1).searchDepth ≤ (getAIParams s2).searchDepth
      ∧ (getAIParams s1).aggressiveness ≤ (getAIParams s2).aggressiveness
      ∧ (getAIParams s1).defensiveness ≤ (getAIParams s2).defensiveness
      ∧ (getAIParams s2).mistakeRate ≤ (getAIParams s1).mistakeRate := by
  simp only [getAIParams]
  refine ⟨Int.floor_mono h, ?_, ?_, ?_⟩
  · have : (0:F) ≤ 0.2 := by norm_num
    nlinarith
  · have : (0:F) ≤ 0.25 := by norm_num
    nlinarith
  · have : (0:F) ≤ 0.08 := by norm_num
    apply max_le_max le_rfl
    nlinarith

/-- Claim C7 at difficulties 1.5 and 2.5 over the reals. -/
theorem getAIParams_monotone_witness :
    (⟨1500, 1500, 1.5, 0, 0, []⟩ : EloState ℝ).currentDifficulty
        ≤ (⟨1500, 1500, 2.5, 0, 0, []⟩ : EloState ℝ).currentDifficulty
      ∧ (getAIParams (⟨1500, 1500, 1.5, 0, 0, []⟩ : EloState ℝ)).searchDepth
          ≤ (getAIParams (⟨1500, 1500, 2.5, 0, 0, []⟩ : EloState ℝ)).searchDepth
      ∧ (getAIParams (⟨1500, 1500, 1.5, 0, 0, []⟩ : EloState ℝ)).aggressiveness
          ≤ (getAIParams (⟨1500, 1500, 2.5, 0, 0, []⟩ : EloState ℝ)).aggressiveness
      ∧ (getAIParams (⟨1500, 1500, 1.5, 0, 0, []⟩ : EloState ℝ)).defensiveness
          ≤ (getAIParams (⟨1500, 1500, 2.5, 0, 0, []⟩ : EloState ℝ)).defensiveness
      ∧ (getAIParams (⟨1500, 1500, 2.5, 0, 0, []⟩ : EloState ℝ)).mistakeRate
          ≤ (getAIParams (⟨1500, 1500, 1.5, 0, 0, []⟩ : EloState ℝ)).mistakeRate :=
  ⟨by norm_num, getAIParams_monotone _ _ (by norm_num)⟩

/-- Claim C8: from the initial state (ratings 1500/1500, difficulty 1.0), one
`updateEloRatings('player')` makes the human rating 1516, the computer rating
1484 (the same magnitude, 16, in the other direction) and the difficulty
strictly greater than its base value 1.0. -/
theorem first_human_win :
    (updateEloRatings ⟨fun x y => x ^ y, Real.exp, Real.sqrt, fun x => x⟩ (initialState : EloState ℝ)
        Winner.player).playerElo = 1516
      ∧ (updateEloRatings ⟨fun x y => x ^ y, Real.exp, Real.sqrt, fun x => x⟩ (initialState : EloState ℝ)
        Winner.player).aiElo = 1484
      ∧ (initialState : EloState ℝ).currentDifficulty = 1.0
      ∧ 1.0 < (updateEloRatings ⟨fun x y => x ^ y, Real.exp, Real.sqrt, fun x => x⟩
        (initialState : EloState ℝ) Winner.player).currentDifficulty := by
  have hk : getDynamicKFactor (recordGame (initialState : EloState ℝ) Winner.player) = 32 := by
    simp [getDynamicKFactor, recordGame, updateStreak, initialState, K_FACTOR]
  have hp : (updateEloRatings ⟨fun x y => x ^ y, Real.exp, Real.sqrt, fun x => x⟩
      (initialState : EloState ℝ) Winner.player).playerElo = 1516 := by
    rw [updateEloRatings_playerElo]
    simp only [playerDelta, hk, expectedWinRate]
    simp only [recordGame, updateStreak, initialState, MIN_ELO, MAX_ELO]
    norm_num
  have ha : (updateEloRatings ⟨fun x y => x ^ y, Real.exp, Real.sqrt, fun x => x⟩
      (initialState : EloState ℝ) Winner.player).aiElo = 1484 := by
    rw [updateEloRatings_aiElo]
    simp only [aiDelta, hk, expectedWinRate]
    simp only [recordGame, updateStreak, initialState, MIN_ELO, MAX_ELO]
    norm_num
  refine ⟨hp, ha, by simp [initialState, BASE_DIFFICULTY], ?_⟩
  have hd : (updateEloRatings ⟨fun x y => x ^ y, Real.exp, Real.sqrt, fun x => x⟩
      (initialState : EloState ℝ) Winner.player).currentDifficulty
      = min 3.0 (max 1.0 (1 + (1 / (1 + Real.exp (-(1516 - 1484) / 200))) * (3.0 - 1) + 0)) := by
    rw [updateEloRatings_currentDifficulty, hp, ha, updateEloRatings_streaks.1,
      updateEloRatings_streaks.2]
    simp [updateStreak, initialState, MAX_DIFFICULTY, BASE_DIFFICULTY]
  rw [hd]
  have hpos : 0 < Real.exp (-(1516 - 1484) / 200) := Real.exp_pos _
  have h2 : (0 : ℝ) < 1 / (1 + Real.exp (-(1516 - 1484) / 200)) * (3.0 - 1) := by
    have : (0 : ℝ) < 3.0 - 1 := by norm_num
    positivity
  rw [lt_min_iff]
  constructor
  · norm_num
  · rw [lt_max_iff]; right; linarith

/-- Claim C9: in every controller state and for either winner, the pre-clamp
rating change of the loser is the negative of the winner's, and the winner's
is strictly positive; hence, when the ratings before the update are within
`[1000, 2500]`, the clamped rating of the winner does not decrease and that
of the loser does not increase. -/
theorem rating_changes_symmetric (s : EloState ℝ) (w : Winner) :
    loserDelta ⟨fun x y => x ^ y, Real.exp, Real.sqrt, fun x => x⟩ (recordGame s w) w
        = -winnerDelta ⟨fun x y => x ^ y, Real.exp, Real.sqrt, fun x => x⟩ (recordGame s w) w
      ∧ 0 < winnerDelta ⟨fun x y => x ^ y, Real.exp, Real.sqrt, fun x => x⟩ (recordGame s w) w
      ∧ (RatingsInBounds s →
          winnerElo s w
              ≤ winnerElo (updateEloRatings ⟨fun x y => x ^ y, Real.exp, Real.sqrt, fun x => x⟩ s w) w
            ∧ loserElo (updateEloRatings ⟨fun x y => x ^ y, Real.exp, Real.sqrt, fun x => x⟩ s w) w
              ≤ loserElo s w) := by
  have hpow : ∀ x : ℝ, 0 < (⟨fun x y => x ^ y, Real.exp, Real.sqrt, fun x => x⟩ : JSMath ℝ).pow 10 x :=
    fun x => Real.rpow_pos_of_pos (by norm_num) x
  have h := deltas_symmetric ⟨fun x y => x ^ y, Real.exp, Real.sqrt, fun x => x⟩ hpow (recordGame s w) w
  refine ⟨h.1, h.2, ?_⟩
  intro hb
  have hl := h.1
  have hw := h.2
  cases w
  · simp only [winnerElo, loserElo, winnerDelta, loserDelta] at hl hw ⊢
    rw [updateEloRatings_playerElo, updateEloRatings_aiElo, hl]
    exact ⟨(clamp_add_ge _ _ hb.1 hb.2.1 hw.le).1, (clamp_add_ge _ _ hb.2.2.1 hb.2.2.2 hw.le).2⟩
  · simp only [winnerElo, loserElo, winnerDelta, loserDelta] at hl hw ⊢
    rw [updateEloRatings_playerElo, updateEloRatings_aiElo, hl]
    exact ⟨(clamp_add_ge _ _ hb.2.2.1 hb.2.2.2 hw.le).1, (clamp_add_ge _ _ hb.1 hb.2.1 hw.le).2⟩

/-- Claim C9 at the initial state with the human as winner. -/
theorem rating_changes_symmetric_witness :
    RatingsInBounds (initialState : EloState ℝ)
      ∧ winnerElo (initialState : EloState ℝ) Winner.player
          ≤ winnerElo (updateEloRatings ⟨fun x y => x ^ y, Real.exp, Real.sqrt, fun x => x⟩ initialState Winner.player) Winner.player
      ∧ loserElo (updateEloRatings ⟨fun x y => x ^ y, Real.exp, Real.sqrt, fun x => x⟩ (initialState : EloState ℝ) Winner.player) Winner.player
          ≤ loserElo (initialState : EloState ℝ) Winner.player :=
  ⟨initialState_inBounds,
    (rating_changes_symmetric initialState Winner.player).2.2 initialState_inBounds⟩

/-- Claim C10: after every `updateEloRatings` call the difficulty equals
`clamp(1 + sigmoid((humanRating - computerRating)/200) * 2 + adj, 1.0, 3.0)`
computed from the ratings and streaks the call leaves behind, with `adj` as
in the specification; and the difficulty lies in `[1.0, 3.0]` in every state
reachable from the initial one. -/
theorem difficulty_formula_and_bounds {F : Type} [LinearOrderedField F] (m : JSMath F)
    (s : EloState F) (w : Winner) (ws : List Winner) :
    (updateEloRatings m s w).currentDifficulty
        = specDifficulty m (updateEloRatings m s w).playerElo (updateEloRatings m s w).aiElo
            (updateEloRatings m s w).playerStreak (updateEloRatings m s w).aiStreak
      ∧ 1.0 ≤ (runGames m initialState ws).currentDifficulty
      ∧ (runGames m initialState ws).currentDifficulty ≤ 3.0 := by
  refine ⟨updateEloRatings_specDifficulty m s w, ?_⟩
  rcases List.eq_nil_or_concat ws with h | ⟨ws1, w1, h⟩
  · subst h
    simp only [runGames, List.foldl_nil, initialState, BASE_DIFFICULTY]
    norm_num
  · subst h
    rw [List.concat_eq_append, runGames_append]
    exact updateEloRatings_difficulty_bounds m _ w1

/-! # Lemmas for the claims on the search, the evaluation and the history -/

/-! ## Row-major order -/

set_option maxRecDepth 100000 in
theorem cells_rowMajorIndex :
    cells.map rowMajorIndex = (List.range 225).map (fun (n : Nat) => (n : Int)) := by
  decide!

theorem cells_pairwise : cells.Pairwise (fun a b => rowMajorIndex a < rowMajorIndex b) := by
  have h : (cells.map rowMajorIndex).Pairwise (fun a b => a < b) := by
    rw [cells_rowMajorIndex, List.pairwise_map]
    exact (List.pairwise_lt_range 225).imp (fun h => by exact_mod_cast h)
  exact List.pairwise_map.1 h

theorem cells_find?_eq_some_iff (p : Cell → Bool) (c : Cell) :
    cells.find? p = some c ↔ IsFirstCell p c := by
  rw [List.find?_eq_some]
  constructor
  · rintro ⟨hp, as, bs, hsplit, hbefore⟩
    have hpw := cells_pairwise
    rw [hsplit, List.pairwise_append] at hpw
    obtain ⟨_, hbs, hcross⟩ := hpw
    rw [List.pairwise_cons] at hbs
    refine ⟨by rw [hsplit]; simp, hp, ?_⟩
    intro d hd hlt
    rw [hsplit, List.mem_append, List.mem_cons] at hd
    rcases hd with hd | hd | hd
    · simpa using hbefore d hd
    · subst hd; omega
    · have := hbs.1 d hd; omega
  · rintro ⟨hmem, hp, hfirst⟩
    obtain ⟨as, bs, hsplit⟩ := List.append_of_mem hmem
    refine ⟨hp, as, bs, hsplit, ?_⟩
    intro a ha
    have hpw := cells_pairwise
    rw [hsplit, List.pairwise_append] at hpw
    have hlt := hpw.2.2 a ha c (List.mem_cons_self _ _)
    have := hfirst a (by rw [hsplit]; simp [ha]) hlt
    simp [this]

theorem cells_find?_eq_none_iff (p : Cell → Bool) :
    cells.find? p = none ↔ ∀ c ∈ cells, p c = false := by
  rw [List.find?_eq_none]
  simp


/-! ## `findWinningMove` beyond the first loops -/

theorem getCell_setCell (b : Board) (hwf : b.WF) (r c : Int) (hrc : inRange r c) (v : Nat)
    (r1 c1 : Int) (hrc1 : inRange r1 c1) :
    getCell (setCell b r c v) r1 c1 = if r1 = r ∧ c1 = c then v else getCell b r1 c1 := by
  obtain ⟨hlen, hrows⟩ := hwf
  simp only [inRange, BOARD_SIZE] at hrc hrc1
  have hi : r.toNat < b.length := by omega
  have hrow : (b.getD r.toNat []).length = 15 := by
    rw [List.getD_eq_getElem _ _ hi]
    exact hrows _ (List.getElem_mem _)
  unfold getCell setCell
  by_cases h1 : r1 = r
  · subst h1
    have e : (b.set r1.toNat ((b.getD r1.toNat []).set c.toNat v)).getD r1.toNat []
        = (b.getD r1.toNat []).set c.toNat v := by
      rw [List.getD_eq_getElem _ _ (by simpa using hi)]
      simp
    rw [e]
    by_cases h2 : c1 = c
    · subst h2
      rw [if_pos ⟨rfl, rfl⟩, List.getD_eq_getElem _ _ (by rw [List.length_set, hrow]; omega)]
      simp
    · rw [if_neg (fun h => h2 h.2)]
      have hne : c.toNat ≠ c1.toNat := by omega
      simp only [List.getD_eq_getElem?_getD, List.getElem?_set_ne hne]
  · rw [if_neg (fun h => h1 h.1)]
    have hne : r.toNat ≠ r1.toNat := by omega
    simp only [List.getD_eq_getElem?_getD, List.getElem?_set_ne hne]

theorem scanReplies_fst (find : Board → Option Cell × Board) (hfind : ∀ b, (find b).2 = b)
    (opponent : Nat) :
    ∀ (cs : List Cell) (canWin : Bool) (b : Board),
      (scanReplies find opponent cs canWin b).1
        = (canWin && cs.all (fun c => decide (getCell b c.1 c.2 ≠ 0)
            || (find (setCell b c.1 c.2 opponent)).1.isSome)) := by
  intro cs
  induction cs with
  | nil => intro canWin b; simp [scanReplies]
  | cons c cs ih =>
    intro canWin b
    obtain ⟨x, y⟩ := c
    rw [scanReplies_cons]
    by_cases hc : canWin = true
    · rw [if_pos hc]
      subst hc
      by_cases h0 : getCell b x y = 0
      · rw [if_pos h0, hfind, setCell_restore b x y opponent 0 h0, ih]
        cases hf : (find (setCell b x y opponent)).1 <;> simp [h0, hf]
      · rw [if_neg h0, ih]
        simp [h0]
    · rw [if_neg hc]
      simp at hc
      simp [hc]

theorem scanForced_fst (find : Board → Option Cell × Board) (hfind : ∀ b, (find b).2 = b)
    (player : Nat) :
    ∀ (cs : List Cell) (b : Board),
      (scanForced find player cs b).1
        = cs.find? (fun c => decide (getCell b c.1 c.2 = 0)
            && (scanReplies find (if player = 1 then 2 else 1) cells true
                  (setCell b c.1 c.2 player)).1) := by
  intro cs
  induction cs with
  | nil => intro b; rfl
  | cons c cs ih =>
    intro b
    obtain ⟨i, j⟩ := c
    rw [scanForced_cons]
    by_cases h0 : getCell b i j = 0
    · rw [if_pos h0, scanReplies_snd find hfind, setCell_restore b i j player 0 h0]
      by_cases hw : (scanReplies find (if player = 1 then 2 else 1) cells true
          (setCell b i j player)).1 = true
      · rw [if_pos hw]
        simp [List.find?, h0, hw]
      · rw [if_neg hw, ih b]
        simp [List.find?, h0, hw]
    · rw [if_neg h0, ih b]
      simp [List.find?, h0]

theorem find?_congr_mem {α : Type} (p q : α → Bool) :
    ∀ l : List α, (∀ a ∈ l, p a = q a) → l.find? p = l.find? q := by
  intro l
  induction l with
  | nil => intro _; rfl
  | cons a l ih =>
    intro h
    rw [List.find?_cons, List.find?_cons, h a (List.mem_cons_self _ _),
      ih (fun x hx => h x (List.mem_cons_of_mem _ hx))]

theorem all_congr_mem {α : Type} (p q : α → Bool) :
    ∀ l : List α, (∀ a ∈ l, p a = q a) → l.all p = l.all q := by
  intro l
  induction l with
  | nil => intro _; rfl
  | cons a l ih =>
    intro h
    rw [List.all_cons, List.all_cons, h a (List.mem_cons_self _ _),
      ih (fun x hx => h x (List.mem_cons_of_mem _ hx))]

theorem findWinningMove_fst_deep (player d : Nat) (b : Board)
    (hno : ∀ c ∈ cells, completesFive b player c = false) :
    (findWinningMove player (d + 2) b).1
      = cells.find? (fun c => decide (getCell b c.1 c.2 = 0)
          && (scanReplies (findWinningMove player (d + 1)) (if player = 1 then 2 else 1) cells
                true (setCell b c.1 c.2 player)).1) := by
  have himm : (scanImmediate player cells b).1 = none := by
    rw [scanImmediate_fst, List.find?_eq_none]
    intro c hc
    simp [hno c hc]
  have hsnd := scanImmediate_snd player cells b
  unfold findWinningMove
  split
  · rename_i c b1 heq
    rw [heq] at himm
    simp at himm
  · rename_i b1 heq
    rw [heq] at hsnd
    simp only at hsnd
    subst hsnd
    rw [if_pos (by omega)]
    exact scanForced_fst _ (findWinningMove_snd player (d + 1)) player cells _

theorem forced_pred_eq (b : Board) (hwf : b.WF) (player k : Nat) (hp : player = 1 ∨ player = 2)
    (c : Cell) (hc : c ∈ cells) :
    (decide (getCell b c.1 c.2 = 0)
        && (scanReplies (findWinningMove player k) (if player = 1 then 2 else 1) cells true
              (setCell b c.1 c.2 player)).1)
      = survivesReplies b player k c := by
  unfold survivesReplies
  rw [scanReplies_fst _ (findWinningMove_snd player k)]
  have hopp : (if player = 1 then 2 else 1) = 3 - player := by
    rcases hp with h | h <;> subst h <;> rfl
  rw [hopp, Bool.true_and]
  congr 1
  apply all_congr_mem
  intro r hr
  have hget := getCell_setCell b hwf c.1 c.2 (cells_inRange c hc) player r.1 r.2
    (cells_inRange r hr)
  congr 1
  rw [hget]
  by_cases hrc : r = c
  · subst hrc
    have hp0 : player ≠ 0 := by omega
    simp [hp0]
  · have : ¬ (r.1 = c.1 ∧ r.2 = c.2) := fun h => hrc (Prod.ext h.1 h.2)
    simp [this, hrc]

theorem findWinningMove_fst_one (player : Nat) (b : Board) :
    (findWinningMove player 1 b).1 = cells.find? (completesFive b player) := by
  rw [← scanImmediate_fst]
  unfold findWinningMove
  split
  · rename_i c b1 heq
    rw [heq]
  · rename_i b1 heq
    rw [heq]
    simp

theorem completesFive_none_iff (b : Board) (player : Nat) :
    (¬ ∃ c ∈ cells, completesFive b player c = true)
      ↔ ∀ c ∈ cells, completesFive b player c = false := by
  constructor
  · intro h c hc
    cases hf : completesFive b player c with
    | false => rfl
    | true => exact absurd ⟨c, hc, hf⟩ h
  · rintro h ⟨c, hc, hf⟩
    rw [h c hc] at hf
    exact absurd hf (by decide)

/-! ## `evaluateDirection` -/

theorem walkOutcome_nil (b : Board) (player : Nat) (cpc : Nat) (prev : Bool) :
    walkOutcome b player [] cpc prev = ⟨cpc, 0, false, 0⟩ := rfl

theorem walkOutcome_cons_mark (b : Board) (player : Nat) (p : Cell) (rest : List Cell)
    (cpc : Nat) (prev : Bool) (h : inRange p.1 p.2 ∧ getCell b p.1 p.2 = player) :
    walkOutcome b player (p :: rest) cpc prev = walkOutcome b player rest (cpc + 1) true := by
  have ht : (p :: rest).takeWhile
        (fun p => decide (inRange p.1 p.2 ∧ getCell b p.1 p.2 = player))
      = p :: rest.takeWhile
        (fun p => decide (inRange p.1 p.2 ∧ getCell b p.1 p.2 = player)) := by
    rw [List.takeWhile_cons, decide_eq_true h]
    rfl
  unfold walkOutcome
  simp only
  rw [ht, List.length_cons, List.drop_succ_cons]
  generalize (rest.takeWhile
    (fun p => decide (inRange p.1 p.2 ∧ getCell b p.1 p.2 = player))).length = k
  have e : cpc + (k + 1) = cpc + 1 + k := by omega
  rw [e]
  cases List.drop k rest with
  | nil => rfl
  | cons q tl => simp

theorem walkOutcome_cons_stop (b : Board) (player : Nat) (p : Cell) (rest : List Cell)
    (cpc : Nat) (prev : Bool) (h : ¬ (inRange p.1 p.2 ∧ getCell b p.1 p.2 = player)) :
    walkOutcome b player (p :: rest) cpc prev =
      if inRange p.1 p.2 ∧ getCell b p.1 p.2 = 0 then
        ⟨cpc, 1, false, if prev = true then 1 else 0⟩
      else ⟨cpc, 0, true, 0⟩ := by
  have ht : (p :: rest).takeWhile
        (fun p => decide (inRange p.1 p.2 ∧ getCell b p.1 p.2 = player)) = [] := by
    rw [List.takeWhile_cons, decide_eq_false h]
    rfl
  unfold walkOutcome
  simp only
  rw [ht]
  simp

theorem walkLoop_eq_walkOutcome (b : Board) (row col dx dy : Int) (player : Nat)
    (direction : Int) :
    ∀ (fuel : Nat) (step : Int) (cpc : Nat), 1 ≤ step →
      walkLoop b row col dx dy player direction fuel step cpc
        = walkOutcome b player (stepCells row col dx dy direction fuel step) cpc
            (decide (step > 1 ∧ getCell b (row + (step - 1) * direction * dx)
              (col + (step - 1) * direction * dy) = player)) := by
  intro fuel
  induction fuel with
  | zero => intro step cpc _; rfl
  | succ n ih =>
    intro step cpc hstep
    unfold walkLoop stepCells
    simp only
    have e1 : row + step * direction * dx - direction * dx
        = row + (step - 1) * direction * dx := by ring
    have e2 : col + step * direction * dy - direction * dy
        = col + (step - 1) * direction * dy := by ring
    by_cases hin : inRange (row + step * direction * dx) (col + step * direction * dy)
    · have hin2 : row + step * direction * dx ≥ 0 ∧ row + step * direction * dx < BOARD_SIZE
          ∧ col + step * direction * dy ≥ 0 ∧ col + step * direction * dy < BOARD_SIZE := hin
      rw [if_pos hin2]
      by_cases hp : getCell b (row + step * direction * dx) (col + step * direction * dy) = player
      · have e3 : step + 1 - 1 = step := by ring
        have hprev : step + 1 > 1 ∧ getCell b (row + (step + 1 - 1) * direction * dx)
            (col + (step + 1 - 1) * direction * dy) = player := ⟨by omega, by rw [e3]; exact hp⟩
        rw [if_pos hp, walkOutcome_cons_mark b player _ _ _ _ ⟨hin, hp⟩,
          ih (step + 1) (cpc + 1) (by omega), decide_eq_true hprev]
      · rw [if_neg hp, walkOutcome_cons_stop b player _ _ _ _ (fun h => hp h.2), e1, e2]
        by_cases h0 : getCell b (row + step * direction * dx) (col + step * direction * dy) = 0
        · rw [if_pos h0,
            if_pos (show inRange (row + step * direction * dx) (col + step * direction * dy)
              ∧ getCell b (row + step * direction * dx) (col + step * direction * dy) = 0
              from ⟨hin, h0⟩)]
          simp
        · rw [if_neg h0,
            if_neg (show ¬ (inRange (row + step * direction * dx) (col + step * direction * dy)
              ∧ getCell b (row + step * direction * dx) (col + step * direction * dy) = 0)
              from fun h => h0 h.2)]
    · have hin2 : ¬ (row + step * direction * dx ≥ 0 ∧ row + step * direction * dx < BOARD_SIZE
          ∧ col + step * direction * dy ≥ 0 ∧ col + step * direction * dy < BOARD_SIZE) := hin
      rw [if_neg hin2, walkOutcome_cons_stop b player _ _ _ _ (fun h => hin h.1),
        if_neg (show ¬ (inRange (row + step * direction * dx) (col + step * direction * dy)
          ∧ getCell b (row + step * direction * dx) (col + step * direction * dy) = 0)
          from fun h => hin h.1)]

theorem stepCells_four (row col dx dy direction : Int) :
    stepCells row col dx dy direction 4 1 = lineCells row col dx dy direction := by
  simp [stepCells, lineCells]

theorem walkLoop_four (b : Board) (row col dx dy : Int) (player : Nat) (direction : Int) :
    walkLoop b row col dx dy player direction 4 1 0
      = walkOutcome b player (lineCells row col dx dy direction) 0 false := by
  rw [walkLoop_eq_walkOutcome b row col dx dy player direction 4 1 0 le_rfl, stepCells_four]
  simp

theorem specWalk_eq (b : Board) (row col dx dy : Int) (player : Nat) (direction : Int) :
    specWalk b row col dx dy player direction =
      ((if (walkLoop b row col dx dy player direction 4 1 0).blocked then 0
          else (walkLoop b row col dx dy player direction 4 1 0).currentPlayerCount),
       (if (walkLoop b row col dx dy player direction 4 1 0).blocked then 0
          else (walkLoop b row col dx dy player direction 4 1 0).currentEmptyCount),
       (walkLoop b row col dx dy player direction 4 1 0).potential) := by
  rw [walkLoop_four]
  unfold specWalk walkOutcome
  simp only
  generalize ((lineCells row col dx dy direction).takeWhile
    (fun p => decide (inRange p.1 p.2 ∧ getCell b p.1 p.2 = player))).length = k
  cases List.drop k (lineCells row col dx dy direction) with
  | nil => simp
  | cons q tl =>
    simp only
    by_cases h : inRange q.1 q.2 ∧ getCell b q.1 q.2 = 0
    · simp [h]
    · simp [h]

theorem evaluateDirection_eq_spec {F : Type} [LinearOrderedField F] (b : Board) (row col dx dy : Int) (player : Nat)
    (depth : Int) :
    (evaluateDirection b row col dx dy player depth : F)
      = specEvaluateDirection b row col dx dy player depth := by
  unfold evaluateDirection specEvaluateDirection dirBaseScore dirPlayerCount dirEmptyCount
    dirPotential
  simp only [specWalk_eq]
  rw [Nat.add_comm (if (walkLoop b row col dx dy player 1 4 1 0).blocked = true then 0
        else (walkLoop b row col dx dy player 1 4 1 0).currentPlayerCount),
    Nat.add_comm (if (walkLoop b row col dx dy player 1 4 1 0).blocked = true then 0
        else (walkLoop b row col dx dy player 1 4 1 0).currentEmptyCount),
    Nat.add_comm (walkLoop b row col dx dy player 1 4 1 0).potential,
    mul_comm (0.2 : F)]


section EvalLemmas

variable {F : Type} [LinearOrderedField F]

theorem dirBaseScore_nonneg (b : Board) (row col dx dy : Int) (player : Nat) :
    (0 : F) ≤ dirBaseScore b row col dx dy player := by
  unfold dirBaseScore
  simp only
  split_ifs <;> norm_num

theorem evaluateDirection_nonneg (b : Board) (row col dx dy : Int) (player : Nat)
    (depth : Int) : (0 : F) ≤ evaluateDirection b row col dx dy player depth := by
  unfold evaluateDirection
  simp only
  have hb := dirBaseScore_nonneg (F := F) b row col dx dy player
  split_ifs with h
  · have hd : (1 : F) < (depth : F) := by exact_mod_cast h.1
    have h2 : (0 : F) ≤ (depth : F) * 0.2 := by
      have : (0 : F) ≤ 0.2 := by norm_num
      nlinarith
    apply mul_nonneg hb
    linarith
  · exact hb


end EvalLemmas

theorem centerDistance_real (i j : Int) :
    centerDistance (⟨fun x y => x ^ y, Real.exp, Real.sqrt, fun x => x⟩ : JSMath ℝ) i j
      = Real.sqrt (((i : ℝ) - 7) ^ 2 + ((j : ℝ) - 7) ^ 2) := by
  unfold centerDistance
  simp only
  congr 1
  rw [show ((2 : ℝ)) = ((2 : ℕ) : ℝ) by norm_num, Real.rpow_natCast, Real.rpow_natCast]

theorem centerDistance_lt (i j : Int) (h : inRange i j) :
    Real.sqrt (((i : ℝ) - 7) ^ 2 + ((j : ℝ) - 7) ^ 2) < 14 := by
  simp only [inRange, BOARD_SIZE] at h
  obtain ⟨h1, h2, h3, h4⟩ := h
  have hi0 : (0 : ℝ) ≤ (i : ℝ) := by exact_mod_cast h1
  have hi1 : (i : ℝ) ≤ 14 := by exact_mod_cast (by omega : i ≤ 14)
  have hj0 : (0 : ℝ) ≤ (j : ℝ) := by exact_mod_cast h3
  have hj1 : (j : ℝ) ≤ 14 := by exact_mod_cast (by omega : j ≤ 14)
  rw [Real.sqrt_lt' (by norm_num)]
  nlinarith


/-! ## The history and the streaks -/

theorem recordGame_history {F : Type} (s : EloState F) (w : Winner) :
    (recordGame s w).gameHistory =
      if (s.gameHistory ++ [w]).length > 10 then (s.gameHistory ++ [w]).drop 1
      else s.gameHistory ++ [w] := by
  cases w <;> simp [recordGame, updateStreak]

theorem updateStreak_winner_loser_streak {F : Type} (s : EloState F) (w : Winner) :
    winnerStreak (updateStreak s w) w = max 0 (winnerStreak s w) + 1
      ∧ loserStreak (updateStreak s w) w = min 0 (loserStreak s w) - 1 := by
  cases w <;> exact ⟨rfl, rfl⟩

theorem updateStreak_signs {F : Type} (s : EloState F) (w : Winner) :
    ¬ (0 < (updateStreak s w).playerStreak ∧ 0 < (updateStreak s w).aiStreak) := by
  cases w
  · simp only [updateStreak]
    have := min_le_left 0 s.aiStreak
    omega
  · simp only [updateStreak]
    have := min_le_left 0 s.playerStreak
    omega

section HistoryLemmas

variable {F : Type} [LinearOrderedField F]

theorem lastResults_eq_drop (n : Nat) (history : List Winner) :
    lastResults n history = history.drop (history.length - n) := by
  unfold lastResults
  rw [List.reverse_take, List.reverse_reverse, List.length_reverse]

theorem getDynamicKFactor_spec (s : EloState F) :
    getDynamicKFactor s = specKFactor s.gameHistory := by
  unfold getDynamicKFactor specKFactor
  simp only [lastResults_eq_drop]
  have e : s.gameHistory.length - min 5 s.gameHistory.length = s.gameHistory.length - 5 := by
    omega
  rw [e]
  have hc : ∀ l : List Winner, (l.filter (fun r => decide (r = Winner.player))).length
      = l.count Winner.player := by
    intro l
    rw [List.count, List.countP_eq_length_filter]
    congr 1
  simp only [hc, K_FACTOR]
  split_ifs <;> norm_num

theorem updateEloRatings_history (m : JSMath F) (s : EloState F) (w : Winner) :
    (updateEloRatings m s w).gameHistory = (recordGame s w).gameHistory := by
  simp [updateEloRatings, adjustDifficulty]

theorem history_step (ws : List Winner) (w : Winner) :
    (if (ws.drop (ws.length - 10) ++ [w]).length > 10
        then (ws.drop (ws.length - 10) ++ [w]).drop 1
        else ws.drop (ws.length - 10) ++ [w])
      = (ws ++ [w]).drop ((ws ++ [w]).length - 10) := by
  by_cases h : ws.length < 10
  · have e : ws.length - 10 = 0 := by omega
    have e2 : (ws ++ [w]).length - 10 = 0 := by simp; omega
    rw [e, e2]
    simp only [List.drop_zero]
    rw [if_neg (by simp; omega)]
  · have hl : (ws.drop (ws.length - 10)).length = 10 := by simp; omega
    rw [if_pos (by rw [List.length_append, hl]; simp)]
    have e2 : (ws ++ [w]).length - 10 = ws.length - 10 + 1 := by simp; omega
    rw [e2, List.drop_append_of_le_length (by omega), List.drop_append_of_le_length (by omega),
      List.drop_drop]

theorem runGames_history (m : JSMath F) (ws : List Winner) :
    (runGames m initialState ws).gameHistory = ws.drop (ws.length - 10) := by
  induction ws using List.reverseRecOn with
  | nil => rfl
  | append_singleton ws w ih =>
    rw [runGames_append, updateEloRatings_history, recordGame_history, ih]
    exact history_step ws w


theorem endGame_messages (m : JSMath F) (s : EloState F) :
    enforceGameLoss m s = s ∧ enforceBan m s = s
      ∧ endGame m s "AI赢了!" = updateEloRatings m s Winner.ai := by
  have h1 : includes "因作弊行为判负" "你赢了" = false := by decide
  have h2 : includes "因作弊行为判负" "AI赢了" = false := by decide
  have h3 : includes "因多次作弊封禁" "你赢了" = false := by decide
  have h4 : includes "因多次作弊封禁" "AI赢了" = false := by decide
  have h5 : includes "AI赢了!" "你赢了" = false := by decide
  have h6 : includes "AI赢了!" "AI赢了" = true := by decide
  simp [enforceGameLoss, enforceBan, endGame, h1, h2, h3, h4, h5, h6]

end HistoryLemmas

/-! # The claims, continued -/

/-- Claim C11: for every difficulty `d` in `[1.0, 3.0]`, `getAIParams` returns
`searchDepth = floor(d)`, an integer among 1, 2, 3, `aggressiveness =
0.4 + 0.2 d`, `defensiveness = 0.5 + 0.25 d` and `mistakeRate =
max(0, 0.3 - 0.08 d)`, which lies in `[0, 1]`. -/
theorem getAIParams_values {F : Type} [LinearOrderedField F] [FloorRing F] (s : EloState F)
    (h1 : 1 ≤ s.currentDifficulty) (h3 : s.currentDifficulty ≤ 3) :
    (getAIParams s).searchDepth = ⌊s.currentDifficulty⌋
      ∧ ((getAIParams s).searchDepth = 1 ∨ (getAIParams s).searchDepth = 2
          ∨ (getAIParams s).searchDepth = 3)
      ∧ (getAIParams s).aggressiveness = 0.4 + 0.2 * s.currentDifficulty
      ∧ (getAIParams s).defensiveness = 0.5 + 0.25 * s.currentDifficulty
      ∧ (getAIParams s).mistakeRate = max 0 (0.3 - 0.08 * s.currentDifficulty)
      ∧ 0 ≤ (getAIParams s).mistakeRate ∧ (getAIParams s).mistakeRate ≤ 1 := by
  have hlo : (1 : Int) ≤ ⌊s.currentDifficulty⌋ := Int.le_floor.2 (by simpa using h1)
  have hhi : ⌊s.currentDifficulty⌋ ≤ (3 : Int) := by
    have := Int.floor_le s.currentDifficulty
    have h : ((⌊s.currentDifficulty⌋ : Int) : F) ≤ ((3 : Int) : F) := by
      push_cast; linarith
    exact_mod_cast h
  have hd : (0 : F) ≤ 0.08 * s.currentDifficulty := by
    have : (0 : F) ≤ 0.08 := by norm_num
    nlinarith
  have h03 : (0.3 : F) ≤ 1 := by norm_num
  refine ⟨rfl, ?_, ?_, ?_, ?_, ?_, ?_⟩
  · show ⌊s.currentDifficulty⌋ = 1 ∨ ⌊s.currentDifficulty⌋ = 2 ∨ ⌊s.currentDifficulty⌋ = 3
    omega
  · show 0.4 + s.currentDifficulty * 0.2 = 0.4 + 0.2 * s.currentDifficulty
    ring
  · show 0.5 + s.currentDifficulty * 0.25 = 0.5 + 0.25 * s.currentDifficulty
    ring
  · show max 0 (0.3 - s.currentDifficulty * 0.08) = max 0 (0.3 - 0.08 * s.currentDifficulty)
    rw [mul_comm]
  · exact le_max_left _ _
  · show max 0 (0.3 - s.currentDifficulty * 0.08) ≤ 1
    apply max_le (by norm_num)
    nlinarith

/-- Claim C11 at difficulty 2.5 over the reals. -/
theorem getAIParams_values_witness :
    (1 : ℝ) ≤ (⟨1500, 1500, 2.5, 0, 0, []⟩ : EloState ℝ).currentDifficulty
      ∧ (⟨1500, 1500, 2.5, 0, 0, []⟩ : EloState ℝ).currentDifficulty ≤ 3
      ∧ (getAIParams (⟨1500, 1500, 2.5, 0, 0, []⟩ : EloState ℝ)).searchDepth
          = ⌊(⟨1500, 1500, 2.5, 0, 0, []⟩ : EloState ℝ).currentDifficulty⌋
      ∧ 0 ≤ (getAIParams (⟨1500, 1500, 2.5, 0, 0, []⟩ : EloState ℝ)).mistakeRate
      ∧ (getAIParams (⟨1500, 1500, 2.5, 0, 0, []⟩ : EloState ℝ)).mistakeRate ≤ 1 :=
  ⟨by norm_num, by norm_num,
    (getAIParams_values (⟨1500, 1500, 2.5, 0, 0, []⟩ : EloState ℝ)
      (by norm_num) (by norm_num)).1,
    (getAIParams_values (⟨1500, 1500, 2.5, 0, 0, []⟩ : EloState ℝ)
      (by norm_num) (by norm_num)).2.2.2.2.2⟩

/-- Claim C12: for every controller state and either winner, `updateStreak`
sets the winner's streak to `max(0, old) + 1` and the loser's streak to
`min(0, old) - 1`; and in every state reachable from the initial one the two
streaks are not both positive. -/
theorem streaks_spec {F : Type} [LinearOrderedField F] (m : JSMath F) (s : EloState F)
    (w : Winner) (ws : List Winner) :
    winnerStreak (updateStreak s w) w = max 0 (winnerStreak s w) + 1
      ∧ loserStreak (updateStreak s w) w = min 0 (loserStreak s w) - 1
      ∧ ¬ (0 < (runGames m initialState ws).playerStreak
            ∧ 0 < (runGames m initialState ws).aiStreak) := by
  refine ⟨(updateStreak_winner_loser_streak s w).1, (updateStreak_winner_loser_streak s w).2, ?_⟩
  rcases List.eq_nil_or_concat ws with h | ⟨ws1, w1, h⟩
  · subst h
    simp [runGames, initialState]
  · subst h
    rw [List.concat_eq_append, runGames_append, updateEloRatings_streaks.1,
      updateEloRatings_streaks.2]
    exact updateStreak_signs _ w1

/-- Claim C13 evaluated on the code: the two messages with which the abuse
detector calls `endGame` contain neither `你赢了` nor `AI赢了`, so `endGame`
leaves the controller as it was, whereas the message of a normal computer win
applies `updateEloRatings('ai')`; from the initial state a normal loss moves
the computer rating to 1516, a forced loss leaves it at 1500. -/
theorem forced_loss_not_recorded :
    (∀ s : EloState ℝ,
        enforceGameLoss ⟨fun x y => x ^ y, Real.exp, Real.sqrt, fun x => x⟩ s = s ∧ enforceBan ⟨fun x y => x ^ y, Real.exp, Real.sqrt, fun x => x⟩ s = s
          ∧ endGame ⟨fun x y => x ^ y, Real.exp, Real.sqrt, fun x => x⟩ s "AI赢了!" = updateEloRatings ⟨fun x y => x ^ y, Real.exp, Real.sqrt, fun x => x⟩ s Winner.ai)
      ∧ (endGame ⟨fun x y => x ^ y, Real.exp, Real.sqrt, fun x => x⟩ (initialState : EloState ℝ) "AI赢了!").aiElo = 1516
      ∧ (enforceGameLoss ⟨fun x y => x ^ y, Real.exp, Real.sqrt, fun x => x⟩ (initialState : EloState ℝ)).aiElo = 1500 := by
  refine ⟨fun s => endGame_messages ⟨fun x y => x ^ y, Real.exp, Real.sqrt, fun x => x⟩ s, ?_, ?_⟩
  · rw [(endGame_messages ⟨fun x y => x ^ y, Real.exp, Real.sqrt, fun x => x⟩ (initialState : EloState ℝ)).2.2, updateEloRatings_aiElo]
    have hk : getDynamicKFactor (recordGame (initialState : EloState ℝ) Winner.ai) = 32 := by
      simp [getDynamicKFactor, recordGame, updateStreak, initialState, K_FACTOR]
    simp only [aiDelta, hk, expectedWinRate]
    simp only [recordGame, updateStreak, initialState, MIN_ELO, MAX_ELO]
    norm_num
  · rw [(endGame_messages ⟨fun x y => x ^ y, Real.exp, Real.sqrt, fun x => x⟩ (initialState : EloState ℝ)).1]
    rfl

/-- Claim C14: for every side, depth and board, `findWinningMove(side, depth)`
returns (the embedding is a total function: all its loops are bounded and the
recursion is on `depth`) and the board it leaves behind is the board it was
given, hypothetical placements of nested calls included, whether it returns a
cell or `null`. -/
theorem findWinningMove_leaves_board (player depth : Nat) (b : Board) :
    ∃ r : Option Cell, findWinningMove player depth b = (r, b) :=
  ⟨(findWinningMove player depth b).1, Prod.ext rfl (findWinningMove_snd player depth b)⟩

/-- Claim C15: after any sequence of `n` recorded results the history has
length `min(n, 10)` and is the last `min(n, 10)` results in the order recorded. -/
theorem history_is_last_ten {F : Type} [LinearOrderedField F] (m : JSMath F)
    (ws : List Winner) :
    (runGames m initialState ws).gameHistory.length = min ws.length 10
      ∧ (runGames m initialState ws).gameHistory = lastResults (min ws.length 10) ws := by
  rw [runGames_history, lastResults_eq_drop]
  constructor
  · rw [List.length_drop]; omega
  · congr 1; omega

/-- Claim C16: `getDynamicKFactor` equals the specification's K-factor of the
history: over the last `min(5, length)` results `w`, 32 if `w` has fewer than
3 entries, otherwise 48 if the human win rate over `w` exceeds 0.7, 22.4 if it
is below 0.3, and 32 otherwise. -/
theorem getDynamicKFactor_eq_spec {F : Type} [LinearOrderedField F] (s : EloState F) :
    getDynamicKFactor s = specKFactor s.gameHistory :=
  getDynamicKFactor_spec s

/-- Claim C17: `findWinningMove(side, 1)` returns a cell exactly when that cell
is the first one, in row-major order, that is Empty and makes `checkWin` true
once `side` is placed there; it returns `null` exactly when no cell of the
board has that property. -/
theorem findWinningMove_depth_one (player : Nat) (b : Board) :
    (∀ c, (findWinningMove player 1 b).1 = some c ↔ IsFirstCell (completesFive b player) c)
      ∧ ((findWinningMove player 1 b).1 = none
          ↔ ∀ c ∈ cells, completesFive b player c = false) := by
  rw [findWinningMove_fst_one]
  exact ⟨fun c => cells_find?_eq_some_iff _ c, cells_find?_eq_none_iff _⟩

/-- Claim C18: on a 15x15 board on which `side` (1 or 2) has no immediately
winning cell, and for `depth >= 2`, `findWinningMove(side, depth)` returns a
cell exactly when that cell is the first one, in row-major order, that is
Empty and survives all replies (for every other Empty cell `r`, with `side`
placed at the cell and the opponent at `r`, `findWinningMove(side, depth - 1)`
is not `null`); it returns `null` exactly when no cell has that property. -/
theorem findWinningMove_deep (player depth : Nat) (b : Board) (hwf : b.WF)
    (hside : player = 1 ∨ player = 2) (hdepth : 2 ≤ depth)
    (hno : ∀ c ∈ cells, completesFive b player c = false) :
    (∀ c, (findWinningMove player depth b).1 = some c
        ↔ IsFirstCell (survivesReplies b player (depth - 1)) c)
      ∧ ((findWinningMove player depth b).1 = none
          ↔ ∀ c ∈ cells, survivesReplies b player (depth - 1) c = false) := by
  obtain ⟨d, rfl⟩ : ∃ d, depth = d + 2 := ⟨depth - 2, by omega⟩
  have e : d + 2 - 1 = d + 1 := by omega
  rw [e, findWinningMove_fst_deep player d b hno,
    find?_congr_mem _ (survivesReplies b player (d + 1)) cells
      (fun c hc => forced_pred_eq b hwf player (d + 1) hside c hc)]
  exact ⟨fun c => cells_find?_eq_some_iff _ c, cells_find?_eq_none_iff _⟩

/-- Claim C18 at `humanFourBoard`, computer to search with depth 2: the cell
returned, `(0, 1)`, is the first Empty cell that survives all replies. -/
theorem findWinningMove_deep_witness :
    humanFourBoard.WF ∧ ((2 : Nat) = 1 ∨ (2 : Nat) = 2) ∧ 2 ≤ 2
      ∧ (∀ c ∈ cells, completesFive humanFourBoard 2 c = false)
      ∧ IsFirstCell (survivesReplies humanFourBoard 2 (2 - 1)) (0, 1) :=
  ⟨by decide, Or.inr rfl, le_refl 2,
    (completesFive_none_iff humanFourBoard 2).1 humanFourBoard_search.2.1,
    ((findWinningMove_deep 2 2 humanFourBoard (by decide) (Or.inr rfl) (le_refl 2)
      ((completesFive_none_iff humanFourBoard 2).1 humanFourBoard_search.2.1)).1 (0, 1)).1
      humanFourBoard_search.1⟩

/-- Claim C19: `evaluateDirection` equals the specification's reading: two
walks of up to 4 cells in opposite senses, each counting same-side marks up to
the first Empty cell (one slack, and a potential point when it directly
follows a counted same-side mark) and contributing nothing if an opponent mark
or the board edge is hit; the score table over the combined counts; and the
factor `1 + 0.2 * depth` when `depth > 1` and the base score is positive. -/
theorem evaluateDirection_refines_spec {F : Type} [LinearOrderedField F] (b : Board)
    (row col dx dy : Int) (player : Nat) (depth : Int) :
    (evaluateDirection b row col dx dy player depth : F)
      = specEvaluateDirection b row col dx dy player depth :=
  evaluateDirection_eq_spec b row col dx dy player depth

/-- Claim C20: in the grid returned by `evaluateBoard`, over the reals, an
occupied in-range cell has score 0 and an Empty in-range cell `(i, j)` has
score `(14 - sqrt((i-7)^2 + (j-7)^2)) * (1 + 0.1 * searchDepth)` plus the sum
of `evaluateDirection` over the axes `(0,1)`, `(1,0)`, `(1,1)`, `(1,-1)`, plus
`5 * searchDepth` at a star point; that score is strictly positive when
`searchDepth >= 1`. -/
theorem evaluateBoard_scores (b : Board) (player : Nat) (aiParams : AIParams ℝ) (i j : Int)
    (hr : inRange i j) :
    (getCell b i j ≠ 0 →
        evaluateBoard ⟨fun x y => x ^ y, Real.exp, Real.sqrt, fun x => x⟩ b player aiParams i j = 0)
      ∧ (getCell b i j = 0 →
          evaluateBoard ⟨fun x y => x ^ y, Real.exp, Real.sqrt, fun x => x⟩ b player aiParams i j
              = (14 - Real.sqrt (((i : ℝ) - 7) ^ 2 + ((j : ℝ) - 7) ^ 2))
                    * (1 + 0.1 * (aiParams.searchDepth : ℝ))
                + (evaluateDirection b i j 0 1 player aiParams.searchDepth
                  + evaluateDirection b i j 1 0 player aiParams.searchDepth
                  + evaluateDirection b i j 1 1 player aiParams.searchDepth
                  + evaluateDirection b i j 1 (-1) player aiParams.searchDepth)
                + (if isStarPoint i j then 5 * (aiParams.searchDepth : ℝ) else 0)
            ∧ (1 ≤ aiParams.searchDepth →
                0 < evaluateBoard ⟨fun x y => x ^ y, Real.exp, Real.sqrt, fun x => x⟩ b player aiParams
                      i j)) := by
  constructor
  · intro h
    unfold evaluateBoard
    simp only
    rw [if_neg h]
  · intro h
    have heq : evaluateBoard ⟨fun x y => x ^ y, Real.exp, Real.sqrt, fun x => x⟩ b player aiParams i j
        = (14 - Real.sqrt (((i : ℝ) - 7) ^ 2 + ((j : ℝ) - 7) ^ 2))
              * (1 + 0.1 * (aiParams.searchDepth : ℝ))
          + (evaluateDirection b i j 0 1 player aiParams.searchDepth
            + evaluateDirection b i j 1 0 player aiParams.searchDepth
            + evaluateDirection b i j 1 1 player aiParams.searchDepth
            + evaluateDirection b i j 1 (-1) player aiParams.searchDepth)
          + (if isStarPoint i j then 5 * (aiParams.searchDepth : ℝ) else 0) := by
      unfold evaluateBoard
      simp only
      rw [if_pos h, centerDistance_real, mul_comm (aiParams.searchDepth : ℝ) 0.1]
      unfold isStarPoint
      split_ifs <;> ring
    refine ⟨heq, ?_⟩
    intro hsd
    rw [heq]
    have hdist := centerDistance_lt i j hr
    have hs : (1 : ℝ) ≤ (aiParams.searchDepth : ℝ) := by exact_mod_cast hsd
    have h1 := evaluateDirection_nonneg (F := ℝ) b i j 0 1 player aiParams.searchDepth
    have h2 := evaluateDirection_nonneg (F := ℝ) b i j 1 0 player aiParams.searchDepth
    have h3 := evaluateDirection_nonneg (F := ℝ) b i j 1 1 player aiParams.searchDepth
    have h4 := evaluateDirection_nonneg (F := ℝ) b i j 1 (-1) player aiParams.searchDepth
    have hstar : (0 : ℝ) ≤ (if isStarPoint i j then 5 * (aiParams.searchDepth : ℝ) else 0) := by
      split_ifs
      · linarith
      · exact le_rfl
    have hbase : (0 : ℝ) < (14 - Real.sqrt (((i : ℝ) - 7) ^ 2 + ((j : ℝ) - 7) ^ 2))
        * (1 + 0.1 * (aiParams.searchDepth : ℝ)) := by
      apply mul_pos
      · linarith
      · nlinarith
    linarith

/-- Claim C20 at the centre of the empty board with `searchDepth = 1`. -/
theorem evaluateBoard_scores_witness :
    inRange 7 7 ∧ getCell emptyBoard 7 7 = 0
      ∧ (1 : Int) ≤ (⟨1, 0.6, 0.75, 0.22⟩ : AIParams ℝ).searchDepth
      ∧ 0 < evaluateBoard ⟨fun x y => x ^ y, Real.exp, Real.sqrt, fun x => x⟩ emptyBoard 2 (⟨1, 0.6, 0.75, 0.22⟩ : AIParams ℝ) 7 7 :=
  ⟨by decide, by decide, le_refl 1,
    ((evaluateBoard_scores emptyBoard 2 (⟨1, 0.6, 0.75, 0.22⟩ : AIParams ℝ) 7 7
      (by decide)).2 (by decide)).2 (le_refl 1)⟩

/-! # Lemmas for the claims on the star points, the strategic move, the random move and the streaks -/

theorem updateStreak_sum {F : Type} (s : EloState F) (w : Winner)
    (h : s.playerStreak + s.aiStreak = 0) :
    (updateStreak s w).playerStreak + (updateStreak s w).aiStreak = 0 := by
  cases w
  · simp only [updateStreak]
    rcases le_total 0 s.playerStreak with hp | hp
    · rw [max_eq_right hp, min_eq_right (by omega)]; omega
    · rw [max_eq_left hp, min_eq_left (by omega)]; omega
  · simp only [updateStreak]
    rcases le_total 0 s.aiStreak with hp | hp
    · rw [max_eq_right hp, min_eq_right (by omega)]; omega
    · rw [max_eq_left hp, min_eq_left (by omega)]; omega

section LastLemmas

variable {F : Type} [LinearOrderedField F]

/-! ## Streaks, and the independence of the random source -/

theorem findStrategicMove_eq_none_iff (m : JSMath F) (b : Board) (aiParams : AIParams F) :
    findStrategicMove m b aiParams = none ↔ isBoardFull b = true := by
  constructor
  · intro h
    by_contra hf
    rw [Bool.not_eq_true, isBoardFull_eq_false] at hf
    obtain ⟨c, hc, _⟩ := findStrategicMove_of_empty m b aiParams hf
    rw [h] at hc
    exact absurd hc (by simp)
  · intro h
    exact findStrategicMove_full m b aiParams ((isBoardFull_eq_true b).1 h)

theorem makeAIMove_no_mistake_indep [FloorRing F] (m : JSMath F) (b : Board)
    (aiParams : AIParams F) (rnd1 rnd2 : Nat → F) (h : isBoardFull b = false)
    (h1 : ¬ rnd1 1 < aiParams.mistakeRate) (h2 : ¬ rnd2 1 < aiParams.mistakeRate) :
    makeAIMove m b aiParams rnd1 = makeAIMove m b aiParams rnd2 := by
  obtain ⟨c, hs, _⟩ := findStrategicMove_of_empty m b aiParams ((isBoardFull_eq_false b).1 h)
  cases hw : (findWinningMove 2 aiParams.searchDepth.toNat b).1 with
  | some c1 =>
    rw [makeAIMove_winning m b aiParams rnd1 h1 c1 hw,
      makeAIMove_winning m b aiParams rnd2 h2 c1 hw]
  | none =>
    cases hb : (findWinningMove 1 aiParams.searchDepth.toNat b).1 with
    | some c1 =>
      rw [makeAIMove_blocking m b aiParams rnd1 h1 c1 hw hb,
        makeAIMove_blocking m b aiParams rnd2 h2 c1 hw hb]
    | none =>
      rw [makeAIMove_strategic m b aiParams rnd1 h1 c hw hb hs,
        makeAIMove_strategic m b aiParams rnd2 h2 c hw hb hs]


/-! ## The counts of `evaluateDirection` -/

theorem walkOutcome_facts (b : Board) (player : Nat) (line : List Cell) :
    (walkOutcome b player line 0 false).currentEmptyCount ≤ 1
      ∧ (walkOutcome b player line 0 false).potential ≤ 1
      ∧ ((walkOutcome b player line 0 false).potential = 1 →
          (walkOutcome b player line 0 false).blocked = false
            ∧ 1 ≤ (walkOutcome b player line 0 false).currentPlayerCount
            ∧ (walkOutcome b player line 0 false).currentEmptyCount = 1) := by
  unfold walkOutcome
  simp only
  generalize (line.takeWhile
    (fun p => decide (inRange p.1 p.2 ∧ getCell b p.1 p.2 = player))).length = k
  cases List.drop k line with
  | nil => simp
  | cons q tl =>
    simp only
    by_cases h : inRange q.1 q.2 ∧ getCell b q.1 q.2 = 0
    · rw [if_pos h]
      by_cases hk : k ≥ 1
      · simp [hk]
      · simp [hk]
    · rw [if_neg h]
      simp

theorem walkLoop_facts (b : Board) (row col dx dy : Int) (player : Nat) (direction : Int) :
    (walkLoop b row col dx dy player direction 4 1 0).currentEmptyCount ≤ 1
      ∧ (walkLoop b row col dx dy player direction 4 1 0).potential ≤ 1
      ∧ ((walkLoop b row col dx dy player direction 4 1 0).potential = 1 →
          (walkLoop b row col dx dy player direction 4 1 0).blocked = false
            ∧ 1 ≤ (walkLoop b row col dx dy player direction 4 1 0).currentPlayerCount
            ∧ (walkLoop b row col dx dy player direction 4 1 0).currentEmptyCount = 1) := by
  rw [walkLoop_four]
  exact walkOutcome_facts b player _

theorem dir_counts (b : Board) (row col dx dy : Int) (player : Nat) :
    dirEmptyCount b row col dx dy player ≤ 2
      ∧ (2 ≤ dirPotential b row col dx dy player →
          2 ≤ dirPlayerCount b row col dx dy player
            ∧ dirEmptyCount b row col dx dy player = 2) := by
  have h1 := walkLoop_facts b row col dx dy player (-1)
  have h2 := walkLoop_facts b row col dx dy player 1
  unfold dirEmptyCount dirPotential dirPlayerCount
  simp only
  generalize walkLoop b row col dx dy player (-1) 4 1 0 = w1 at h1
  generalize walkLoop b row col dx dy player 1 4 1 0 = w2 at h2
  obtain ⟨a1, a2, a3⟩ := h1
  obtain ⟨b1, b2, b3⟩ := h2
  constructor
  · split_ifs <;> omega
  · intro hp
    have hp1 : w1.potential = 1 := by omega
    have hp2 : w2.potential = 1 := by omega
    obtain ⟨c1, c2, c3⟩ := a3 hp1
    obtain ⟨d1, d2, d3⟩ := b3 hp2
    simp only [c1, d1, Bool.false_eq_true, if_false]
    omega

theorem dirBaseScore_values (b : Board) (row col dx dy : Int) (player : Nat) :
    (dirBaseScore b row col dx dy player : F) = 0
      ∨ (dirBaseScore b row col dx dy player : F) = 1000
      ∨ (dirBaseScore b row col dx dy player : F) = 10000
      ∨ (dirBaseScore b row col dx dy player : F) = 100000 := by
  have h := dir_counts b row col dx dy player
  unfold dirBaseScore
  simp only
  split_ifs with h1 h2 h3 h4 h5
  · right; right; right; rfl
  · right; right; left; rfl
  · right; left; rfl
  · omega
  · exfalso
    have := h.2 h5
    omega
  · left; rfl

theorem walkLoop_count (b : Board) (row col dx dy : Int) (player : Nat) (direction : Int) :
    ∀ (fuel : Nat) (step : Int) (cpc : Nat),
      ∃ k : Nat, k ≤ fuel
        ∧ (walkLoop b row col dx dy player direction fuel step cpc).currentPlayerCount = cpc + k
        ∧ ∀ s : Nat, s < k →
            inRange (row + (step + s) * direction * dx) (col + (step + s) * direction * dy)
              ∧ getCell b (row + (step + s) * direction * dx)
                  (col + (step + s) * direction * dy) = player := by
  intro fuel
  induction fuel with
  | zero => intro step cpc; exact ⟨0, le_refl 0, rfl, fun s hs => absurd hs (by omega)⟩
  | succ n ih =>
    intro step cpc
    unfold walkLoop
    simp only
    by_cases hin : inRange (row + step * direction * dx) (col + step * direction * dy)
    · have hin2 : row + step * direction * dx ≥ 0 ∧ row + step * direction * dx < BOARD_SIZE
          ∧ col + step * direction * dy ≥ 0 ∧ col + step * direction * dy < BOARD_SIZE := hin
      rw [if_pos hin2]
      by_cases hp : getCell b (row + step * direction * dx) (col + step * direction * dy) = player
      · rw [if_pos hp]
        obtain ⟨k, hk, hc, hall⟩ := ih (step + 1) (cpc + 1)
        refine ⟨k + 1, by omega, by rw [hc]; omega, ?_⟩
        intro s hs
        cases s with
        | zero => simpa using ⟨hin, hp⟩
        | succ s =>
          have := hall s (by omega)
          have e : step + ((s + 1 : Nat) : Int) = step + 1 + (s : Int) := by push_cast; ring
          rw [e]; exact this
      · rw [if_neg hp]
        refine ⟨0, by omega, ?_, fun s hs => absurd hs (by omega)⟩
        split_ifs <;> rfl
    · have hin2 : ¬ (row + step * direction * dx ≥ 0 ∧ row + step * direction * dx < BOARD_SIZE
          ∧ col + step * direction * dy ≥ 0 ∧ col + step * direction * dy < BOARD_SIZE) := hin
      rw [if_neg hin2]
      exact ⟨0, by omega, rfl, fun s hs => absurd hs (by omega)⟩

theorem countLoop_after_placing (b : Board) (hwf : b.WF) (row col : Int) (hr : inRange row col)
    (dx dy : Int) (player : Nat) (direction : Int) (dr dc : Int)
    (hdr : dr = direction * dx) (hdc : dc = direction * dy) :
    (walkLoop b row col dx dy player direction 4 1 0).currentPlayerCount
      ≤ countLoop (setCell b row col player) row col dr dc player 4 1 := by
  obtain ⟨k, hk, hc, hall⟩ := walkLoop_count b row col dx dy player direction 4 1 0
  rw [hc, Nat.zero_add]
  apply countLoop_complete _ row col dr dc player 4 1 k hk
  intro s hs
  obtain ⟨hin, hp⟩ := hall s hs
  have e1 : row + (1 + (s : Int)) * dr = row + (1 + (s : Int)) * direction * dx := by
    rw [hdr]; ring
  have e2 : col + (1 + (s : Int)) * dc = col + (1 + (s : Int)) * direction * dy := by
    rw [hdc]; ring
  rw [e1, e2]
  refine ⟨hin, ?_⟩
  rw [getCell_setCell b hwf row col hr player _ _ hin]
  split_ifs
  · rfl
  · exact hp

theorem lineCount_after_placing (b : Board) (hwf : b.WF) (row col : Int) (hr : inRange row col)
    (dx dy : Int) (player : Nat) :
    dirPlayerCount b row col dx dy player + 1
      ≤ lineCount (setCell b row col player) row col player dx dy := by
  have h1 := countLoop_after_placing b hwf row col hr dx dy player 1 dx dy (by ring) (by ring)
  have h2 := countLoop_after_placing b hwf row col hr dx dy player (-1) (-dx) (-dy)
    (by ring) (by ring)
  unfold dirPlayerCount lineCount
  simp only
  split_ifs <;> omega

theorem dirBaseScore_le (b : Board) (row col dx dy : Int) (player : Nat)
    (h : dirPlayerCount b row col dx dy player < 4) :
    (0 : F) ≤ dirBaseScore b row col dx dy player
      ∧ (dirBaseScore b row col dx dy player : F) ≤ 10000 := by
  unfold dirBaseScore
  simp only
  rw [if_neg (by omega)]
  split_ifs <;> norm_num

theorem evaluateDirection_lt (b : Board) (row col dx dy : Int) (player : Nat) (depth : Int)
    (hdepth : depth < 45) (h : dirPlayerCount b row col dx dy player < 4) :
    (evaluateDirection b row col dx dy player depth : F) < 100000 := by
  obtain ⟨h0, h1⟩ := dirBaseScore_le (F := F) b row col dx dy player h
  unfold evaluateDirection
  simp only
  split_ifs with hc
  · have hd : (depth : F) ≤ 44 := by exact_mod_cast (by omega : depth ≤ 44)
    have hd1 : (1 : F) < (depth : F) := by exact_mod_cast hc.1
    have hf : (1 : F) + (depth : F) * 0.2 ≤ 9.8 := by
      have : (0 : F) ≤ 0.2 := by norm_num
      nlinarith
    have hf0 : (0 : F) ≤ 1 + (depth : F) * 0.2 := by
      have : (0 : F) ≤ 0.2 := by norm_num
      nlinarith
    calc dirBaseScore b row col dx dy player * (1 + (depth : F) * 0.2)
        ≤ 10000 * (1 + (depth : F) * 0.2) := mul_le_mul_of_nonneg_right h1 hf0
      _ ≤ 10000 * 9.8 := by nlinarith
      _ < 100000 := by norm_num
  · linarith

theorem computerThreeBoard_counts :
    dirPlayerCount computerThreeBoard 7 7 0 1 2 = 3
      ∧ dirEmptyCount computerThreeBoard 7 7 0 1 2 = 2
      ∧ getCell computerThreeBoard 7 7 = 0
      ∧ checkWin (setCell computerThreeBoard 7 7 2) 7 7 2 = false := by
  decide


/-! ## Star points and the winner's rating change -/

theorem starPoints_eq : cells.filter (fun c => decide (isStarPoint c.1 c.2)) = starPoints := by
  decide

theorem evaluateBoard_bonus (m : JSMath F) (b : Board) (player : Nat) (aiParams : AIParams F)
    (i j : Int) (h : getCell b i j = 0) :
    evaluateBoard m b player aiParams i j
      = scoreBeforeBonus m b player aiParams i j
        + (if isStarPoint i j then 5 * (aiParams.searchDepth : F) else 0) := by
  unfold evaluateBoard scoreBeforeBonus isStarPoint
  simp only
  rw [if_pos h]
  split_ifs <;> simp

theorem isStarPoint_iff_mem (c : Cell) : isStarPoint c.1 c.2 ↔ c ∈ starPoints := by
  obtain ⟨i, j⟩ := c
  simp only [isStarPoint, starPoints, List.mem_cons, Prod.mk.injEq, List.mem_singleton,
    List.not_mem_nil, or_false]
  constructor
  · rintro ⟨h1 | h1, h2 | h2 | h2⟩ <;> subst h1 <;> subst h2 <;> simp
  · rintro (⟨h1, h2⟩ | ⟨h1, h2⟩ | ⟨h1, h2⟩ | ⟨h1, h2⟩ | ⟨h1, h2⟩ | ⟨h1, h2⟩) <;>
      subst h1 <;> subst h2 <;> simp

theorem winnerDelta_formula (m : JSMath F) (s : EloState F) (w : Winner) :
    winnerDelta m s w
      = getDynamicKFactor s * (1 - expectedWinner m s w
          + (if winnerStreak s w > 2 then streakCoefficient w * (winnerStreak s w : F) else 0)) := by
  cases w
  · simp only [winnerDelta, playerDelta, expectedWinner, winnerStreak, streakCoefficient,
      WIN_STREAK_BONUS]
  · simp only [winnerDelta, aiDelta, expectedWinner, winnerStreak, streakCoefficient,
      LOSS_STREAK_PENALTY]

theorem runGames_two_ai_streak (m : JSMath F) :
    (recordGame (runGames m initialState [Winner.ai, Winner.ai]) Winner.ai).aiStreak = 3 := by
  have h : (runGames m (initialState : EloState F) [Winner.ai, Winner.ai]).aiStreak = 2 := by
    simp only [runGames, List.foldl_cons, List.foldl_nil]
    rw [updateEloRatings_streaks.2]
    simp only [updateStreak]
    rw [updateEloRatings_streaks.2]
    simp [updateStreak, initialState]
  simp only [recordGame, updateStreak, h]
  rfl


/-! ## `findStrategicMove` computes first maxima -/

theorem tracked_skip (b : Board) (f : Cell → F) (pre : List Cell) (mx : Option F)
    (best : Option Cell) (x : Cell) (hx : getCell b x.1 x.2 ≠ 0)
    (ht : Tracked b f pre mx best) : Tracked b f (pre ++ [x]) mx best := by
  rcases ht with ⟨h1, h2, h3⟩ | ⟨c, h1, h2, h3, h4, h5, h6⟩
  · left
    refine ⟨h1, h2, ?_⟩
    intro d hd
    rcases List.mem_append.1 hd with h | h
    · exact h3 d h
    · rw [List.mem_singleton.1 h]; exact hx
  · right
    refine ⟨c, h1, h2, List.mem_append_left _ h3, h4, ?_, ?_⟩
    · intro d hd hd0
      rcases List.mem_append.1 hd with h | h
      · exact h5 d h hd0
      · rw [List.mem_singleton.1 h] at hd0; exact absurd hd0 hx
    · intro d hd hd0
      rcases List.mem_append.1 hd with h | h
      · exact h6 d h hd0
      · rw [List.mem_singleton.1 h] at hd0; exact absurd hd0 hx

theorem tracked_step (b : Board) (f : Cell → F) (pre : List Cell) (mx : Option F)
    (best : Option Cell) (x : Cell) (hx : getCell b x.1 x.2 = 0)
    (hpre : ∀ d ∈ pre, rowMajorIndex d < rowMajorIndex x)
    (ht : Tracked b f pre mx best) :
    Tracked b f (pre ++ [x]) (if exceeds (f x) mx then some (f x) else mx)
      (if exceeds (f x) mx then some x else best) := by
  right
  rcases ht with ⟨h1, h2, h3⟩ | ⟨c, h1, h2, h3, h4, h5, h6⟩
  · subst h1; subst h2
    refine ⟨x, by simp [exceeds], by simp [exceeds], by simp, hx, ?_, ?_⟩
    · intro d hd hd0
      rcases List.mem_append.1 hd with h | h
      · exact absurd hd0 (h3 d h)
      · rw [List.mem_singleton.1 h]
    · intro d hd hd0 hlt
      rcases List.mem_append.1 hd with h | h
      · exact absurd hd0 (h3 d h)
      · rw [List.mem_singleton.1 h] at hlt; omega
  · subst h1; subst h2
    by_cases hgt : f x > f c
    · refine ⟨x, by simp [exceeds, hgt], by simp [exceeds, hgt], by simp, hx, ?_, ?_⟩
      · intro d hd hd0
        rcases List.mem_append.1 hd with h | h
        · exact le_trans (h5 d h hd0) (le_of_lt hgt)
        · rw [List.mem_singleton.1 h]
      · intro d hd hd0 hlt
        rcases List.mem_append.1 hd with h | h
        · exact lt_of_le_of_lt (h5 d h hd0) hgt
        · rw [List.mem_singleton.1 h] at hlt; omega
    · refine ⟨c, by simp [exceeds, hgt], by simp [exceeds, hgt], List.mem_append_left _ h3,
        h4, ?_, ?_⟩
      · intro d hd hd0
        rcases List.mem_append.1 hd with h | h
        · exact h5 d h hd0
        · rw [List.mem_singleton.1 h]; exact le_of_not_lt hgt
      · intro d hd hd0 hlt
        rcases List.mem_append.1 hd with h | h
        · exact h6 d h hd0 hlt
        · rw [List.mem_singleton.1 h] at hlt
          have := hpre c h3
          omega

theorem strategicStep_attack (attackScore defenseScore : Int → Int → F)
    (aiParams : AIParams F) (i j : Int) (s : Best F) :
    (strategicStep attackScore defenseScore aiParams i j s).maxAttackScore
        = (if exceeds (attackScore i j * aiParams.aggressiveness) s.maxAttackScore
            then some (attackScore i j * aiParams.aggressiveness) else s.maxAttackScore)
      ∧ (strategicStep attackScore defenseScore aiParams i j s).bestAttackMove
        = (if exceeds (attackScore i j * aiParams.aggressiveness) s.maxAttackScore
            then some (i, j) else s.bestAttackMove) := by
  unfold strategicStep
  simp only
  split_ifs <;> exact ⟨rfl, rfl⟩

theorem strategicStep_defense (attackScore defenseScore : Int → Int → F)
    (aiParams : AIParams F) (i j : Int) (s : Best F) :
    (strategicStep attackScore defenseScore aiParams i j s).maxDefenseScore
        = (if exceeds (defenseScore i j * aiParams.defensiveness) s.maxDefenseScore
            then some (defenseScore i j * aiParams.defensiveness) else s.maxDefenseScore)
      ∧ (strategicStep attackScore defenseScore aiParams i j s).bestDefenseMove
        = (if exceeds (defenseScore i j * aiParams.defensiveness) s.maxDefenseScore
            then some (i, j) else s.bestDefenseMove) := by
  unfold strategicStep
  simp only
  by_cases h1 : exceeds (attackScore i j * aiParams.aggressiveness) s.maxAttackScore = true
  · simp only [h1, if_true]
    split_ifs <;> exact ⟨rfl, rfl⟩
  · simp only [h1]
    split_ifs <;> exact ⟨rfl, rfl⟩

theorem strategicLoop_tracked (attackScore defenseScore : Int → Int → F) (b : Board)
    (aiParams : AIParams F) :
    ∀ (rest pre : List Cell) (s : Best F),
      (pre ++ rest).Pairwise (fun x y => rowMajorIndex x < rowMajorIndex y) →
      Tracked b (fun c => attackScore c.1 c.2 * aiParams.aggressiveness) pre
        s.maxAttackScore s.bestAttackMove →
      Tracked b (fun c => defenseScore c.1 c.2 * aiParams.defensiveness) pre
        s.maxDefenseScore s.bestDefenseMove →
      Tracked b (fun c => attackScore c.1 c.2 * aiParams.aggressiveness) (pre ++ rest)
          (strategicLoop attackScore defenseScore b aiParams rest s).maxAttackScore
          (strategicLoop attackScore defenseScore b aiParams rest s).bestAttackMove
        ∧ Tracked b (fun c => defenseScore c.1 c.2 * aiParams.defensiveness) (pre ++ rest)
          (strategicLoop attackScore defenseScore b aiParams rest s).maxDefenseScore
          (strategicLoop attackScore defenseScore b aiParams rest s).bestDefenseMove := by
  intro rest
  induction rest with
  | nil =>
    intro pre s _ ha hd
    rw [List.append_nil]
    exact ⟨ha, hd⟩
  | cons x rest ih =>
    intro pre s hpw ha hd
    obtain ⟨i, j⟩ := x
    have hsplit : pre ++ (i, j) :: rest = (pre ++ [(i, j)]) ++ rest := by simp
    have hlt : ∀ d ∈ pre, rowMajorIndex d < rowMajorIndex (i, j) := by
      intro d hdm
      rw [List.pairwise_append] at hpw
      exact hpw.2.2 d hdm (i, j) (List.mem_cons_self _ _)
    rw [strategicLoop_cons, hsplit]
    rw [hsplit] at hpw
    by_cases h0 : getCell b i j = 0
    · rw [if_pos h0]
      apply ih (pre ++ [(i, j)]) _ hpw
      · rw [(strategicStep_attack attackScore defenseScore aiParams i j s).1,
          (strategicStep_attack attackScore defenseScore aiParams i j s).2]
        exact tracked_step b _ pre _ _ (i, j) h0 hlt ha
      · rw [(strategicStep_defense attackScore defenseScore aiParams i j s).1,
          (strategicStep_defense attackScore defenseScore aiParams i j s).2]
        exact tracked_step b _ pre _ _ (i, j) h0 hlt hd
    · rw [if_neg h0]
      exact ih (pre ++ [(i, j)]) s hpw (tracked_skip b _ pre _ _ (i, j) h0 ha)
        (tracked_skip b _ pre _ _ (i, j) h0 hd)

theorem tracked_cells_some (b : Board) (f : Cell → F) (mx : Option F) (best : Option Cell)
    (h : ∃ c ∈ cells, getCell b c.1 c.2 = 0) (ht : Tracked b f cells mx best) :
    ∃ c, best = some c ∧ mx = some (f c) ∧ IsFirstMaxCell b f c := by
  rcases ht with ⟨_, _, h3⟩ | ⟨c, h1, h2, h3, h4, h5, h6⟩
  · obtain ⟨c, hc, h0⟩ := h
    exact absurd h0 (h3 c hc)
  · exact ⟨c, h1, h2, h3, h4, h5, h6⟩


/-! ## `selectRandomMove` picks by running remainder -/

theorem foldl_add_eq_sum (l : List F) (a : F) :
    l.foldl (fun sum w => sum + w) a = a + l.sum := by
  induction l generalizing a with
  | nil => simp
  | cons x l ih => rw [List.foldl_cons, ih, List.sum_cons, add_assoc]

theorem foldl_sub_eq_sum (W : Cell → F) (l : List Cell) (a : F) :
    l.foldl (fun r d => r - W d) a = a - (l.map W).sum := by
  induction l generalizing a with
  | nil => simp
  | cons x l ih => rw [List.foldl_cons, ih, List.map_cons, List.sum_cons, sub_sub]

theorem emptyCells_eq_map (m : JSMath F) (b : Board) :
    emptyCells m b = (emptyCellList b).map (fun c => (c.1, c.2, cellWeight m b c)) := by
  unfold emptyCells emptyCellList cellWeight
  apply List.map_congr_left
  intro c _
  simp only [Prod.mk.injEq, true_and]
  by_cases h1 : centerDistance m c.1 c.2 ≤ 3
  · by_cases h2 : moveCount b < 10
    · simp [h1, h2]
    · simp [h1, h2]
  · simp [h1]

theorem pickLoop_hit (m : JSMath F) (W : Cell → F) :
    ∀ (l : List Cell) (r : F) (c : Cell),
      pickLoop m (l.map (fun c => (c.1, c.2, W c))) r = some c →
      ∃ pre post, l = pre ++ c :: post
        ∧ pre.foldl (fun r d => m.fl (r - W d)) r < W c
        ∧ ∀ pre1 d post1, pre = pre1 ++ d :: post1 →
            W d ≤ pre1.foldl (fun r d => m.fl (r - W d)) r := by
  intro l
  induction l with
  | nil => intro r c h; simp [pickLoop] at h
  | cons x l ih =>
    intro r c h
    rw [List.map_cons] at h
    unfold pickLoop at h
    by_cases hlt : r < W x
    · rw [if_pos hlt] at h
      simp only [Option.some.injEq, Prod.mk.eta] at h
      subst h
      refine ⟨[], l, rfl, by simpa using hlt, ?_⟩
      intro pre1 d post1 hsplit
      simp at hsplit
    · rw [if_neg hlt] at h
      obtain ⟨pre, post, hl, hr, hfirst⟩ := ih (m.fl (r - W x)) c h
      refine ⟨x :: pre, post, by rw [hl]; rfl, ?_, ?_⟩
      · rw [List.foldl_cons]; exact hr
      · intro pre1 d post1 hsplit
        cases pre1 with
        | nil =>
          simp only [List.nil_append, List.cons.injEq] at hsplit
          rw [← hsplit.1]
          simpa using le_of_not_lt hlt
        | cons y pre2 =>
          simp only [List.cons_append, List.cons.injEq] at hsplit
          have := hfirst pre2 d post1 hsplit.2
          rw [List.foldl_cons, ← hsplit.1]
          exact this

theorem pickLoop_miss (m : JSMath F) (W : Cell → F) :
    ∀ (l : List Cell) (r : F),
      pickLoop m (l.map (fun c => (c.1, c.2, W c))) r = none →
      ∀ pre1 d post1, l = pre1 ++ d :: post1 →
        W d ≤ pre1.foldl (fun r d => m.fl (r - W d)) r := by
  intro l
  induction l with
  | nil => intro r _ pre1 d post1 hsplit; simp at hsplit
  | cons x l ih =>
    intro r h pre1 d post1 hsplit
    rw [List.map_cons] at h
    unfold pickLoop at h
    by_cases hlt : r < W x
    · rw [if_pos hlt] at h; simp at h
    · rw [if_neg hlt] at h
      cases pre1 with
      | nil =>
        simp only [List.nil_append, List.cons.injEq] at hsplit
        rw [← hsplit.1]
        simpa using le_of_not_lt hlt
      | cons y pre2 =>
        simp only [List.cons_append, List.cons.injEq] at hsplit
        have := ih (m.fl (r - W x)) h pre2 d post1 hsplit.2
        rw [List.foldl_cons, ← hsplit.1]
        exact this

theorem emptyCellList_pairwise (b : Board) :
    (emptyCellList b).Pairwise (fun x y => rowMajorIndex x < rowMajorIndex y) :=
  cells_pairwise.filter _

theorem mem_emptyCellList (b : Board) (c : Cell) :
    c ∈ emptyCellList b ↔ c ∈ cells ∧ getCell b c.1 c.2 = 0 := by
  simp [emptyCellList, List.mem_filter]

theorem cumulativeWeight_of_split (m : JSMath F) (b : Board) (pre post : List Cell) (c : Cell)
    (h : emptyCellList b = pre ++ c :: post) :
    cumulativeWeight m b c = (pre.map (cellWeight m b)).sum + cellWeight m b c := by
  have hpw := emptyCellList_pairwise b
  rw [h, List.pairwise_append, List.pairwise_cons] at hpw
  obtain ⟨_, ⟨hpost, _⟩, hcross⟩ := hpw
  unfold cumulativeWeight
  rw [h, List.filter_append, List.filter_cons]
  have h1 : pre.filter (fun d => decide (rowMajorIndex d ≤ rowMajorIndex c)) = pre := by
    rw [List.filter_eq_self]
    intro d hd
    have := hcross d hd c (List.mem_cons_self _ _)
    simp only [decide_eq_true_eq]
    omega
  have h2 : post.filter (fun d => decide (rowMajorIndex d ≤ rowMajorIndex c)) = [] := by
    rw [List.filter_eq_nil_iff]
    intro d hd
    have := hpost d hd
    simp only [decide_eq_true_eq]
    omega
  rw [h1, h2]
  simp

theorem remainderAt_of_split (m : JSMath F) (b : Board) (u : F) (pre post : List Cell)
    (c : Cell) (h : emptyCellList b = pre ++ c :: post) :
    remainderAt m b u c
      = pre.foldl (fun r d => m.fl (r - cellWeight m b d)) (m.fl (u * accumulatedWeight m b)) := by
  have hpw := emptyCellList_pairwise b
  rw [h, List.pairwise_append, List.pairwise_cons] at hpw
  obtain ⟨_, ⟨hpost, _⟩, hcross⟩ := hpw
  unfold remainderAt
  rw [h, List.filter_append, List.filter_cons]
  have h1 : pre.filter (fun d => decide (rowMajorIndex d < rowMajorIndex c)) = pre := by
    rw [List.filter_eq_self]
    intro d hd
    have := hcross d hd c (List.mem_cons_self _ _)
    simp only [decide_eq_true_eq]
    omega
  have h2 : post.filter (fun d => decide (rowMajorIndex d < rowMajorIndex c)) = [] := by
    rw [List.filter_eq_nil_iff]
    intro d hd
    have := hpost d hd
    simp only [decide_eq_true_eq]
    omega
  rw [h1, h2]
  simp

/-- The value of `selectRandomMove` on a board with the Empty cells `e :: es`. -/
theorem selectRandomMove_eq (m : JSMath F) (b : Board) (u : F) (e : Cell) (es : List Cell)
    (hE : emptyCellList b = e :: es) :
    selectRandomMove m b u
      = match pickLoop m ((emptyCellList b).map (fun c => (c.1, c.2, cellWeight m b c)))
          (m.fl (u * accumulatedWeight m b)) with
        | some c => c
        | none => e := by
  unfold selectRandomMove accumulatedWeight
  rw [emptyCells_eq_map, hE]
  simp only [List.map_cons, List.map_map]
  rfl

theorem cellWeight_exact (m : JSMath F) (hfl : ∀ x, m.fl x = x) (b : Board) (c : Cell) :
    cellWeight m b c = 10 / (1 + centerDistance m c.1 c.2)
      * (if centerDistance m c.1 c.2 ≤ 3 ∧ moveCount b < 10 then 5 else 1) := by
  unfold cellWeight
  rw [hfl, hfl, hfl]

theorem cellWeight_pos (m : JSMath F) (hfl : ∀ x, m.fl x = x) (hsqrt : ∀ x, 0 ≤ m.sqrt x)
    (b : Board) (c : Cell) : 0 < cellWeight m b c := by
  rw [cellWeight_exact m hfl]
  have hd : 0 ≤ centerDistance m c.1 c.2 := hsqrt _
  apply mul_pos
  · apply div_pos (by norm_num); linarith
  · split_ifs <;> norm_num

theorem sum_map_pos (W : Cell → F) (hW : ∀ c, 0 < W c) :
    ∀ l : List Cell, l ≠ [] → 0 < (l.map W).sum := by
  intro l
  induction l with
  | nil => intro h; exact absurd rfl h
  | cons x l ih =>
    intro _
    rw [List.map_cons, List.sum_cons]
    by_cases hl : l = []
    · subst hl; simpa using hW x
    · have := ih hl
      have := hW x
      linarith

theorem accumulatedWeight_exact (m : JSMath F) (hfl : ∀ x, m.fl x = x) (b : Board) :
    accumulatedWeight m b = totalWeight m b := by
  unfold accumulatedWeight totalWeight
  simp only [hfl]
  rw [foldl_add_eq_sum, zero_add]

theorem remainder_exact (m : JSMath F) (hfl : ∀ x, m.fl x = x) (b : Board) (u : F)
    (pre : List Cell) :
    pre.foldl (fun r d => m.fl (r - cellWeight m b d)) (m.fl (u * accumulatedWeight m b))
      = u * totalWeight m b - (pre.map (cellWeight m b)).sum := by
  simp only [hfl]
  rw [foldl_sub_eq_sum, accumulatedWeight_exact m hfl]

/-- The weighted pick in any arithmetic: the first Empty cell whose weight
exceeds the remainder that reaches it, and the first Empty cell of the board
when there is no such cell. -/
theorem selectRandomMove_rounded (m : JSMath F) (b : Board) (u : F)
    (hne : ∃ c ∈ cells, getCell b c.1 c.2 = 0) :
    selectRandomMove m b u ∈ cells
      ∧ getCell b (selectRandomMove m b u).1 (selectRandomMove m b u).2 = 0
      ∧ ((remainderAt m b u (selectRandomMove m b u) < cellWeight m b (selectRandomMove m b u)
            ∧ ∀ d ∈ cells, getCell b d.1 d.2 = 0 →
                rowMajorIndex d < rowMajorIndex (selectRandomMove m b u) →
                cellWeight m b d ≤ remainderAt m b u d)
          ∨ ((∀ d ∈ cells, getCell b d.1 d.2 = 0 → cellWeight m b d ≤ remainderAt m b u d)
            ∧ ∀ d ∈ cells, getCell b d.1 d.2 = 0 →
                rowMajorIndex (selectRandomMove m b u) ≤ rowMajorIndex d)) := by
  have hEne : emptyCellList b ≠ [] := by
    obtain ⟨c, hc, h0⟩ := hne
    intro hnil
    have := (mem_emptyCellList b c).2 ⟨hc, h0⟩
    rw [hnil] at this
    exact absurd this (List.not_mem_nil c)
  cases hE : emptyCellList b with
  | nil => exact absurd hE hEne
  | cons e es =>
    have hsel := selectRandomMove_eq m b u e es hE
    cases hp : pickLoop m ((emptyCellList b).map (fun c => (c.1, c.2, cellWeight m b c)))
        (m.fl (u * accumulatedWeight m b)) with
    | some c =>
      rw [hp] at hsel
      simp only at hsel
      rw [hsel]
      obtain ⟨pre, post, hsplit, hr, hfirst⟩ := pickLoop_hit m (cellWeight m b) _ _ c hp
      have hcmem : c ∈ emptyCellList b := by rw [hsplit]; simp
      have hc2 := (mem_emptyCellList b c).1 hcmem
      refine ⟨hc2.1, hc2.2, Or.inl ⟨?_, ?_⟩⟩
      · rw [remainderAt_of_split m b u pre post c hsplit]
        exact hr
      · intro d hd hd0 hrank
        have hdmem : d ∈ emptyCellList b := (mem_emptyCellList b d).2 ⟨hd, hd0⟩
        have hpw := emptyCellList_pairwise b
        rw [hsplit, List.pairwise_append, List.pairwise_cons] at hpw
        obtain ⟨_, ⟨hpost, _⟩, _⟩ := hpw
        rw [hsplit, List.mem_append, List.mem_cons] at hdmem
        have hdpre : d ∈ pre := by
          rcases hdmem with h | h | h
          · exact h
          · subst h; omega
          · have := hpost d h; omega
        obtain ⟨pre1, post1, hpre⟩ := List.append_of_mem hdpre
        have hsplit2 : emptyCellList b = pre1 ++ d :: (post1 ++ c :: post) := by
          rw [hsplit, hpre]; simp
        rw [remainderAt_of_split m b u pre1 _ d hsplit2]
        exact hfirst pre1 d post1 hpre
    | none =>
      rw [hp] at hsel
      simp only at hsel
      rw [hsel]
      have hemem : e ∈ emptyCellList b := by rw [hE]; exact List.mem_cons_self _ _
      have he2 := (mem_emptyCellList b e).1 hemem
      refine ⟨he2.1, he2.2, Or.inr ⟨?_, ?_⟩⟩
      · intro d hd hd0
        have hdmem : d ∈ emptyCellList b := (mem_emptyCellList b d).2 ⟨hd, hd0⟩
        obtain ⟨pre1, post1, hsplit⟩ := List.append_of_mem hdmem
        rw [remainderAt_of_split m b u pre1 post1 d hsplit]
        exact pickLoop_miss m (cellWeight m b) _ _ hp pre1 d post1 hsplit
      · intro d hd hd0
        have hdmem : d ∈ emptyCellList b := (mem_emptyCellList b d).2 ⟨hd, hd0⟩
        have hpw := emptyCellList_pairwise b
        rw [hE, List.pairwise_cons] at hpw
        rw [hE, List.mem_cons] at hdmem
        rcases hdmem with h | h
        · rw [h]
        · exact le_of_lt (hpw.1 d h)

/-- The weighted pick in exact arithmetic: the first Empty cell whose
cumulative weight exceeds `u` times the total weight. -/
theorem selectRandomMove_exact (m : JSMath F) (hfl : ∀ x, m.fl x = x)
    (hsqrt : ∀ x, 0 ≤ m.sqrt x) (b : Board) (u : F)
    (hu : u < 1) (hne : ∃ c ∈ cells, getCell b c.1 c.2 = 0) :
    u * totalWeight m b < cumulativeWeight m b (selectRandomMove m b u)
      ∧ ∀ d ∈ cells, getCell b d.1 d.2 = 0 →
          rowMajorIndex d < rowMajorIndex (selectRandomMove m b u) →
          cumulativeWeight m b d ≤ u * totalWeight m b := by
  have hEne : emptyCellList b ≠ [] := by
    obtain ⟨c, hc, h0⟩ := hne
    intro hnil
    have := (mem_emptyCellList b c).2 ⟨hc, h0⟩
    rw [hnil] at this
    exact absurd this (List.not_mem_nil c)
  have htot : 0 < totalWeight m b :=
    sum_map_pos _ (cellWeight_pos m hfl hsqrt b) _ hEne
  have hlt : u * totalWeight m b < totalWeight m b := by nlinarith
  -- the remainder and the cumulative weight at a cell of the list
  have hrem : ∀ d ∈ cells, getCell b d.1 d.2 = 0 →
      remainderAt m b u d = u * totalWeight m b - cumulativeWeight m b d + cellWeight m b d := by
    intro d hd hd0
    have hdmem : d ∈ emptyCellList b := (mem_emptyCellList b d).2 ⟨hd, hd0⟩
    obtain ⟨pre1, post1, hsplit⟩ := List.append_of_mem hdmem
    rw [remainderAt_of_split m b u pre1 post1 d hsplit, remainder_exact m hfl,
      cumulativeWeight_of_split m b pre1 post1 d hsplit]
    ring
  obtain ⟨hc1, hc0, hcase⟩ := selectRandomMove_rounded m b u hne
  rcases hcase with ⟨hhit, hbefore⟩ | ⟨hmiss, _⟩
  · refine ⟨?_, ?_⟩
    · rw [hrem _ hc1 hc0] at hhit
      linarith
    · intro d hd hd0 hrank
      have := hbefore d hd hd0 hrank
      rw [hrem d hd hd0] at this
      linarith
  · -- the loop cannot pass the last Empty cell
    exfalso
    have hlast := List.dropLast_append_getLast hEne
    have hmemL : (emptyCellList b).getLast hEne ∈ emptyCellList b := List.getLast_mem hEne
    have hL := (mem_emptyCellList b _).1 hmemL
    have h1 := hmiss _ hL.1 hL.2
    rw [hrem _ hL.1 hL.2] at h1
    have hcum : cumulativeWeight m b ((emptyCellList b).getLast hEne) = totalWeight m b := by
      rw [cumulativeWeight_of_split m b (emptyCellList b).dropLast [] _ hlast.symm]
      unfold totalWeight
      conv_rhs => rw [← hlast]
      rw [List.map_append, List.sum_append]
      simp
    rw [hcum] at h1
    linarith

end LastLemmas

set_option maxRecDepth 100000 in
theorem emptyBoard_empty : ∀ c ∈ cells, getCell emptyBoard c.1 c.2 = 0 := by
  decide!

/-! # The claims, concluded -/

/-- Claim C21 fails: the cells of the board that pass the star-point test of
`evaluateBoard` are the six cells `(3,3)`, `(3,7)`, `(3,11)`, `(11,3)`,
`(11,7)`, `(11,11)`, and on the empty board with `searchDepth = 1` every cell
scores its base and direction scores plus `5` exactly when it is one of these
six: six cells receive the bonus, not eight. -/
theorem star_points_counterexample :
    cells.filter (fun c => decide (isStarPoint c.1 c.2))
        = [(3, 3), (3, 7), (3, 11), (11, 3), (11, 7), (11, 11)]
      ∧ (cells.filter (fun c => decide (isStarPoint c.1 c.2))).length = 6
      ∧ ∀ c ∈ cells,
          evaluateBoard ⟨fun x y => x ^ y, Real.exp, Real.sqrt, fun x => x⟩ emptyBoard 2 (⟨1, 0.6, 0.75, 0.22⟩ : AIParams ℝ) c.1 c.2
            = scoreBeforeBonus ⟨fun x y => x ^ y, Real.exp, Real.sqrt, fun x => x⟩ emptyBoard 2 (⟨1, 0.6, 0.75, 0.22⟩ : AIParams ℝ) c.1 c.2
              + (if c ∈ [(3, 3), (3, 7), (3, 11), (11, 3), (11, 7), (11, 11)]
                  then 5 * ((1 : Int) : ℝ) else 0) := by
  refine ⟨starPoints_eq, by rw [starPoints_eq]; rfl, ?_⟩
  intro c hc
  rw [evaluateBoard_bonus ⟨fun x y => x ^ y, Real.exp, Real.sqrt, fun x => x⟩ emptyBoard 2 _ c.1 c.2 (emptyBoard_empty c hc)]
  congr 1
  by_cases h : isStarPoint c.1 c.2
  · rw [if_pos h,
      if_pos (show c ∈ [(3, 3), (3, 7), (3, 11), (11, 3), (11, 7), (11, 11)]
        from (isStarPoint_iff_mem c).1 h)]
  · rw [if_neg h,
      if_neg (show ¬ c ∈ [(3, 3), (3, 7), (3, 11), (11, 3), (11, 7), (11, 11)]
        from fun hm => h ((isStarPoint_iff_mem c).2 hm))]

/-- Claim C21 as amended: the star-point bonus of `evaluateBoard` is applied
at exactly six fixed coordinates, `(3,3)`, `(3,7)`, `(3,11)`, `(11,3)`,
`(11,7)`, `(11,11)`: on every board an Empty cell scores its base and
direction scores plus `5 * searchDepth` when it is one of the six, and its
base and direction scores alone otherwise. -/
theorem star_bonus_six_cells {F : Type} [LinearOrderedField F] (m : JSMath F) (b : Board)
    (player : Nat) (aiParams : AIParams F) (i j : Int) (h : getCell b i j = 0) :
    evaluateBoard m b player aiParams i j
        = scoreBeforeBonus m b player aiParams i j
          + (if (i, j) ∈ starPoints then 5 * (aiParams.searchDepth : F) else 0)
      ∧ starPoints.length = 6 ∧ starPoints.Nodup ∧ ∀ c ∈ starPoints, c ∈ cells := by
  refine ⟨?_, rfl, by decide, by decide⟩
  rw [evaluateBoard_bonus m b player aiParams i j h]
  congr 1
  by_cases hs : isStarPoint i j
  · rw [if_pos hs, if_pos ((isStarPoint_iff_mem (i, j)).1 hs)]
  · rw [if_neg hs, if_neg (fun hm => hs ((isStarPoint_iff_mem (i, j)).2 hm))]

/-- Claim C21 as amended, at the star point `(3, 7)` of the empty board. -/
theorem star_bonus_six_cells_witness :
    getCell emptyBoard 3 7 = 0
      ∧ evaluateBoard ⟨fun x y => x ^ y, Real.exp, Real.sqrt, fun x => x⟩ emptyBoard 2 (⟨2, 0.8, 1.0, 0.14⟩ : AIParams ℝ) 3 7
          = scoreBeforeBonus ⟨fun x y => x ^ y, Real.exp, Real.sqrt, fun x => x⟩ emptyBoard 2 (⟨2, 0.8, 1.0, 0.14⟩ : AIParams ℝ) 3 7
            + (if ((3 : Int), (7 : Int)) ∈ starPoints then 5 * ((2 : Int) : ℝ) else 0) :=
  ⟨by decide,
    (star_bonus_six_cells ⟨fun x y => x ^ y, Real.exp, Real.sqrt, fun x => x⟩ emptyBoard 2 (⟨2, 0.8, 1.0, 0.14⟩ : AIParams ℝ) 3 7
      (by decide)).1⟩

/-- Claim C22: on a board that is not full, `findStrategicMove` returns the
first Empty cell, in row-major order, attaining the maximum `A` of the scaled
attack scores when `A * (0.4 + 0.4 * aggressiveness) >=
D * (0.6 + 0.3 * defensiveness)`, and otherwise the first Empty cell attaining
the maximum `D` of the scaled defense scores; a tie goes to the attack cell. -/
theorem findStrategicMove_spec {F : Type} [LinearOrderedField F] (m : JSMath F) (b : Board) (aiParams : AIParams F)
    (h : isBoardFull b = false) :
    ∃ cA cD, IsFirstMaxCell b (attackValue m b aiParams) cA
      ∧ IsFirstMaxCell b (defenseValue m b aiParams) cD
      ∧ findStrategicMove m b aiParams
          = some (if attackValue m b aiParams cA * (0.4 + 0.4 * aiParams.aggressiveness)
                    ≥ defenseValue m b aiParams cD * (0.6 + 0.3 * aiParams.defensiveness)
                  then cA else cD) := by
  have hempty := (isBoardFull_eq_false b).1 h
  have hinit : ∀ f : Cell → F, Tracked b f [] none none :=
    fun f => Or.inl ⟨rfl, rfl, fun d hd => absurd hd (List.not_mem_nil d)⟩
  have htr := strategicLoop_tracked (evaluateBoard m b 2 aiParams) (evaluateBoard m b 1 aiParams)
    b aiParams cells [] ⟨none, none, none, none⟩ (by simpa using cells_pairwise)
    (hinit _) (hinit _)
  rw [List.nil_append] at htr
  obtain ⟨cA, hA1, hA2, hA3⟩ := tracked_cells_some b _ _ _ hempty htr.1
  obtain ⟨cD, hD1, hD2, hD3⟩ := tracked_cells_some b _ _ _ hempty htr.2
  refine ⟨cA, cD, hA3, hD3, ?_⟩
  unfold findStrategicMove
  simp only
  rw [hA2, hD2]
  simp only [hA1, hD1, attackValue, defenseValue]
  rw [mul_comm (0.4 : F) aiParams.aggressiveness, mul_comm (0.3 : F) aiParams.defensiveness]
  split_ifs <;> rfl

/-- Claim C22 at the empty board with the parameters of difficulty 1. -/
theorem findStrategicMove_spec_witness :
    isBoardFull emptyBoard = false
      ∧ ∃ cA cD, IsFirstMaxCell emptyBoard
            (attackValue ⟨fun x y => x ^ y, Real.exp, Real.sqrt, fun x => x⟩ emptyBoard (⟨1, 0.6, 0.75, 0.22⟩ : AIParams ℝ)) cA
          ∧ IsFirstMaxCell emptyBoard
            (defenseValue ⟨fun x y => x ^ y, Real.exp, Real.sqrt, fun x => x⟩ emptyBoard (⟨1, 0.6, 0.75, 0.22⟩ : AIParams ℝ)) cD
          ∧ findStrategicMove ⟨fun x y => x ^ y, Real.exp, Real.sqrt, fun x => x⟩ emptyBoard (⟨1, 0.6, 0.75, 0.22⟩ : AIParams ℝ)
              = some (if attackValue ⟨fun x y => x ^ y, Real.exp, Real.sqrt, fun x => x⟩ emptyBoard (⟨1, 0.6, 0.75, 0.22⟩ : AIParams ℝ) cA
                          * (0.4 + 0.4 * (⟨1, 0.6, 0.75, 0.22⟩ : AIParams ℝ).aggressiveness)
                        ≥ defenseValue ⟨fun x y => x ^ y, Real.exp, Real.sqrt, fun x => x⟩ emptyBoard (⟨1, 0.6, 0.75, 0.22⟩ : AIParams ℝ) cD
                          * (0.6 + 0.3 * (⟨1, 0.6, 0.75, 0.22⟩ : AIParams ℝ).defensiveness)
                      then cA else cD) :=
  ⟨by decide,
    findStrategicMove_spec ⟨fun x y => x ^ y, Real.exp, Real.sqrt, fun x => x⟩ emptyBoard (⟨1, 0.6, 0.75, 0.22⟩ : AIParams ℝ) (by decide)⟩

set_option maxRecDepth 1000000 in
/-- The model of doubles at known values: the doubles nearest to `1 / 10` and
to the square root of `2`, and a tie rounded to the even significand. -/
theorem roundDouble_values :
    roundDouble (1 / 10) = 3602879701896397 / 36028797018963968
      ∧ sqrtDouble 2 = 6369051672525773 / 4503599627370496
      ∧ roundDouble (2 ^ 53 + 1) = 2 ^ 53
      ∧ roundDouble (2 ^ 53 + 3) = 2 ^ 53 + 4
      ∧ roundDouble lastDraw = lastDraw := by
  decide!

set_option maxRecDepth 1000000 in
/-- Claim C23 fails in the arithmetic of doubles: on `fiveBoard` (nine stones,
not full), with the mistake draw `0.125` below `mistakeRate = 0.22` and the
draw `u = 1 - 2 ^ (-52)` of `selectRandomMove`, a number of `[0, 1)`, the
rounded subtractions leave the loop without a hit (at the last Empty cell
`(14, 14)` the remainder is still above the weight) and `makeAIMove` returns
the first Empty cell `(0, 0)`.  The cumulative weight of `(0, 0)`, its own
weight, does not exceed `u` times the total weight, whether the total is the
exact sum of the weights or the sum `659.8351620771786` that the code
accumulates. -/
theorem mistake_branch_fallback_counterexample :
    (0 ≤ lastDraw ∧ lastDraw < 1)
      ∧ isBoardFull fiveBoard = false
      ∧ makeAIMove doubleMath fiveBoard (⟨1, 0.6, 0.75, 0.22⟩ : AIParams ℚ)
          (fun k => if k = 2 then lastDraw else 0.125) = (some (0, 0), fiveBoard)
      ∧ ¬ (lastDraw * totalWeight doubleMath fiveBoard
            < cumulativeWeight doubleMath fiveBoard (0, 0))
      ∧ ¬ (remainderAt doubleMath fiveBoard lastDraw (0, 0)
            < cellWeight doubleMath fiveBoard (0, 0))
      ∧ accumulatedWeight doubleMath fiveBoard = 5803971464954555 / 8796093022208
      ∧ cellWeight doubleMath fiveBoard (14, 14) = 4131934235083496 / 4503599627370496
      ∧ remainderAt doubleMath fiveBoard lastDraw (14, 14)
          = 4131934235083675 / 4503599627370496 := by
  decide!

/-- Claim C23 as amended: when the mistake draw is below `mistakeRate` and the
board is not full, `makeAIMove` returns the cell of `selectRandomMove`
whatever winning or blocking move exists.  In any arithmetic this is the
first Empty cell, in row-major order, whose weight exceeds the remainder that
reaches it (`u` times the accumulated total, less the weights of the Empty
cells before it), or the first Empty cell of the board when the loop passes
every cell.  In exact arithmetic (no rounding, a square root that is not
negative) and for a draw `u < 1` it is the first Empty cell whose cumulative
weight exceeds `u` times the total weight, the weight of a cell being
`10 / (1 + distanceToCenter)`, times 5 when `distanceToCenter <= 3` and fewer
than 10 stones are on the board. -/
theorem mistake_branch_weighted {F : Type} [LinearOrderedField F] [FloorRing F]
    (m : JSMath F) (b : Board) (aiParams : AIParams F) (rnd : Nat → F)
    (hfull : isBoardFull b = false) (hmistake : rnd 1 < aiParams.mistakeRate) :
    ∃ c, makeAIMove m b aiParams rnd = (some c, b)
      ∧ c ∈ cells ∧ getCell b c.1 c.2 = 0
      ∧ ((remainderAt m b (rnd 2) c < cellWeight m b c
            ∧ ∀ d ∈ cells, getCell b d.1 d.2 = 0 → rowMajorIndex d < rowMajorIndex c →
                cellWeight m b d ≤ remainderAt m b (rnd 2) d)
          ∨ ((∀ d ∈ cells, getCell b d.1 d.2 = 0 → cellWeight m b d ≤ remainderAt m b (rnd 2) d)
            ∧ ∀ d ∈ cells, getCell b d.1 d.2 = 0 → rowMajorIndex c ≤ rowMajorIndex d))
      ∧ ((∀ x, m.fl x = x) → (∀ x, 0 ≤ m.sqrt x) → rnd 2 < 1 →
          (∀ d : Cell, cellWeight m b d = 10 / (1 + centerDistance m d.1 d.2)
              * (if centerDistance m d.1 d.2 ≤ 3 ∧ moveCount b < 10 then 5 else 1))
          ∧ rnd 2 * totalWeight m b < cumulativeWeight m b c
          ∧ ∀ d ∈ cells, getCell b d.1 d.2 = 0 → rowMajorIndex d < rowMajorIndex c →
              cumulativeWeight m b d ≤ rnd 2 * totalWeight m b) := by
  have hne := (isBoardFull_eq_false b).1 hfull
  obtain ⟨h1, h2, h3⟩ := selectRandomMove_rounded m b (rnd 2) hne
  refine ⟨_, makeAIMove_mistake m b aiParams rnd hmistake, h1, h2, h3, ?_⟩
  intro hfl hsqrt hu
  exact ⟨cellWeight_exact m hfl b, selectRandomMove_exact m hfl hsqrt b (rnd 2) hu hne⟩

/-- Claim C23 as amended, over the reals at `computerFourBoard`, where the
computer has a winning cell, with the parameters of difficulty 1 and both
draws equal to 0.1: the cell returned is the first Empty cell whose
cumulative weight exceeds `0.1` times the total weight. -/
theorem mistake_branch_weighted_witness :
    isBoardFull computerFourBoard = false
      ∧ (fun _ => 0.1 : Nat → ℝ) 1 < (⟨1, 0.6, 0.75, 0.22⟩ : AIParams ℝ).mistakeRate
      ∧ ∃ c, makeAIMove ⟨fun x y => x ^ y, Real.exp, Real.sqrt, fun x => x⟩ computerFourBoard
              (⟨1, 0.6, 0.75, 0.22⟩ : AIParams ℝ) (fun _ => 0.1) = (some c, computerFourBoard)
          ∧ c ∈ cells ∧ getCell computerFourBoard c.1 c.2 = 0
          ∧ (fun _ => 0.1 : Nat → ℝ) 2
                * totalWeight ⟨fun x y => x ^ y, Real.exp, Real.sqrt, fun x => x⟩ computerFourBoard
              < cumulativeWeight ⟨fun x y => x ^ y, Real.exp, Real.sqrt, fun x => x⟩
                  computerFourBoard c
          ∧ ∀ d ∈ cells, getCell computerFourBoard d.1 d.2 = 0 →
              rowMajorIndex d < rowMajorIndex c →
              cumulativeWeight ⟨fun x y => x ^ y, Real.exp, Real.sqrt, fun x => x⟩
                  computerFourBoard d
                ≤ (fun _ => 0.1 : Nat → ℝ) 2
                    * totalWeight ⟨fun x y => x ^ y, Real.exp, Real.sqrt, fun x => x⟩
                        computerFourBoard := by
  refine ⟨by decide, by norm_num, ?_⟩
  obtain ⟨c, h1, h2, h3, _, h5⟩ :=
    mistake_branch_weighted ⟨fun x y => x ^ y, Real.exp, Real.sqrt, fun x => x⟩ computerFourBoard
      (⟨1, 0.6, 0.75, 0.22⟩ : AIParams ℝ) (fun _ => 0.1) (by decide) (by norm_num)
  have h6 := h5 (fun _ => rfl) Real.sqrt_nonneg (by norm_num)
  exact ⟨c, h1, h2, h3, h6.2.1, h6.2.2⟩

/-- Claim C24 fails when the computer wins: after two computer wins from the
initial state, a third computer win has the computer's updated streak 3 and
its pre-clamp rating change uses the bonus `0.15 * 3`, not `0.2 * 3`, so it
differs from `K * (1 - expectedWinner + 0.2 * streak)`. -/
theorem winner_bonus_counterexample :
    winnerStreak (recordGame (runGames ⟨fun x y => x ^ y, Real.exp, Real.sqrt, fun x => x⟩ (initialState : EloState ℝ)
        [Winner.ai, Winner.ai]) Winner.ai) Winner.ai = 3
      ∧ winnerDelta ⟨fun x y => x ^ y, Real.exp, Real.sqrt, fun x => x⟩ (recordGame (runGames ⟨fun x y => x ^ y, Real.exp, Real.sqrt, fun x => x⟩ (initialState : EloState ℝ)
          [Winner.ai, Winner.ai]) Winner.ai) Winner.ai
        ≠ claimedWinnerDelta ⟨fun x y => x ^ y, Real.exp, Real.sqrt, fun x => x⟩ (recordGame (runGames ⟨fun x y => x ^ y, Real.exp, Real.sqrt, fun x => x⟩ (initialState : EloState ℝ)
          [Winner.ai, Winner.ai]) Winner.ai) Winner.ai := by
  have hs := runGames_two_ai_streak (⟨fun x y => x ^ y, Real.exp, Real.sqrt, fun x => x⟩ : JSMath ℝ)
  refine ⟨hs, ?_⟩
  rw [winnerDelta_formula]
  unfold claimedWinnerDelta
  have hk := getDynamicKFactor_pos (recordGame (runGames ⟨fun x y => x ^ y, Real.exp, Real.sqrt, fun x => x⟩ (initialState : EloState ℝ)
    [Winner.ai, Winner.ai]) Winner.ai)
  have hw : winnerStreak (recordGame (runGames ⟨fun x y => x ^ y, Real.exp, Real.sqrt, fun x => x⟩ (initialState : EloState ℝ)
      [Winner.ai, Winner.ai]) Winner.ai) Winner.ai = 3 := hs
  rw [hw]
  simp only [streakCoefficient]
  intro heq
  have h2 := mul_left_cancel₀ (ne_of_gt hk) heq
  norm_num at h2

/-- Claim C24 as amended: the streak bonus used in the rating update is the
coefficient times the winner's updated streak when that streak is greater
than 2 and 0 otherwise, the coefficient being 0.2 when the human wins and 0.15
when the computer wins; the winner's pre-clamp rating change is
`K * (1 - expectedWinner + streakBonus)`. -/
theorem winner_change_formula {F : Type} [LinearOrderedField F] (m : JSMath F)
    (s : EloState F) (w : Winner) :
    winnerDelta m (recordGame s w) w
      = getDynamicKFactor (recordGame s w) * (1 - expectedWinner m (recordGame s w) w
          + (if winnerStreak (recordGame s w) w > 2
              then streakCoefficient w * (winnerStreak (recordGame s w) w : F) else 0)) :=
  winnerDelta_formula m (recordGame s w) w

/-- Claim C25: in `evaluateDirection` the combined slack is at most 2; when
the potential counter reaches 2 the same-side count is at least 2 and the
slack is exactly 2; so for `depth <= 1` the value returned is 0, 1000, 10000
or 100000, never 100 or 500. -/
theorem evaluateDirection_values {F : Type} [LinearOrderedField F] (b : Board) (row col dx dy : Int) (player : Nat)
    (depth : Int) :
    dirEmptyCount b row col dx dy player ≤ 2
      ∧ (2 ≤ dirPotential b row col dx dy player →
          2 ≤ dirPlayerCount b row col dx dy player
            ∧ dirEmptyCount b row col dx dy player = 2)
      ∧ (depth ≤ 1 →
          (evaluateDirection b row col dx dy player depth : F) = 0
            ∨ (evaluateDirection b row col dx dy player depth : F) = 1000
            ∨ (evaluateDirection b row col dx dy player depth : F) = 10000
            ∨ (evaluateDirection b row col dx dy player depth : F) = 100000) := by
  refine ⟨(dir_counts b row col dx dy player).1, (dir_counts b row col dx dy player).2, ?_⟩
  intro hd
  unfold evaluateDirection
  simp only
  rw [if_neg (fun h => by omega)]
  exact dirBaseScore_values b row col dx dy player

/-- Claim C25 at `splitTwoBoard`, cell `(7, 7)`, horizontal axis, computer
marks, depth 1: the potential counter is 2. -/
theorem evaluateDirection_values_witness :
    2 ≤ dirPotential splitTwoBoard 7 7 0 1 2 ∧ (1 : Int) ≤ 1
      ∧ 2 ≤ dirPlayerCount splitTwoBoard 7 7 0 1 2
      ∧ dirEmptyCount splitTwoBoard 7 7 0 1 2 = 2
      ∧ ((evaluateDirection splitTwoBoard 7 7 0 1 2 1 : ℝ) = 0
          ∨ (evaluateDirection splitTwoBoard 7 7 0 1 2 1 : ℝ) = 1000
          ∨ (evaluateDirection splitTwoBoard 7 7 0 1 2 1 : ℝ) = 10000
          ∨ (evaluateDirection splitTwoBoard 7 7 0 1 2 1 : ℝ) = 100000) :=
  ⟨by decide, le_refl 1,
    ((evaluateDirection_values (F := ℝ) splitTwoBoard 7 7 0 1 2 1).2.1 (by decide)).1,
    ((evaluateDirection_values (F := ℝ) splitTwoBoard 7 7 0 1 2 1).2.1 (by decide)).2,
    (evaluateDirection_values (F := ℝ) splitTwoBoard 7 7 0 1 2 1).2.2 (le_refl 1)⟩

/-- The bound on the depth in the theorem on the immediate-five score: at
depth 45, which the controller never produces, the open-four score of
`computerThreeBoard` at `(7, 7)` is scaled to `10000 * (1 + 45 * 0.2) =
100000`, while placing the computer's mark there makes only four in a row. -/
theorem evaluateDirection_depth_45 :
    computerThreeBoard.WF ∧ inRange 7 7 ∧ getCell computerThreeBoard 7 7 = 0
      ∧ ((0 : Int), (1 : Int)) ∈ directions
      ∧ (evaluateDirection computerThreeBoard 7 7 0 1 2 45 : ℝ) = 100000
      ∧ checkWin (setCell computerThreeBoard 7 7 2) 7 7 2 = false := by
  have hc := computerThreeBoard_counts
  refine ⟨by decide, by decide, hc.2.2.1, by decide, ?_, hc.2.2.2⟩
  unfold evaluateDirection dirBaseScore
  simp only [hc.1, hc.2.1]
  norm_num

/-- The depth that the controller hands to the search: in every state
reachable from the initial one, `getAIParams` gives `searchDepth` 1, 2 or 3. -/
theorem reachable_searchDepth {F : Type} [LinearOrderedField F] [FloorRing F] (m : JSMath F)
    (ws : List Winner) :
    1 ≤ (getAIParams (runGames m initialState ws)).searchDepth
      ∧ (getAIParams (runGames m initialState ws)).searchDepth ≤ 3 := by
  have hb : 1.0 ≤ (runGames m initialState ws).currentDifficulty
      ∧ (runGames m initialState ws).currentDifficulty ≤ 3.0 := by
    rcases List.eq_nil_or_concat ws with h | ⟨ws1, w1, h⟩
    · subst h
      simp only [runGames, List.foldl_nil, initialState, BASE_DIFFICULTY]
      norm_num
    · subst h
      rw [List.concat_eq_append, runGames_append]
      exact updateEloRatings_difficulty_bounds m _ w1
  generalize runGames m initialState ws = s at hb
  have h1 : (1 : F) ≤ s.currentDifficulty := by
    have := hb.1
    norm_num at this
    exact this
  have h3 : s.currentDifficulty ≤ 3 := by
    have := hb.2
    norm_num at this
    exact this
  have hlo : (1 : Int) ≤ ⌊s.currentDifficulty⌋ := Int.le_floor.2 (by simpa using h1)
  have hhi : ⌊s.currentDifficulty⌋ ≤ (3 : Int) := by
    have := Int.floor_le s.currentDifficulty
    have h : ((⌊s.currentDifficulty⌋ : Int) : F) ≤ ((3 : Int) : F) := by
      push_cast; linarith
    exact_mod_cast h
  exact ⟨hlo, hhi⟩

/-- Claim C26: on a 15x15 board, for an in-range cell (Empty or not), an axis
among the four orientations, any side and any depth below 45, if
`evaluateDirection` is at least 100000 then after placing the side's mark at
the cell `checkWin` is true.  The depths below 45 include every depth that
the code passes: `evaluateBoard` passes `aiParams.searchDepth`, which is 1, 2
or 3 in every state that the controller reaches. -/
theorem evaluateDirection_five_wins {F : Type} [LinearOrderedField F] [FloorRing F] (b : Board)
    (hwf : b.WF) (row col : Int) (hr : inRange row col) (dx dy : Int)
    (hd : (dx, dy) ∈ directions) (player : Nat) (depth : Int) (hdepth : depth < 45) :
    ((100000 : F) ≤ evaluateDirection b row col dx dy player depth →
        checkWin (setCell b row col player) row col player = true)
      ∧ ∀ (m : JSMath F) (ws : List Winner),
          1 ≤ (getAIParams (runGames m initialState ws)).searchDepth
            ∧ (getAIParams (runGames m initialState ws)).searchDepth ≤ 3
            ∧ (getAIParams (runGames m initialState ws)).searchDepth < 45 := by
  refine ⟨?_, ?_⟩
  · intro h
    have h4 : 4 ≤ dirPlayerCount b row col dx dy player := by
      by_contra hlt
      have := evaluateDirection_lt (F := F) b row col dx dy player depth hdepth (by omega)
      linarith
    have hl := lineCount_after_placing b hwf row col hr dx dy player
    unfold checkWin
    rw [List.any_eq_true]
    exact ⟨(dx, dy), hd, by simp only [decide_eq_true_eq]; omega⟩
  · intro m ws
    have := reachable_searchDepth m ws
    exact ⟨this.1, this.2, by omega⟩

/-- Claim C26 at `computerFourBoard`, cell `(7, 7)`, horizontal axis, with the
largest depth of the controller, 3. -/
theorem evaluateDirection_five_wins_witness :
    computerFourBoard.WF ∧ inRange 7 7 ∧ ((0 : Int), (1 : Int)) ∈ directions ∧ (3 : Int) < 45
      ∧ (100000 : ℝ) ≤ evaluateDirection computerFourBoard 7 7 0 1 2 3
      ∧ checkWin (setCell computerFourBoard 7 7 2) 7 7 2 = true :=
  have hcount : dirPlayerCount computerFourBoard 7 7 0 1 2 = 4 := by decide
  have hval : (100000 : ℝ) ≤ evaluateDirection computerFourBoard 7 7 0 1 2 3 := by
    unfold evaluateDirection dirBaseScore
    simp only [hcount]
    norm_num
  ⟨by decide, by decide, by decide, by decide, hval,
    (evaluateDirection_five_wins computerFourBoard (by decide) 7 7 (by decide) 0 1 (by decide)
      2 3 (by decide)).1 hval⟩

/-- Claim C27: in every controller state reachable from the initial state by
`updateEloRatings` calls, `playerStreak + aiStreak = 0`. -/
theorem streaks_are_negations {F : Type} [LinearOrderedField F] (m : JSMath F) (ws : List Winner) :
    (runGames m initialState ws).playerStreak + (runGames m initialState ws).aiStreak = 0 := by
  induction ws using List.reverseRecOn with
  | nil => rfl
  | append_singleton ws w ih =>
    rw [runGames_append, updateEloRatings_streaks.1, updateEloRatings_streaks.2]
    exact updateStreak_sum _ w ih

/-- Claim C28: on a board with at least one Empty cell `findStrategicMove`
returns a cell (it returns `null` exactly when the board is full), so
`selectOptimalMove` is not reached; hence two runs of `makeAIMove` on the same
board and parameters whose random sources both miss the mistake branch return
the same cell. -/
theorem makeAIMove_deterministic {F : Type} [LinearOrderedField F] [FloorRing F]
    (m : JSMath F) (b : Board) (aiParams : AIParams F) (rnd1 rnd2 : Nat → F)
    (hfull : isBoardFull b = false)
    (h1 : ¬ rnd1 1 < aiParams.mistakeRate) (h2 : ¬ rnd2 1 < aiParams.mistakeRate) :
    (∃ c, findStrategicMove m b aiParams = some c)
      ∧ (∀ b1 : Board, findStrategicMove m b1 aiParams = none ↔ isBoardFull b1 = true)
      ∧ makeAIMove m b aiParams rnd1 = makeAIMove m b aiParams rnd2 := by
  obtain ⟨c, hc, _⟩ := findStrategicMove_of_empty m b aiParams ((isBoardFull_eq_false b).1 hfull)
  exact ⟨⟨c, hc⟩, fun b1 => findStrategicMove_eq_none_iff m b1 aiParams,
    makeAIMove_no_mistake_indep m b aiParams rnd1 rnd2 hfull h1 h2⟩

/-- Claim C28 at `computerThreeBoard` with the parameters of difficulty 1 and
two random sources that both miss the mistake branch. -/
theorem makeAIMove_deterministic_witness :
    isBoardFull computerThreeBoard = false
      ∧ ¬ ((fun _ => 0.5 : Nat → ℝ) 1 < (⟨1, 0.6, 0.75, 0.22⟩ : AIParams ℝ).mistakeRate)
      ∧ ¬ ((fun _ => 0.9 : Nat → ℝ) 1 < (⟨1, 0.6, 0.75, 0.22⟩ : AIParams ℝ).mistakeRate)
      ∧ makeAIMove ⟨fun x y => x ^ y, Real.exp, Real.sqrt, fun x => x⟩ computerThreeBoard (⟨1, 0.6, 0.75, 0.22⟩ : AIParams ℝ) (fun _ => 0.5)
          = makeAIMove ⟨fun x y => x ^ y, Real.exp, Real.sqrt, fun x => x⟩ computerThreeBoard (⟨1, 0.6, 0.75, 0.22⟩ : AIParams ℝ)
              (fun _ => 0.9) :=
  ⟨by decide, by norm_num, by norm_num,
    (makeAIMove_deterministic ⟨fun x y => x ^ y, Real.exp, Real.sqrt, fun x => x⟩ computerThreeBoard (⟨1, 0.6, 0.75, 0.22⟩ : AIParams ℝ)
      (fun _ => 0.5) (fun _ => 0.9) (by decide) (by norm_num) (by norm_num)).2.2⟩

end Gomoku
